import Mathlib

/-!
# picosys-mandelbrot: a shallow embedding of the rendering engine

The definitions below follow `array_queue.hpp`, `buffer2d_utils.hpp`,
`tiny_mandelbrot_config.hpp` and `tiny_mandelbrot.hpp`.  Machine integers are
mathematical integers with explicit two's-complement wrapping (`wrap16`,
`wrap32`); arrays addressed through pointers are functions from indices to
values, and a pointer is the index it designates.
-/

/-! ## Machine integers -/

/-- Conversion of an integer to `int16_t` (two's-complement wraparound). -/
def wrap16 (v : Int) : Int := (v + 32768) % 65536 - 32768

/-- Conversion of an integer to `int32_t` (two's-complement wraparound). -/
def wrap32 (v : Int) : Int := (v + 2147483648) % 4294967296 - 2147483648

/-! ## array_queue.hpp -/

/-- The class `ArrayQueue<T>`: the three private indices, the two public
constants and the storage `array`. The indices are `int` in the source; they
never become negative, so they are naturals here. -/
structure ArrayQueue (T : Type) where
  _wr_ptr : Nat
  _rd_ptr : Nat
  _size : Nat
  CAPACITY : Nat
  INDEX_MASK : Nat
  array : Nat → T

namespace ArrayQueue

variable {T : Type}

/-- The members a successful construction initialises: the three indices
are `0`, `CAPACITY` is `2 ^ k` (the value of `1 << k`), `INDEX_MASK` is
`CAPACITY - 1`. The storage returned by `new T[CAPACITY]` is not initialised,
so its content `mem` is a parameter. -/
def fresh (k : Nat) (mem : Nat → T) : ArrayQueue T :=
  { _wr_ptr := 0
    _rd_ptr := 0
    _size := 0
    CAPACITY := 1 <<< k
    INDEX_MASK := (1 <<< k) - 1
    array := mem }

/-- The constructor `ArrayQueue(int capacity_bits)`. `CAPACITY(1 << capacity_bits)`
is computed in `int`, 32 bits wide: for `capacity_bits` in `[0, 30]` it is
`2 ^ capacity_bits`. For any other value the constructor has no defined result,
which is `none` here: `1 << 31` is negative and `new T[CAPACITY]` throws, and a
shift count that is negative or at least 32 is undefined in `int`. -/
def new (capacity_bits : Int) (mem : Nat → T) : Option (ArrayQueue T) :=
  if 0 ≤ capacity_bits ∧ capacity_bits ≤ 30 then some (fresh capacity_bits.toNat mem) else none

/-- The method `clear()`. -/
def clear (q : ArrayQueue T) : ArrayQueue T :=
  { q with _wr_ptr := 0, _rd_ptr := 0, _size := 0 }

/-- The method `size()`. -/
def size (q : ArrayQueue T) : Nat := q._size

/-- The method `empty()`: `_size <= 0`. -/
def empty (q : ArrayQueue T) : Bool := decide (q._size ≤ 0)

/-- The method `full()`: `_size >= CAPACITY`. -/
def full (q : ArrayQueue T) : Bool := decide (q._size ≥ q.CAPACITY)

/-- The method `push(T value)`: the returned flag and the queue afterwards. -/
def push (q : ArrayQueue T) (value : T) : Bool × ArrayQueue T :=
  if q.full then (false, q)
  else
    (true,
      { q with
        array := Function.update q.array q._wr_ptr value
        _wr_ptr := (q._wr_ptr + 1) &&& q.INDEX_MASK
        _size := q._size + 1 })

/-- The method `pop(T *value)`: the returned flag, the content of the output
slot afterwards (`slot` is its content before the call) and the queue
afterwards. -/
def pop (q : ArrayQueue T) (slot : T) : Bool × T × ArrayQueue T :=
  if q.empty then (false, slot, q)
  else
    (true, q.array q._rd_ptr,
      { q with
        _rd_ptr := (q._rd_ptr + 1) &&& q.INDEX_MASK
        _size := q._size - 1 })

/-- The queue after pushing `vs 0`, ..., `vs (n - 1)` in this order. -/
def pushN (q : ArrayQueue T) (vs : Nat → T) : Nat → ArrayQueue T
  | 0 => q
  | n + 1 => ((pushN q vs n).push (vs n)).2

/-- The content of the queue, oldest element first: the `n` slots that
start at index `r`, taken modulo the capacity. -/
def slots (q : ArrayQueue T) (r : Nat) : Nat → List T
  | 0 => []
  | n + 1 => q.array (r % q.CAPACITY) :: slots q (r + 1) n

/-- The content of the queue, oldest element first. -/
def toList (q : ArrayQueue T) : List T := slots q q._rd_ptr q._size

/-- Representation invariant of a queue of capacity `2 ^ k`. -/
structure WF (k : Nat) (q : ArrayQueue T) : Prop where
  cap : q.CAPACITY = 2 ^ k
  mask : q.INDEX_MASK = 2 ^ k - 1
  rd : q._rd_ptr < 2 ^ k
  wr : q._wr_ptr = (q._rd_ptr + q._size) % 2 ^ k
  sz : q._size ≤ 2 ^ k

end ArrayQueue

/-- One call made on a queue. -/
inductive QueueOp (T : Type) where
  | push (value : T)
  | pop
  | clear

/-- What a call returns: the flag (`true` for `clear`, which returns
nothing), and for a successful `pop` the value written to the output slot. -/
structure QueueRet (T : Type) where
  ok : Bool
  value : Option T

/-- One call on the `ArrayQueue`. -/
def ArrayQueue.step {T : Type} (q : ArrayQueue T) (slot : T) :
    QueueOp T → QueueRet T × ArrayQueue T
  | .push v => (⟨(q.push v).1, none⟩, (q.push v).2)
  | .pop =>
    (⟨(q.pop slot).1, if (q.pop slot).1 then some (q.pop slot).2.1 else none⟩,
      (q.pop slot).2.2)
  | .clear => (⟨true, none⟩, q.clear)

/-- A sequence of calls on the `ArrayQueue`: what each call returned and
the queue at the end. -/
def ArrayQueue.run {T : Type} (q : ArrayQueue T) (slot : T) :
    List (QueueOp T) → List (QueueRet T) × ArrayQueue T
  | [] => ([], q)
  | op :: ops =>
    ((q.step slot op).1 :: ((q.step slot op).2.run slot ops).1,
      ((q.step slot op).2.run slot ops).2)

/-- The specification of the frontier queue, in the words of the spec: a
FIFO list bounded by `cap` elements. A push appends at the back unless the
list is full; a pop removes the front unless the list is empty. -/
def fifoStep {T : Type} (cap : Nat) (l : List T) :
    QueueOp T → QueueRet T × List T
  | .push v => if l.length < cap then (⟨true, none⟩, l ++ [v]) else (⟨false, none⟩, l)
  | .pop =>
    match l with
    | [] => (⟨false, none⟩, [])
    | x :: rest => (⟨true, some x⟩, rest)
  | .clear => (⟨true, none⟩, [])

/-- A sequence of calls on the bounded FIFO list. -/
def fifoRun {T : Type} (cap : Nat) (l : List T) :
    List (QueueOp T) → List (QueueRet T) × List T
  | [] => ([], l)
  | op :: ops =>
    ((fifoStep cap l op).1 :: (fifoRun cap (fifoStep cap l op).2 ops).1,
      (fifoRun cap (fifoStep cap l op).2 ops).2)

/-! ## buffer2d_utils.hpp -/

/-- The struct `pos_t`; both fields are `int16_t`. -/
structure pos_t where
  x : Int
  y : Int
deriving DecidableEq

namespace pos_t

/-- The constructor `pos_t(int16_t x, int16_t y)`: the arguments are converted
to `int16_t`. -/
def new (x y : Int) : pos_t := ⟨wrap16 x, wrap16 y⟩

/-- The method `offset(int16_t dx, int16_t dy)`: `pos_t(x + dx, y + dy)`. -/
def offset (p : pos_t) (dx dy : Int) : pos_t :=
  new (p.x + wrap16 dx) (p.y + wrap16 dy)

end pos_t

/-- The struct `rect_t`; the four fields are `int16_t`. -/
structure rect_t where
  x : Int
  y : Int
  w : Int
  h : Int
deriving DecidableEq

namespace rect_t

/-- The constructor `rect_t(int16_t x, int16_t y, int16_t w, int16_t h)`: the
arguments are converted to `int16_t`. -/
def new (x y w h : Int) : rect_t := ⟨wrap16 x, wrap16 y, wrap16 w, wrap16 h⟩

/-- The default constructor `rect_t()`. -/
def zero : rect_t := ⟨0, 0, 0, 0⟩

/-- The function `from_ltrb(x0, y0, x1, y1)`: `rect_t(x0, y0, x1 - x0, y1 - y0)`
on arguments converted to `int16_t`. -/
def from_ltrb (x0 y0 x1 y1 : Int) : rect_t :=
  new (wrap16 x0) (wrap16 y0) (wrap16 x1 - wrap16 x0) (wrap16 y1 - wrap16 y0)

/-- The method `r()`: `x + w` as `int16_t`. -/
def r (s : rect_t) : Int := wrap16 (s.x + s.w)

/-- The method `b()`: `y + h` as `int16_t`. -/
def b (s : rect_t) : Int := wrap16 (s.y + s.h)

/-- The method `empty()`: `w == 0 || h == 0`. -/
def empty (s : rect_t) : Bool := s.w == 0 || s.h == 0

/-- The method `offset(int16_t dx, int16_t dy)`: `rect_t(x + dx, y + dy, w, h)`. -/
def offset (s : rect_t) (dx dy : Int) : rect_t :=
  new (s.x + wrap16 dx) (s.y + wrap16 dy) s.w s.h

/-- The method `contains(pos_t pos)`. -/
def contains (s : rect_t) (pos : pos_t) : Bool :=
  decide (s.x ≤ pos.x) && decide (pos.x < s.r) &&
    decide (s.y ≤ pos.y) && decide (pos.y < s.b)

/-- The method `intersect(rect_t other)`. -/
def intersect (s other : rect_t) : rect_t :=
  let result := from_ltrb
    (if s.x ≥ other.x then s.x else other.x)
    (if s.y ≥ other.y then s.y else other.y)
    (if s.r < other.r then s.r else other.r)
    (if s.b < other.b then s.b else other.b)
  if result.w ≥ 0 ∧ result.h ≥ 0 then result else new s.x s.y 0 0

/-- The fields of a `rect_t` object are `int16_t` values. -/
def IsInt16 (s : rect_t) : Prop :=
  (-32768 ≤ s.x ∧ s.x < 32768) ∧ (-32768 ≤ s.y ∧ s.y < 32768) ∧
    (-32768 ≤ s.w ∧ s.w < 32768) ∧ (-32768 ≤ s.h ∧ s.h < 32768)

/-- No `int16_t` conversion in `A.intersect(B)` changes a value: the right
and bottom edges `x + w`, `y + h` of both rectangles are representable, and so
are the differences between the smaller right (bottom) edge and the larger
left (top) edge. -/
def NoOverflow (A B : rect_t) : Prop :=
  (-32768 ≤ A.x + A.w ∧ A.x + A.w < 32768) ∧ (-32768 ≤ A.y + A.h ∧ A.y + A.h < 32768) ∧
  (-32768 ≤ B.x + B.w ∧ B.x + B.w < 32768) ∧ (-32768 ≤ B.y + B.h ∧ B.y + B.h < 32768) ∧
  -32768 ≤ min (A.x + A.w) (B.x + B.w) - max A.x B.x ∧
  -32768 ≤ min (A.y + A.h) (B.y + B.h) - max A.y B.y

end rect_t

/-- The class `Buffer2D<T>`: the dimensions `W`, `H`, the row stride `STRIDE`
(all `int16_t`) and the backing store `data`, a function from element index
to value. A pointer into the store is the index it points at. The ownership
flag `destroy` only matters to the destructor and is left out. -/
structure Buffer2D (T : Type) where
  W : Int
  H : Int
  STRIDE : Int
  data : Int → T

namespace Buffer2D

variable {T : Type}

/-- The constructor `Buffer2D(w, h)`: the stride is the width; the store
returned by `new T[w * h]` is not initialised, so its content is a parameter. -/
def new (w h : Int) (mem : Int → T) : Buffer2D T :=
  { W := wrap16 w, H := wrap16 h, STRIDE := wrap16 w, data := mem }

/-- The method `bounds()`: `rect_t(0, 0, W, H)`. -/
def bounds (b : Buffer2D T) : rect_t := rect_t.new 0 0 b.W b.H

/-- The method `ptr(int16_t x, int16_t y)`: `data + y * STRIDE + x`. -/
def ptr (b : Buffer2D T) (x y : Int) : Int := wrap16 y * b.STRIDE + wrap16 x

/-- The method `ptr(pos_t p)`: `data + p.y * STRIDE + p.x`. -/
def ptrPos (b : Buffer2D T) (p : pos_t) : Int := p.y * b.STRIDE + p.x

/-- The operator `operator[](pos_t p)`, read: `data[p.y * STRIDE + p.x]`. -/
def get (b : Buffer2D T) (p : pos_t) : T := b.data (p.y * b.STRIDE + p.x)

/-- The operator `operator[](pos_t p)`, written. -/
def set (b : Buffer2D T) (p : pos_t) (v : T) : Buffer2D T :=
  { b with data := Function.update b.data (p.y * b.STRIDE + p.x) v }

/-- The inner loop of `fill`: `n` times `*(wr_ptr++) = value`. -/
def fill_row (value : T) : Nat → Int → (Int → T) → (Int → T)
  | 0, _, data => data
  | n + 1, wr_ptr, data => fill_row value n (wr_ptr + 1) (Function.update data wr_ptr value)

/-- The outer loop of `fill`: `n` rows from row `y` on, each written from
column `x0` up to (not including) column `r`. -/
def fill_rows (b : Buffer2D T) (x0 r : Int) (value : T) : Nat → Int → (Int → T) → (Int → T)
  | 0, _, data => data
  | n + 1, y, data =>
    fill_rows b x0 r value n (y + 1) (fill_row value (r - x0).toNat (b.ptr x0 y) data)

/-- The method `fill(rect_t rect, T value)`. -/
def fill (b : Buffer2D T) (rect : rect_t) (value : T) : Buffer2D T :=
  let rect := rect.intersect b.bounds
  { b with data := fill_rows b rect.x rect.r value (rect.b - rect.y).toNat rect.y b.data }

/-- The method `fill(T value)`: `fill(bounds(), value)`. -/
def fillAll (b : Buffer2D T) (value : T) : Buffer2D T := b.fill b.bounds value

/-- The first loop of `line_copy`: `n` times `*(dst++) = *(src++)`. -/
def copy_fwd : Nat → Int → Int → (Int → T) → (Int → T)
  | 0, _, _, data => data
  | n + 1, dst, src, data =>
    copy_fwd n (dst + 1) (src + 1) (Function.update data dst (data src))

/-- The second loop of `line_copy`: `n` times `*(--dst) = *(--src)`. -/
def copy_bwd : Nat → Int → Int → (Int → T) → (Int → T)
  | 0, _, _, data => data
  | n + 1, dst, src, data =>
    copy_bwd n (dst - 1) (src - 1) (Function.update data (dst - 1) (data (src - 1)))

/-- The method `line_copy(T *dst, T *src, int16_t n)`. -/
def line_copy (dst src n : Int) (data : Int → T) : Int → T :=
  if dst < src then copy_fwd n.toNat dst src data
  else copy_bwd n.toNat (dst + n) (src + n) data

/-- The row loop of `scroll` for `dy < 0`: `k` times
`line_copy(dst, src, w_copy); src += STRIDE; dst += STRIDE`. -/
def rows_fwd (stride w_copy : Int) : Nat → Int → Int → (Int → T) → (Int → T)
  | 0, _, _, data => data
  | k + 1, dst, src, data =>
    rows_fwd stride w_copy k (dst + stride) (src + stride) (line_copy dst src w_copy data)

/-- The row loop of `scroll` for `dy >= 0`: `k` times
`src -= STRIDE; dst -= STRIDE; line_copy(dst, src, w_copy)`. -/
def rows_bwd (stride w_copy : Int) : Nat → Int → Int → (Int → T) → (Int → T)
  | 0, _, _, data => data
  | k + 1, dst, src, data =>
    rows_bwd stride w_copy k (dst - stride) (src - stride)
      (line_copy (dst - stride) (src - stride) w_copy data)

/-- The method `scroll(int16_t dx, int16_t dy)`. -/
def scroll (b : Buffer2D T) (dx dy : Int) : Buffer2D T :=
  let dx := wrap16 dx
  let dy := wrap16 dy
  let y_src : Int := if dy > 0 then 0 else if dy < 0 then wrap16 (-dy) else 0
  let y_dst : Int := if dy > 0 then dy else if dy < 0 then 0 else 0
  let x_src : Int := if dx > 0 then 0 else if dx < 0 then wrap16 (-dx) else 0
  let x_dst : Int := if dx > 0 then dx else if dx < 0 then 0 else 0
  let src := y_src * b.STRIDE + x_src
  let dst := y_dst * b.STRIDE + x_dst
  let w_copy := wrap16 (b.W - |dx|)
  let h_copy := wrap16 (b.H - |dy|)
  if dy < 0 then
    { b with data := rows_fwd b.STRIDE w_copy h_copy.toNat dst src b.data }
  else
    { b with
      data :=
        (rows_bwd b.STRIDE w_copy h_copy.toNat (dst + b.STRIDE * h_copy)
          (src + b.STRIDE * h_copy) b.data) }

end Buffer2D

/-! ## 32-bit operations -/

/-- The bit pattern of an `int32_t` value, as an unsigned 32-bit number. -/
def toU32 (v : Int) : Nat := (v % 4294967296).toNat

/-- Bitwise `&` of two 32-bit values, the result read as `int32_t`. -/
def and32 (a b : Int) : Int := wrap32 ((toU32 a &&& toU32 b : Nat) : Int)

/-- Bitwise `~` of an `int32_t` value. -/
def not32 (a : Int) : Int := wrap32 (~~~a)

/-- `a << k` on `int32_t`, wrapping. -/
def shl32 (a : Int) (k : Int) : Int := wrap32 (a * 2 ^ k.toNat)

/-- `a >> k` on `int32_t`: the arithmetic shift. -/
def sar32 (a : Int) (k : Int) : Int := a >>> k.toNat

namespace tinymandelbrot

/-! ## tiny_mandelbrot_config.hpp (`PIXEL_DOUBLE` not defined, fixed point,
split multiplication, border scan and fast scroll enabled) -/

def W : Int := 240
def H : Int := 240
def MAX_ZOOM : Int := 17
def PIXEL_SCALE_BITS : Int := 7
def QUEUE_SIZE_BITS : Nat := 12
def FIXED_POINT_POS : Int := 24
def MAX_LOOPS : Nat := 128

/-! ## tiny_mandelbrot.hpp -/

/-- The function `FIXED(int val)`: `((elem_t)val) << FIXED_POINT_POS`. -/
def FIXED (val : Int) : Int := shl32 (wrap32 val) FIXED_POINT_POS

/-- The constant `FIXED(-0.5)`: the `double` overload computes
`(elem_t)(-0.5 * FIXED(1))`, which is exactly `-8388608`. -/
def FIXED_neg_half : Int := -8388608

/-- The function template `limit(min, max, value)`. -/
def limit (min max value : Int) : Int :=
  if value < min then min else if value > max then max else value

/-- The statements that compute `xy` from the 16-bit halves of `|x|` and `|y|`
on the split-multiplication path, before the sign is applied. -/
def split_cross (xl xh yl yh : Int) : Int :=
  let xy := wrap32 (xl * yl)
  let xy := and32 (sar32 xy 16) 0xffff
  let xy := wrap32 (xy + wrap32 (xl * yh))
  let xy := wrap32 (xy + wrap32 (xh * yl))
  let xy := and32 (sar32 xy 8) 0xffffff
  wrap32 (xy + shl32 (wrap32 (xh * yh)) 8)

/-- The statements that compute `xx` (and, on the halves of `y`, `yy`) from
the 16-bit halves of the operand on the split-multiplication path. -/
def split_square (xl xh : Int) : Int :=
  let xx := wrap32 (xl * xl)
  let xx := and32 (sar32 xx 16) 0xffff
  let xx := wrap32 (xx + wrap32 (2 * wrap32 (xl * xh)))
  let xx := and32 (sar32 xx 8) 0xffffff
  wrap32 (xx + shl32 (wrap32 (xh * xh)) 8)

/-- The value of `x` after `if (x < 0) { x = -x; ... }`. -/
def neg_if_neg (x : Int) : Int := if x < 0 then wrap32 (-x) else x

/-- The value of `xysign` after the two sign tests. -/
def xysign (x y : Int) : Int :=
  let s : Int := 1
  let s := if x < 0 then wrap32 (-s) else s
  if y < 0 then wrap32 (-s) else s

/-- The low half `v & 0xffffu`, a `uint16_t`. -/
def lo16 (v : Int) : Int := and32 v 0xffff % 65536

/-- The high half `(v >> 16) & 0xffffu`, a `uint16_t`. -/
def hi16 (v : Int) : Int := and32 (sar32 v 16) 0xffff % 65536

/-- The three products of one iteration on the split-multiplication path
(`MANDEL_ENABLE_MULT_SPLIT`), in the order `(xy, xx, yy)`. -/
def mult_split (x y : Int) : Int × Int × Int :=
  (wrap32 (split_cross (lo16 (neg_if_neg x)) (hi16 (neg_if_neg x))
      (lo16 (neg_if_neg y)) (hi16 (neg_if_neg y)) * xysign x y),
   split_square (lo16 (neg_if_neg x)) (hi16 (neg_if_neg x)),
   split_square (lo16 (neg_if_neg y)) (hi16 (neg_if_neg y)))

/-- The three products of one iteration on the direct path: the low 32 bits
of `((int64_t)x * y) >> FIXED_POINT_POS`, and the same for `x * x`, `y * y`. -/
def mult_direct (x y : Int) : Int × Int × Int :=
  (wrap32 ((x * y) >>> FIXED_POINT_POS.toNat),
   wrap32 ((x * x) >>> FIXED_POINT_POS.toNat),
   wrap32 ((y * y) >>> FIXED_POINT_POS.toNat))

/-- The `do ... while` loop of `mandelbrot_func`, entered with the counter at
`n + 1`; the result is the counter at the exit. -/
def mandelbrot_loop (a b : Int) : Nat → Int → Int → Nat
  | 0, _, _ => 0
  | n + 1, x, y =>
    let p := mult_split x y
    let xy := p.1
    let xx := p.2.1
    let yy := p.2.2
    let x := wrap32 (wrap32 (xx - yy) + a)
    let y := wrap32 (wrap32 (xy + xy) + b)
    if n ≠ 0 ∧ wrap32 (xx + yy) < FIXED 4 then mandelbrot_loop a b n x y else n

/-- The function `mandelbrot_func(elem_t a, elem_t b)`; the result is a
`count_t`, that is `uint8_t`. -/
def mandelbrot_func (a b : Int) : Nat :=
  (MAX_LOOPS - mandelbrot_loop a b MAX_LOOPS 0 0) % 256

/-- The class `TinyMandelbrot`. Cells of `buff` are `count_t` values. -/
structure TinyMandelbrot where
  buff : Buffer2D Nat
  queue : ArrayQueue pos_t
  _a : Int
  _b : Int
  _zoom : Int
  _stable_rect : rect_t

namespace TinyMandelbrot

/-- The constructor. The two freshly allocated stores are not initialised:
their contents are the parameters `mem` and `qmem`. The member `queue` is
constructed by `queue(QUEUE_SIZE_BITS)`; `QUEUE_SIZE_BITS` is 12, for which the
constructor of `ArrayQueue` yields the queue `ArrayQueue.fresh 12 qmem`. -/
def new (mem : Int → Nat) (qmem : Nat → pos_t) : TinyMandelbrot :=
  { buff := (Buffer2D.new W H mem).fillAll 0
    queue := ArrayQueue.fresh QUEUE_SIZE_BITS qmem
    _a := FIXED_neg_half
    _b := 0
    _zoom := 0
    _stable_rect := rect_t.zero }

def a (s : TinyMandelbrot) : Int := s._a
def b (s : TinyMandelbrot) : Int := s._b
def zoom (s : TinyMandelbrot) : Int := s._zoom
def stable_rect (s : TinyMandelbrot) : rect_t := s._stable_rect

/-- The method `no_change()`: `_stable_rect == buff.bounds()`. -/
def no_change (s : TinyMandelbrot) : Bool := decide (s._stable_rect = s.buff.bounds)

/-- The method `pixel_lsb_pos()`. -/
def pixel_lsb_pos (s : TinyMandelbrot) : Int := FIXED_POINT_POS - PIXEL_SCALE_BITS - s._zoom

/-- The method `pixel_size()`: `FIXED(1) >> (PIXEL_SCALE_BITS + _zoom)`. -/
def pixel_size (s : TinyMandelbrot) : Int := sar32 (FIXED 1) (PIXEL_SCALE_BITS + s._zoom)

/-- The method `round_elem(elem_t val)`. -/
def round_elem (s : TinyMandelbrot) (val : Int) : Int :=
  let mask : Int := 1
  let mask := shl32 mask s.pixel_lsb_pos
  let mask := wrap32 (mask - 1)
  let mask := not32 mask
  and32 val mask

def a_round (s : TinyMandelbrot) : Int := s.round_elem s._a
def b_round (s : TinyMandelbrot) : Int := s.round_elem s._b

/-- The method `a_pixel()`: `a_round() >> pixel_lsb_pos()`. -/
def a_pixel (s : TinyMandelbrot) : Int := sar32 s.a_round s.pixel_lsb_pos

/-- The method `b_pixel()`: `b_round() >> pixel_lsb_pos()`. -/
def b_pixel (s : TinyMandelbrot) : Int := sar32 s.b_round s.pixel_lsb_pos

/-- The plane coordinate `a_offset + step * x` that `render` uses for column
`x`, with `step = pixel_size()` and `a_offset = a_round() - step * (W / 2)`. -/
def plane_a (s : TinyMandelbrot) (x : Int) : Int :=
  let step := s.pixel_size
  let a_offset := wrap32 (s.a_round - wrap32 (step * (W / 2)))
  wrap32 (a_offset + wrap32 (step * x))

/-- The plane coordinate `b_offset + step * y` that `render` uses for row `y`,
with `b_offset = b_round() - step * (H / 2)`. -/
def plane_b (s : TinyMandelbrot) (y : Int) : Int :=
  let step := s.pixel_size
  let b_offset := wrap32 (s.b_round - wrap32 (step * (H / 2)))
  wrap32 (b_offset + wrap32 (step * y))

/-- The method `invalidate_buffer()`. -/
def invalidate_buffer (s : TinyMandelbrot) : TinyMandelbrot :=
  { s with buff := s.buff.fillAll 0, _stable_rect := rect_t.zero }

/-- The two `buff.fill` calls of `set_pos` that clear the columns exposed by a
pan of `dx` pixels. -/
def clear_columns (buff : Buffer2D Nat) (dx : Int) : Buffer2D Nat :=
  if dx > 0 then buff.fill (rect_t.new (W - dx) 0 dx H) 0
  else if dx < 0 then buff.fill (rect_t.new 0 0 (-dx) H) 0
  else buff

/-- The two `buff.fill` calls of `set_pos` that clear the rows exposed by a
pan of `dy` pixels. -/
def clear_rows (buff : Buffer2D Nat) (dy : Int) : Buffer2D Nat :=
  if dy > 0 then buff.fill (rect_t.new 0 (H - dy) W dy) 0
  else if dy < 0 then buff.fill (rect_t.new 0 0 W (-dy)) 0
  else buff

/-- The partial update of `set_pos`: the block guarded by
`-W < dx && dx < W && -H < dy && dy < H`. -/
def partial_update (s : TinyMandelbrot) (dx dy : Int) : TinyMandelbrot :=
  { s with
    buff := clear_rows (clear_columns (s.buff.scroll (-dx) (-dy)) dx) dy
    _stable_rect := s._stable_rect.intersect (s._stable_rect.offset (-dx) (-dy)) }

/-- The `MANDEL_ENABLE_FAST_SCROLL` block of `set_pos`, run after the new
position is stored; `a_px`, `b_px` are the pixel coordinates before. -/
def fast_scroll (s : TinyMandelbrot) (a_px b_px : Int) : TinyMandelbrot :=
  if !s._stable_rect.empty then
    if -W < wrap32 (s.a_pixel - a_px) ∧ wrap32 (s.a_pixel - a_px) < W ∧
        -H < wrap32 (s.b_pixel - b_px) ∧ wrap32 (s.b_pixel - b_px) < H then
      s.partial_update (wrap32 (s.a_pixel - a_px)) (wrap32 (s.b_pixel - b_px))
    else s.invalidate_buffer
  else s

/-- The value that `set_pos` computes from an argument: quantized, then
clamped to `[-FIXED(2), FIXED(2)]`. -/
def clamp_pos (s : TinyMandelbrot) (v : Int) : Int :=
  limit (wrap32 (-(FIXED 2))) (FIXED 2) (s.round_elem v)

/-- The method `set_pos(elem_t a, elem_t b)` (`MANDEL_ENABLE_FAST_SCROLL`). -/
def set_pos (s : TinyMandelbrot) (a b : Int) : TinyMandelbrot :=
  if s.clamp_pos a = s._a ∧ s.clamp_pos b = s._b then s
  else fast_scroll { s with _a := s.clamp_pos a, _b := s.clamp_pos b } s.a_pixel s.b_pixel

/-- The method `scroll(int da, int db)`. -/
def scroll (s : TinyMandelbrot) (da db : Int) : TinyMandelbrot :=
  let px_size := s.pixel_size
  let a := wrap32 (s._a + wrap32 (px_size * da))
  let b := wrap32 (s._b + wrap32 (px_size * db))
  s.set_pos a b

/-- The method `set_zoom(int z)`: the returned flag and the state afterwards. -/
def set_zoom (s : TinyMandelbrot) (z : Int) : Bool × TinyMandelbrot :=
  let z := limit 0 MAX_ZOOM z
  if z = s._zoom then (false, s)
  else (true, { s with _zoom := z }.invalidate_buffer)

/-- The method `zoom_in()`. -/
def zoom_in (s : TinyMandelbrot) : Bool × TinyMandelbrot := s.set_zoom (wrap32 (s._zoom + 1))

/-- The method `zoom_out()`. -/
def zoom_out (s : TinyMandelbrot) : Bool × TinyMandelbrot := s.set_zoom (wrap32 (s._zoom - 1))

/-- The method `push_task(pos_t pos, bool force)`. -/
def push_task (s : TinyMandelbrot) (pos : pos_t) (force : Bool) : TinyMandelbrot :=
  if !s.buff.bounds.contains pos then s
  else if s.buff.get pos ≠ 0 ∧ !force then s
  else { s with buff := s.buff.set pos 1, queue := (s.queue.push pos).2 }

/-- The first loop of `push_task_rect`: `n` iterations from column `x` on. -/
def push_task_rect_x (rect : rect_t) (force : Bool) : Nat → Int → TinyMandelbrot → TinyMandelbrot
  | 0, _, s => s
  | n + 1, x, s =>
    push_task_rect_x rect force n (x + 1)
      (if rect.w ≥ 2 then
        (s.push_task (pos_t.new x rect.y) force).push_task (pos_t.new x (rect.b - 1)) force
      else s.push_task (pos_t.new x rect.y) force)

/-- The second loop of `push_task_rect`: `n` iterations from row `y` on. -/
def push_task_rect_y (rect : rect_t) (force : Bool) : Nat → Int → TinyMandelbrot → TinyMandelbrot
  | 0, _, s => s
  | n + 1, y, s =>
    push_task_rect_y rect force n (y + 1)
      (if rect.h ≥ 2 then
        (s.push_task (pos_t.new rect.x y) force).push_task (pos_t.new (rect.r - 1) y) force
      else s.push_task (pos_t.new rect.x y) force)

/-- The method `push_task_rect(rect_t rect, bool force)`. -/
def push_task_rect (s : TinyMandelbrot) (rect : rect_t) (force : Bool) : TinyMandelbrot :=
  push_task_rect_y rect force ((rect.b - 1) - (rect.y + 1)).toNat (rect.y + 1)
    (push_task_rect_x rect force (rect.r - rect.x).toNat rect.x s)

/-- The four `push_task` calls of `push_neighbor_tasks` for a horizontal pair
`P`, `Q` (`dx != 0`): the cells above and below both. -/
def push_above_below (s : TinyMandelbrot) (pos_p pos_q : pos_t) : TinyMandelbrot :=
  (((s.push_task (pos_p.offset 0 (-1)) false).push_task (pos_q.offset 0 (-1)) false).push_task
    (pos_p.offset 0 1) false).push_task (pos_q.offset 0 1) false

/-- The four `push_task` calls of `push_neighbor_tasks` for a vertical pair
`P`, `Q` (`dy != 0`): the cells left and right of both. -/
def push_left_right (s : TinyMandelbrot) (pos_p pos_q : pos_t) : TinyMandelbrot :=
  (((s.push_task (pos_p.offset (-1) 0) false).push_task (pos_q.offset (-1) 0) false).push_task
    (pos_p.offset 1 0) false).push_task (pos_q.offset 1 0) false

/-- The method `push_neighbor_tasks(pos_t pos_p, int val_p, int dx, int dy)`. -/
def push_neighbor_tasks (s : TinyMandelbrot) (pos_p : pos_t) (val_p : Int) (dx dy : Int) :
    TinyMandelbrot :=
  if !s.buff.bounds.contains (pos_p.offset dx dy) then s
  else if (s.buff.get (pos_p.offset dx dy) : Int) ≥ 2 ∧
      val_p ≠ (s.buff.get (pos_p.offset dx dy) : Int) then
    if dx ≠ 0 then s.push_above_below pos_p (pos_p.offset dx dy)
    else if dy ≠ 0 then s.push_left_right pos_p (pos_p.offset dx dy)
    else s
  else s

/-- The value of the local variable `val` of the drain loop of `render` after
the `if (val < 2) { ... }` statement, for the popped position `pos`. -/
def render_val (s : TinyMandelbrot) (a_offset b_offset step : Int) (pos : pos_t) : Nat :=
  if s.buff.get pos < 2 then
    (2 + mandelbrot_func (wrap32 (a_offset + wrap32 (step * pos.x)))
      (wrap32 (b_offset + wrap32 (step * pos.y)))) % 256
  else s.buff.get pos

/-- The statement `if (val < 2) { val = 2 + mandelbrot_func(a, b); *val_ptr = val; }`
of the drain loop of `render`. -/
def render_compute (s : TinyMandelbrot) (a_offset b_offset step : Int) (pos : pos_t) :
    TinyMandelbrot :=
  if s.buff.get pos < 2 then
    { s with buff := s.buff.set pos (s.render_val a_offset b_offset step pos) }
  else s

/-- The body of the drain loop of `render` for the popped position `pos`. -/
def render_visit (s : TinyMandelbrot) (a_offset b_offset step : Int) (pos : pos_t) :
    TinyMandelbrot :=
  ((((s.render_compute a_offset b_offset step pos).push_neighbor_tasks pos
      (s.render_val a_offset b_offset step pos) (-1) 0).push_neighbor_tasks pos
      (s.render_val a_offset b_offset step pos) 1 0).push_neighbor_tasks pos
      (s.render_val a_offset b_offset step pos) 0 (-1)).push_neighbor_tasks pos
      (s.render_val a_offset b_offset step pos) 0 1

/-- The loop `while (queue.pop(&pos)) { ... }` of `render`, run for at most
`fuel` tests of the loop condition; `pos` is the local variable. -/
def render_drain (a_offset b_offset step : Int) : Nat → pos_t → TinyMandelbrot → TinyMandelbrot
  | 0, _, s => s
  | fuel + 1, pos, s =>
    if (s.queue.pop pos).1 then
      render_drain a_offset b_offset step fuel (s.queue.pop pos).2.1
        (render_visit { s with queue := (s.queue.pop pos).2.2 } a_offset b_offset step
          (s.queue.pop pos).2.1)
    else { s with queue := (s.queue.pop pos).2.2 }

/-- The inner loop of the raster pass of `render`: `n` cells from `ptr` on;
the state is the store and `last_n`. -/
def render_fill_row : Nat → Int → (Int → Nat) × Nat → (Int → Nat) × Nat
  | 0, _, st => st
  | n + 1, ptr, st =>
    render_fill_row n (ptr + 1)
      (if st.1 ptr = 0 then (Function.update st.1 ptr st.2, st.2) else (st.1, st.1 ptr))

/-- The outer loop of the raster pass of `render`: `n` rows from row `y` on. -/
def render_fill_rows (buff : Buffer2D Nat) : Nat → Int → (Int → Nat) × Nat → (Int → Nat) × Nat
  | 0, _, st => st
  | n + 1, y, st =>
    render_fill_rows buff n (y + 1) (render_fill_row W.toNat (buff.ptr 0 y) st)

/-- A number of loop tests that the drain loop of `render` cannot exceed:
every iteration removes one entry, and an entry is added only for a cell that
leaves the value `0` for good. -/
def render_fuel (s : TinyMandelbrot) : Nat := (W * H).toNat + s.queue.CAPACITY + 1

/-- The state of `render` when the drain loop has ended: the two seeding calls
and the loop `while (queue.pop(&pos))`. -/
def render_drained (s : TinyMandelbrot) : TinyMandelbrot :=
  render_drain (wrap32 (s.a_round - wrap32 (s.pixel_size * (W / 2))))
    (wrap32 (s.b_round - wrap32 (s.pixel_size * (H / 2)))) s.pixel_size
    ((s.push_task_rect s.buff.bounds false).push_task_rect s._stable_rect true).render_fuel
    (pos_t.new 0 0)
    ((s.push_task_rect s.buff.bounds false).push_task_rect s._stable_rect true)

/-- The end of `render`: the store written by the raster pass replaces the
store of the grid, and `_stable_rect = buff.bounds()`. -/
def render_finish (s : TinyMandelbrot) (data : Int → Nat) : TinyMandelbrot :=
  { s with buff := { s.buff with data := data }, _stable_rect := s.buff.bounds }

/-- The method `render()` (`MANDEL_ENABLE_BORDER_SCAN`): seeding, the drain
loop, the raster pass and the assignment of the stable rectangle. -/
def render (s : TinyMandelbrot) : TinyMandelbrot :=
  s.render_drained.render_finish
    (render_fill_rows s.render_drained.buff H.toNat 0 (s.render_drained.buff.data, 0)).1

/-- The value that the raster scan of `render` (the `#else` branch of
`MANDEL_ENABLE_BORDER_SCAN`) stores in cell `(x, y)` when it computes it. -/
def raster_value (s : TinyMandelbrot) (x y : Int) : Nat :=
  (2 + mandelbrot_func (s.plane_a x) (s.plane_b y)) % 256

end TinyMandelbrot

end tinymandelbrot

namespace tinymandelbrot

/-- The states an engine object can be in: those reached from the constructor
through the public methods. Arguments are values of their C++ parameter types
(`elem_t` and `int` are 32 bits wide). -/
inductive Reachable : TinyMandelbrot → Prop
  | new (mem : Int → Nat) (qmem : Nat → pos_t) : Reachable (TinyMandelbrot.new mem qmem)
  | set_pos {s : TinyMandelbrot} (a b : Int) (ha : -2147483648 ≤ a ∧ a < 2147483648)
      (hb : -2147483648 ≤ b ∧ b < 2147483648) : Reachable s → Reachable (s.set_pos a b)
  | scroll {s : TinyMandelbrot} (da db : Int) (ha : -2147483648 ≤ da ∧ da < 2147483648)
      (hb : -2147483648 ≤ db ∧ db < 2147483648) : Reachable s → Reachable (s.scroll da db)
  | set_zoom {s : TinyMandelbrot} (z : Int) (hz : -2147483648 ≤ z ∧ z < 2147483648) :
      Reachable s → Reachable (s.set_zoom z).2
  | zoom_in {s : TinyMandelbrot} : Reachable s → Reachable s.zoom_in.2
  | zoom_out {s : TinyMandelbrot} : Reachable s → Reachable s.zoom_out.2
  | invalidate_buffer {s : TinyMandelbrot} : Reachable s → Reachable s.invalidate_buffer
  | render {s : TinyMandelbrot} : Reachable s → Reachable s.render

/-- The grid of an engine has the configured dimensions. -/
def GridDims (s : TinyMandelbrot) : Prop :=
  s.buff.W = W ∧ s.buff.H = H ∧ s.buff.STRIDE = W

/-- The stable rectangle has non-negative size and lies inside the grid bounds. -/
def StableInside (s : TinyMandelbrot) : Prop :=
  0 ≤ s._stable_rect.w ∧ 0 ≤ s._stable_rect.h ∧ 0 ≤ s._stable_rect.x ∧ 0 ≤ s._stable_rect.y ∧
    s._stable_rect.x + s._stable_rect.w ≤ W ∧ s._stable_rect.y + s._stable_rect.h ≤ H

/-- What a step of `render` before the final assignment leaves alone: the
viewport, the stable rectangle, the grid dimensions and the queue constants. -/
def SameView (s t : TinyMandelbrot) : Prop :=
  t._a = s._a ∧ t._b = s._b ∧ t._zoom = s._zoom ∧ t._stable_rect = s._stable_rect ∧
    t.buff.W = s.buff.W ∧ t.buff.H = s.buff.H ∧ t.buff.STRIDE = s.buff.STRIDE ∧
    t.queue.CAPACITY = s.queue.CAPACITY ∧ t.queue.INDEX_MASK = s.queue.INDEX_MASK

end tinymandelbrot


namespace tinymandelbrot

namespace TinyMandelbrot

/-- The positions the first loop of `push_task_rect` hands to `push_task`, in
this order: `n` iterations from column `x` on. -/
def rect_x_tasks (rect : rect_t) : Nat → Int → List pos_t
  | 0, _ => []
  | n + 1, x =>
    (if rect.w ≥ 2 then [pos_t.new x rect.y, pos_t.new x (rect.b - 1)]
      else [pos_t.new x rect.y]) ++ rect_x_tasks rect n (x + 1)

/-- The positions the second loop of `push_task_rect` hands to `push_task`, in
this order: `n` iterations from row `y` on. -/
def rect_y_tasks (rect : rect_t) : Nat → Int → List pos_t
  | 0, _ => []
  | n + 1, y =>
    (if rect.h ≥ 2 then [pos_t.new rect.x y, pos_t.new (rect.r - 1) y]
      else [pos_t.new rect.x y]) ++ rect_y_tasks rect n (y + 1)

/-- The positions `push_task_rect(rect, force)` hands to `push_task`, in this
order. -/
def rect_tasks (rect : rect_t) : List pos_t :=
  rect_x_tasks rect (rect.r - rect.x).toNat rect.x
    ++ rect_y_tasks rect ((rect.b - 1) - (rect.y + 1)).toNat (rect.y + 1)

/-- A sequence of `push_task` calls. -/
def push_tasks (s : TinyMandelbrot) (force : Bool) (l : List pos_t) : TinyMandelbrot :=
  l.foldl (fun t p => t.push_task p force) s

/-- The number of cells of the grid store that hold the value `0`. -/
def zero_cells (s : TinyMandelbrot) : Nat :=
  ((Finset.Ico (0 : Int) (W * H)).filter (fun i => s.buff.data i = 0)).card

/-- The measure of the drain loop of `render`: the number of cells that hold
`0` plus the number of queue entries. -/
def drain_measure (s : TinyMandelbrot) : Nat := s.zero_cells + s.queue._size

/-- The state `render` is in when the seeding is done and the drain loop
starts. -/
def render_seeded (s : TinyMandelbrot) : TinyMandelbrot :=
  (s.push_task_rect s.buff.bounds false).push_task_rect s._stable_rect true

/-- The value of the local variable `last_n` of the raster pass of `render`
when the pass has seen `n` cells of the store `data` from `ptr` on; `l` is its
value before. -/
def last_seen (data : Int → Nat) (l : Nat) (ptr : Int) : Nat → Nat
  | 0 => l
  | n + 1 => if data (ptr + n) = 0 then last_seen data l ptr n else data (ptr + n)

/-- The value the drain loop of `render` computes for cell `(x, y)`:
`2 + mandelbrot_func(a_offset + step * x, b_offset + step * y)` as a `count_t`. -/
def cell_value (a_offset b_offset step : Int) (x y : Int) : Nat :=
  (2 + mandelbrot_func (wrap32 (a_offset + wrap32 (step * x)))
    (wrap32 (b_offset + wrap32 (step * y)))) % 256

/-- Every queue entry is a position inside the grid. -/
def QueueInGrid (s : TinyMandelbrot) : Prop :=
  ∀ q ∈ s.queue.toList, (0 ≤ q.x ∧ q.x < 240) ∧ (0 ≤ q.y ∧ q.y < 240)

/-- Every cell of the grid holds the value it has in the store `d0`, or the
pending value `1`, or the value `val` gives for it. -/
def CellClass (d0 : Int → Nat) (val : Int → Int → Nat) (s : TinyMandelbrot) : Prop :=
  ∀ x y : Int, 0 ≤ x ∧ x < 240 → 0 ≤ y ∧ y < 240 →
    s.buff.data (y * 240 + x) = d0 (y * 240 + x) ∨ s.buff.data (y * 240 + x) = 1 ∨
      s.buff.data (y * 240 + x) = val x y

/-- A pending cell `(x, y)` is in the queue. -/
def PendingQueued (x y : Int) (s : TinyMandelbrot) : Prop :=
  s.buff.data (y * 240 + x) = 1 → (⟨x, y⟩ : pos_t) ∈ s.queue.toList

/-- The pixel `(x, y)` lies on the perimeter of the rectangle. -/
def on_perimeter (rect : rect_t) (x y : Int) : Prop :=
  (rect.x ≤ x ∧ x < rect.x + rect.w) ∧ (rect.y ≤ y ∧ y < rect.y + rect.h) ∧
    (x = rect.x ∨ x = rect.x + rect.w - 1 ∨ y = rect.y ∨ y = rect.y + rect.h - 1)

end TinyMandelbrot

end tinymandelbrot

/-! ## Theorems: the frontier queue -/

namespace ArrayQueue

variable {T : Type}

theorem fresh_wf (k : Nat) (mem : Nat → T) : WF k (fresh k mem) := by
  refine ⟨?_, ?_, ?_, ?_, ?_⟩ <;> simp [fresh, Nat.one_shiftLeft]

theorem fresh_toList (k : Nat) (mem : Nat → T) : (fresh k mem).toList = [] := rfl

/-- The constructor yields a queue exactly for `capacity_bits` in `[0, 30]`, and
then the freshly initialised queue of capacity `2 ^ capacity_bits`. -/
theorem new_eq_some (k : Int) (mem : Nat → T) (q : ArrayQueue T) :
    new k mem = some q ↔ (0 ≤ k ∧ k ≤ 30) ∧ q = fresh k.toNat mem := by
  unfold new
  by_cases h : 0 ≤ k ∧ k ≤ 30
  · rw [if_pos h]
    constructor
    · intro e
      exact ⟨h, (Option.some.inj e).symm⟩
    · intro e
      rw [e.2]
  · rw [if_neg h]
    constructor
    · intro e
      exact Option.noConfusion e
    · intro e
      exact absurd e.1 h

theorem new_of_range (k : Int) (hk : 0 ≤ k ∧ k ≤ 30) (mem : Nat → T) :
    new k mem = some (fresh k.toNat mem) := by
  unfold new
  rw [if_pos hk]

theorem new_out_of_range (k : Int) (hk : ¬ (0 ≤ k ∧ k ≤ 30)) (mem : Nat → T) :
    new k mem = none := by
  unfold new
  rw [if_neg hk]

theorem slots_length (q : ArrayQueue T) (r n : Nat) : (slots q r n).length = n := by
  induction n generalizing r with
  | zero => rfl
  | succ n ih => simp [slots, ih]

theorem slots_congr (q q' : ArrayQueue T) (hc : q'.CAPACITY = q.CAPACITY) (r n : Nat)
    (h : ∀ i, i < n → q'.array ((r + i) % q.CAPACITY) = q.array ((r + i) % q.CAPACITY)) :
    slots q' r n = slots q r n := by
  induction n generalizing r with
  | zero => rfl
  | succ n ih =>
    simp only [slots]
    rw [hc, ih (r + 1)]
    · have := h 0 (Nat.succ_pos n)
      simp only [Nat.add_zero] at this
      rw [this]
    · intro i hi
      have := h (i + 1) (Nat.succ_lt_succ hi)
      have e : r + 1 + i = r + (i + 1) := by omega
      rw [e]; exact this

theorem slots_snoc (q : ArrayQueue T) (r n : Nat) :
    slots q r (n + 1) = slots q r n ++ [q.array ((r + n) % q.CAPACITY)] := by
  induction n generalizing r with
  | zero => simp [slots]
  | succ n ih =>
    have e : r + (n + 1) = r + 1 + n := by omega
    rw [slots, ih (r + 1), e]
    simp [slots]

theorem slots_mod (q : ArrayQueue T) (r n : Nat) :
    slots q (r % q.CAPACITY) n = slots q r n := by
  induction n generalizing r with
  | zero => rfl
  | succ n ih =>
    simp only [slots, Nat.mod_mod]
    rw [← ih (r % q.CAPACITY + 1), ← ih (r + 1), Nat.mod_add_mod]

/-- Two offsets below the capacity that land on the same slot are equal. -/
theorem slot_inj {c r i j : Nat} (hi : i < c) (hj : j < c)
    (h : (r + i) % c = (r + j) % c) : i = j := by
  rcases Nat.le_total i j with hij | hij
  · have h1 := Nat.sub_mod_eq_zero_of_mod_eq h.symm
    have h2 : r + j - (r + i) = j - i := by omega
    rw [h2] at h1
    have := Nat.eq_zero_of_dvd_of_lt (Nat.dvd_of_mod_eq_zero h1) (by omega)
    omega
  · have h1 := Nat.sub_mod_eq_zero_of_mod_eq h
    have h2 : r + i - (r + j) = i - j := by omega
    rw [h2] at h1
    have := Nat.eq_zero_of_dvd_of_lt (Nat.dvd_of_mod_eq_zero h1) (by omega)
    omega

theorem full_iff (q : ArrayQueue T) : q.full = true ↔ q.CAPACITY ≤ q._size := by
  simp [full]

theorem empty_iff (q : ArrayQueue T) : q.empty = true ↔ q._size = 0 := by
  simp [empty]

theorem push_full (q : ArrayQueue T) (v : T) (h : q.CAPACITY ≤ q._size) :
    q.push v = (false, q) := by
  simp [push, (full_iff q).2 h]

theorem push_ok (q : ArrayQueue T) (v : T) (h : q._size < q.CAPACITY) :
    q.push v = (true,
      { q with
        array := Function.update q.array q._wr_ptr v
        _wr_ptr := (q._wr_ptr + 1) &&& q.INDEX_MASK
        _size := q._size + 1 }) := by
  have : q.full = false := by
    cases hf : q.full
    · rfl
    · have := (full_iff q).1 hf; omega
  simp [push, this]

theorem pop_empty (q : ArrayQueue T) (slot : T) (h : q._size = 0) :
    q.pop slot = (false, slot, q) := by
  simp [pop, (empty_iff q).2 h]

theorem pop_ok (q : ArrayQueue T) (slot : T) (h : 0 < q._size) :
    q.pop slot = (true, q.array q._rd_ptr,
      { q with
        _rd_ptr := (q._rd_ptr + 1) &&& q.INDEX_MASK
        _size := q._size - 1 }) := by
  have : q.empty = false := by
    cases hf : q.empty
    · rfl
    · have := (empty_iff q).1 hf; omega
  simp [pop, this]

theorem push_wf {k : Nat} {q : ArrayQueue T} (hq : WF k q) (v : T) : WF k (q.push v).2 := by
  by_cases h : q._size < q.CAPACITY
  · rw [push_ok q v h]
    refine ⟨hq.cap, hq.mask, hq.rd, ?_, ?_⟩
    · show (q._wr_ptr + 1) &&& q.INDEX_MASK = (q._rd_ptr + (q._size + 1)) % 2 ^ k
      rw [hq.mask, Nat.and_pow_two_sub_one_eq_mod, hq.wr, Nat.mod_add_mod]
      rfl
    · show q._size + 1 ≤ 2 ^ k
      have := hq.cap; omega
  · rw [push_full q v (by omega)]; exact hq

theorem push_toList {k : Nat} {q : ArrayQueue T} (hq : WF k q) (v : T)
    (h : q._size < q.CAPACITY) : (q.push v).2.toList = q.toList ++ [v] := by
  rw [push_ok q v h]
  show slots _ q._rd_ptr (q._size + 1) = slots q q._rd_ptr q._size ++ [v]
  rw [slots_snoc]
  congr 1
  · refine slots_congr q _ ?_ _ _ ?_
    · rfl
    intro i hi
    show Function.update q.array q._wr_ptr v _ = _
    apply Function.update_noteq
    rw [hq.wr, hq.cap]
    intro e
    have := slot_inj (c := 2 ^ k) (by have := hq.cap; omega) (by have := hq.cap; omega) e
    omega
  · show [Function.update q.array q._wr_ptr v ((q._rd_ptr + q._size) % q.CAPACITY)] = [v]
    rw [hq.cap, ← hq.wr, Function.update_same]

theorem pop_wf {k : Nat} {q : ArrayQueue T} (hq : WF k q) (slot : T) :
    WF k (q.pop slot).2.2 := by
  by_cases h : 0 < q._size
  · rw [pop_ok q slot h]
    have hp : 0 < 2 ^ k := Nat.pos_pow_of_pos k (by decide)
    refine ⟨hq.cap, hq.mask, ?_, ?_, ?_⟩
    · show (q._rd_ptr + 1) &&& q.INDEX_MASK < 2 ^ k
      rw [hq.mask, Nat.and_pow_two_sub_one_eq_mod]
      exact Nat.mod_lt _ hp
    · show q._wr_ptr = (((q._rd_ptr + 1) &&& q.INDEX_MASK) + (q._size - 1)) % 2 ^ k
      rw [hq.mask, Nat.and_pow_two_sub_one_eq_mod, hq.wr, Nat.mod_add_mod]
      congr 1; omega
    · show q._size - 1 ≤ 2 ^ k
      have := hq.sz; omega
  · rw [pop_empty q slot (by omega)]; exact hq

theorem pop_toList {k : Nat} {q : ArrayQueue T} (hq : WF k q) (slot : T)
    (h : 0 < q._size) :
    q.toList = (q.pop slot).2.1 :: (q.pop slot).2.2.toList := by
  rw [pop_ok q slot h]
  show slots q q._rd_ptr q._size = q.array q._rd_ptr :: slots _ ((q._rd_ptr + 1) &&& q.INDEX_MASK) (q._size - 1)
  obtain ⟨n, hn⟩ : ∃ n, q._size = n + 1 := ⟨q._size - 1, by omega⟩
  rw [hn, slots, hq.cap, Nat.mod_eq_of_lt hq.rd, hq.mask, Nat.and_pow_two_sub_one_eq_mod]
  congr 1
  have e : n + 1 - 1 = n := by omega
  rw [e]
  have h1 := slots_mod q (q._rd_ptr + 1) n
  rw [hq.cap] at h1
  rw [← h1]
  refine (slots_congr q _ ?_ _ _ ?_).symm
  · exact hq.cap.symm
  · intro i _; rfl

theorem toList_length (q : ArrayQueue T) : q.toList.length = q._size := slots_length _ _ _

theorem clear_wf {k : Nat} {q : ArrayQueue T} (hq : WF k q) : WF k q.clear :=
  ⟨hq.cap, hq.mask, Nat.pos_pow_of_pos k (by decide), by simp [clear], Nat.zero_le _⟩

theorem step_wf {k : Nat} {q : ArrayQueue T} (hq : WF k q) (slot : T) (op : QueueOp T) :
    WF k (q.step slot op).2 := by
  cases op with
  | push v => exact push_wf hq v
  | pop => exact pop_wf hq slot
  | clear => exact clear_wf hq

theorem run_wf {k : Nat} (slot : T) (ops : List (QueueOp T)) :
    ∀ {q : ArrayQueue T}, WF k q → WF k (q.run slot ops).2 := by
  induction ops with
  | nil => intro q hq; exact hq
  | cons op ops ih => intro q hq; exact ih (step_wf hq slot op)

/-- One call on the array queue does what the same call does on its content. -/
theorem step_refines {k : Nat} {q : ArrayQueue T} (hq : WF k q) (slot : T) (op : QueueOp T) :
    (q.step slot op).1 = (fifoStep (2 ^ k) q.toList op).1 ∧
    (q.step slot op).2.toList = (fifoStep (2 ^ k) q.toList op).2 := by
  cases op with
  | push v =>
    by_cases h : q._size < q.CAPACITY
    · have hl : q.toList.length < 2 ^ k := by rw [toList_length, ← hq.cap]; exact h
      simp only [ArrayQueue.step, fifoStep, hl, if_true]
      exact ⟨by rw [push_ok q v h], push_toList hq v h⟩
    · have hl : ¬ q.toList.length < 2 ^ k := by rw [toList_length, ← hq.cap]; exact h
      simp only [ArrayQueue.step, fifoStep, hl, if_false]
      rw [push_full q v (by omega)]
      exact ⟨rfl, rfl⟩
  | pop =>
    by_cases h : 0 < q._size
    · have e := pop_toList hq slot h
      have e1 : (q.pop slot).1 = true := by rw [pop_ok q slot h]
      simp only [ArrayQueue.step, e1, if_true]
      rw [e]
      exact ⟨rfl, rfl⟩
    · have h0 : q._size = 0 := by omega
      have e : q.toList = [] := by
        have := toList_length q
        rw [h0] at this
        exact List.length_eq_zero.1 this
      simp only [ArrayQueue.step]
      rw [pop_empty q slot h0, e]
      exact ⟨rfl, rfl⟩
  | clear => exact ⟨rfl, rfl⟩

theorem run_refines {k : Nat} (slot : T) (ops : List (QueueOp T)) :
    ∀ {q : ArrayQueue T}, WF k q →
      (q.run slot ops).1 = (fifoRun (2 ^ k) q.toList ops).1 ∧
      (q.run slot ops).2.toList = (fifoRun (2 ^ k) q.toList ops).2 := by
  induction ops with
  | nil => intro q _; exact ⟨rfl, rfl⟩
  | cons op ops ih =>
    intro q hq
    have h1 := step_refines hq slot op
    have h2 := ih (step_wf hq slot op)
    simp only [ArrayQueue.run, fifoRun]
    rw [h2.1, h2.2, h1.1, h1.2]
    exact ⟨rfl, rfl⟩

theorem pushN_spec (k : Nat) (mem : Nat → T) (vs : Nat → T) :
    ∀ n, n ≤ 2 ^ k → WF k (pushN (fresh k mem) vs n) ∧ (pushN (fresh k mem) vs n)._size = n := by
  intro n
  induction n with
  | zero => intro _; exact ⟨fresh_wf k mem, rfl⟩
  | succ n ih =>
    intro hn
    have h := ih (by omega)
    refine ⟨push_wf h.1 _, ?_⟩
    show ((pushN (fresh k mem) vs n).push (vs n)).2._size = n + 1
    rw [push_ok _ _ (by rw [h.1.cap, h.2]; omega)]
    show (pushN (fresh k mem) vs n)._size + 1 = n + 1
    rw [h.2]

/-- Circular reuse on the freshly initialised queue of capacity `2 ^ k`. -/
theorem fresh_circular_reuse (k : Nat) (mem vs : Nat → T) (v w slot : T) :
    (∀ n, n < 2 ^ k → ((pushN (fresh k mem) vs n).push (vs n)).1 = true) ∧
    ((pushN (fresh k mem) vs (2 ^ k)).push v).1 = false ∧
    (((pushN (fresh k mem) vs (2 ^ k)).push v).2.pop slot).1 = true ∧
    ((((pushN (fresh k mem) vs (2 ^ k)).push v).2.pop slot).2.2.push w).1 = true := by
  have hfull := pushN_spec k mem vs (2 ^ k) (Nat.le_refl _)
  have hp : 0 < 2 ^ k := Nat.pos_pow_of_pos k (by decide)
  have e1 : (pushN (fresh k mem) vs (2 ^ k)).push v = (false, pushN (fresh k mem) vs (2 ^ k)) :=
    push_full _ _ (by rw [hfull.1.cap, hfull.2])
  refine ⟨?_, ?_, ?_, ?_⟩
  · intro n hn
    have h := pushN_spec k mem vs n (by omega)
    rw [push_ok _ _ (by rw [h.1.cap, h.2]; exact hn)]
  · rw [e1]
  · rw [e1, pop_ok _ _ (by rw [hfull.2]; exact hp)]
  · rw [e1, pop_ok _ _ (by rw [hfull.2]; exact hp)]
    rw [push_ok _ _ (by
      show (pushN (fresh k mem) vs (2 ^ k))._size - 1 < (pushN (fresh k mem) vs (2 ^ k)).CAPACITY
      rw [hfull.1.cap, hfull.2]; omega)]

end ArrayQueue

open ArrayQueue in
/-- C9 (circular reuse), as the code has it: for every `capacity_bits = k` with
`0 <= k <= 30` the constructor yields a queue, and on this freshly constructed
queue each of the first `2 ^ k` pushes returns true, the next push returns
false, the pop that follows succeeds, and the push after that pop returns true
again. -/
theorem C9_circular_reuse_amended {T : Type} (k : Int) (hk : 0 ≤ k ∧ k ≤ 30)
    (mem vs : Nat → T) (v w slot : T) :
    ∃ q : ArrayQueue T, new k mem = some q ∧
      (∀ n, n < 2 ^ k.toNat → ((pushN q vs n).push (vs n)).1 = true) ∧
      ((pushN q vs (2 ^ k.toNat)).push v).1 = false ∧
      (((pushN q vs (2 ^ k.toNat)).push v).2.pop slot).1 = true ∧
      ((((pushN q vs (2 ^ k.toNat)).push v).2.pop slot).2.2.push w).1 = true :=
  ⟨fresh k.toNat mem, new_of_range k hk mem, fresh_circular_reuse k.toNat mem vs v w slot⟩

open ArrayQueue in
/-- C9 witness: capacity 2 (`capacity_bits = 1`): the constructor yields a queue. -/
theorem C9_circular_reuse_amended_witness :
    ((0 : Int) ≤ 1 ∧ (1 : Int) ≤ 30) ∧
    ∃ q : ArrayQueue Nat, new 1 (fun _ => (0 : Nat)) = some q ∧
      (∀ n, n < 2 ^ (1 : Int).toNat → ((pushN q (fun n => n + 5) n).push (n + 5)).1 = true) ∧
      ((pushN q (fun n => n + 5) (2 ^ (1 : Int).toNat)).push 0).1 = false ∧
      (((pushN q (fun n => n + 5) (2 ^ (1 : Int).toNat)).push 0).2.pop 0).1 = true ∧
      ((((pushN q (fun n => n + 5) (2 ^ (1 : Int).toNat)).push 0).2.pop 0).2.2.push 0).1 = true :=
  ⟨by decide, C9_circular_reuse_amended 1 (by decide) (fun _ => (0 : Nat)) (fun n => n + 5) 0 0 0⟩

open ArrayQueue in
/-- C9 counterexample: `capacity_bits = 31` is a value `k >= 0` for which the
constructor yields no queue (`1 << 31` is not a positive `int`), so there is no
freshly constructed queue whose first push returns true. -/
theorem C9_circular_reuse_counterexample :
    (0 : Int) ≤ 31 ∧ new 31 (fun _ => (0 : Nat)) = none ∧
    ¬ ∃ q : ArrayQueue Nat, new 31 (fun _ => (0 : Nat)) = some q ∧ (q.push 0).1 = true :=
  ⟨by decide, new_out_of_range 31 (by decide) _,
    fun h => h.elim fun q hq =>
      absurd ((new_eq_some 31 (fun _ => (0 : Nat)) q).1 hq.1).1 (by decide)⟩

open ArrayQueue in
/-- C10 (FIFO order): every sequence of calls on a freshly constructed queue, of
capacity `2 ^ k`, returns call by call what the same sequence returns on a FIFO
list bounded by `2 ^ k` elements (the same flags, and each successful pop the
oldest value not yet popped); the content of the queue, oldest first, is that
list, and `size()` is its length. -/
theorem C10_fifo_order {T : Type} (k : Int) (mem : Nat → T) (q : ArrayQueue T)
    (hq : new k mem = some q) (slot : T) (ops : List (QueueOp T)) :
    q.CAPACITY = 2 ^ k.toNat ∧
    (q.run slot ops).1 = (fifoRun (2 ^ k.toNat) [] ops).1 ∧
    (q.run slot ops).2.toList = (fifoRun (2 ^ k.toNat) [] ops).2 ∧
    (q.run slot ops).2.size = (fifoRun (2 ^ k.toNat) [] ops).2.length := by
  have e := ((new_eq_some k mem q).1 hq).2
  rw [e]
  have h := run_refines slot ops (fresh_wf k.toNat mem)
  rw [fresh_toList] at h
  refine ⟨(fresh_wf k.toNat mem).cap, h.1, h.2, ?_⟩
  rw [← h.2, toList_length]
  rfl

open ArrayQueue in
/-- C10 witness: the queue constructed with `capacity_bits = 1`, and the calls
push 5, push 6, push 7, pop, pop. -/
theorem C10_fifo_order_witness :
    new 1 (fun _ => (0 : Nat)) = some (fresh 1 (fun _ => (0 : Nat))) ∧
    ((fresh 1 (fun _ => (0 : Nat))).run 0 [.push 5, .push 6, .push 7, .pop, .pop]).1
      = (fifoRun (2 ^ (1 : Int).toNat) [] [.push 5, .push 6, .push 7, .pop, .pop]).1 :=
  ⟨new_of_range 1 (by decide) _,
    (C10_fifo_order 1 (fun _ => (0 : Nat)) (fresh 1 (fun _ => (0 : Nat)))
      (new_of_range 1 (by decide) _) 0 [.push 5, .push 6, .push 7, .pop, .pop]).2.1⟩

open ArrayQueue in
/-- C11 (atomic failure, bounded size): `push` on a full queue returns false and
leaves the whole queue (indices, size, stored elements) unchanged; `pop` on an
empty queue returns false and leaves the queue and the output slot unchanged;
after every sequence of calls on a freshly constructed queue
`0 <= size() <= CAPACITY`. -/
theorem C11_failure_atomic {T : Type} :
    (∀ (q : ArrayQueue T) (v : T), q.full = true → q.push v = (false, q)) ∧
    (∀ (q : ArrayQueue T) (slot : T), q.empty = true → q.pop slot = (false, slot, q)) ∧
    (∀ (k : Int) (mem : Nat → T) (q : ArrayQueue T), new k mem = some q →
      ∀ (slot : T) (ops : List (QueueOp T)),
        0 ≤ (q.run slot ops).2.size ∧ (q.run slot ops).2.size ≤ (q.run slot ops).2.CAPACITY) := by
  refine ⟨?_, ?_, ?_⟩
  · intro q v h; exact push_full q v ((full_iff q).1 h)
  · intro q slot h; exact pop_empty q slot ((empty_iff q).1 h)
  · intro k mem q hq slot ops
    rw [((new_eq_some k mem q).1 hq).2]
    have h := run_wf slot ops (fresh_wf k.toNat mem)
    exact ⟨Nat.zero_le _, by rw [h.cap]; exact h.sz⟩

open ArrayQueue in
/-- C11 witness: the queue constructed with `capacity_bits = 0`, of capacity 1,
is full when it holds one element, and is empty when fresh. -/
theorem C11_failure_atomic_witness :
    (((fresh 0 (fun _ => (0 : Nat))).push 7).2.full = true ∧
      ((fresh 0 (fun _ => (0 : Nat))).push 7).2.push 8
        = (false, ((fresh 0 (fun _ => (0 : Nat))).push 7).2)) ∧
    ((fresh 0 (fun _ => (0 : Nat))).empty = true ∧
      (fresh 0 (fun _ => (0 : Nat))).pop 3 = (false, 3, fresh 0 (fun _ => (0 : Nat)))) ∧
    (new 0 (fun _ => (0 : Nat)) = some (fresh 0 (fun _ => (0 : Nat))) ∧
      ((fresh 0 (fun _ => (0 : Nat))).run 3 [.push 7, .push 8]).2.size
        ≤ ((fresh 0 (fun _ => (0 : Nat))).run 3 [.push 7, .push 8]).2.CAPACITY) :=
  ⟨⟨by decide, C11_failure_atomic.1 _ 8 (by decide)⟩,
   ⟨by decide, C11_failure_atomic.2.1 _ 3 (by decide)⟩,
   ⟨new_of_range 0 (by decide) _,
    (C11_failure_atomic.2.2 0 (fun _ => (0 : Nat)) _ (new_of_range 0 (by decide) _) 3
      [.push 7, .push 8]).2⟩⟩

/-! ## Theorems: 32-bit arithmetic -/

theorem wrap32_of_range {v : Int} (h1 : -2147483648 ≤ v) (h2 : v < 2147483648) :
    wrap32 v = v := by
  unfold wrap32; omega

theorem wrap16_of_range {v : Int} (h1 : -32768 ≤ v) (h2 : v < 32768) : wrap16 v = v := by
  unfold wrap16; omega

theorem wrap32_range (v : Int) : -2147483648 ≤ wrap32 v ∧ wrap32 v < 2147483648 := by
  unfold wrap32; omega

theorem wrap16_range (v : Int) : -32768 ≤ wrap16 v ∧ wrap16 v < 32768 := by
  unfold wrap16; omega

theorem wrap32_emod (v : Int) : wrap32 v % 4294967296 = v % 4294967296 := by
  unfold wrap32; omega

/-- Two integers congruent modulo `2 ^ 32` have the same `int32_t` conversion. -/
theorem wrap32_congr {u v : Int} (h : u % 4294967296 = v % 4294967296) :
    wrap32 u = wrap32 v := by
  unfold wrap32; omega

theorem toU32_lt (v : Int) : toU32 v < 4294967296 := by
  unfold toU32; omega

theorem toU32_cast (v : Int) : ((toU32 v : Nat) : Int) = v % 4294967296 := by
  unfold toU32; omega

/-- Masking a 32-bit pattern with `2 ^ 32 - 2 ^ k` clears its low `k` bits. -/
theorem nat_and_high_mask (x k : Nat) (hx : x < 2 ^ 32) (hk : k ≤ 32) :
    x &&& (2 ^ 32 - 2 ^ k) = x - x % 2 ^ k := by
  have e1 : 2 ^ 32 - 2 ^ k = (2 ^ (32 - k) - 1) <<< k := by
    rw [Nat.shiftLeft_eq, Nat.sub_mul, ← Nat.pow_add, Nat.one_mul]
    congr 2; omega
  have e2 : x - x % 2 ^ k = (x >>> k) <<< k := by
    rw [Nat.shiftLeft_eq, Nat.shiftRight_eq_div_pow]
    have := Nat.div_add_mod x (2 ^ k)
    rw [Nat.mul_comm] at this
    omega
  rw [e1, e2]
  apply Nat.eq_of_testBit_eq
  intro i
  rw [Nat.testBit_and, Nat.testBit_shiftLeft, Nat.testBit_shiftLeft, Nat.testBit_shiftRight,
    Nat.testBit_two_pow_sub_one]
  by_cases hik : i ≥ k
  · have e3 : k + (i - k) = i := by omega
    rw [e3]
    by_cases hi : i < 32
    · have : i - k < 32 - k := by omega
      simp [hik, this]
    · have hx' : x.testBit i = false := by
        apply Nat.testBit_lt_two_pow
        exact Nat.lt_of_lt_of_le hx (Nat.pow_le_pow_right (by decide) (by omega))
      simp [hx']
  · simp [hik]

/-- Masking with `2 ^ k - 1` keeps the low `k` bits: reduction modulo `2 ^ k`. -/
theorem and32_low_mask (v : Int) (k : Nat) (hk : k ≤ 31) :
    and32 v (2 ^ k - 1) = v % 2 ^ k := by
  have hp : (2 : Int) ^ k ≤ 2 ^ 31 := pow_le_pow_right₀ (by decide) hk
  have hp0 : (0 : Int) < 2 ^ k := by positivity
  have hm : toU32 (2 ^ k - 1) = 2 ^ k - 1 := by
    unfold toU32
    have hpn : (1 : Nat) ≤ 2 ^ k := Nat.one_le_two_pow
    have : ((2 : Int) ^ k - 1) % 4294967296 = 2 ^ k - 1 := by
      apply Int.emod_eq_of_lt <;> omega
    rw [this]
    have e : ((2 : Int) ^ k - 1) = ((2 ^ k - 1 : Nat) : Int) := by
      push_cast [Nat.cast_sub hpn]; ring
    rw [e, Int.toNat_ofNat]
  unfold and32
  rw [hm, Nat.and_pow_two_sub_one_eq_mod]
  have hd : (2 : Int) ^ k ∣ 4294967296 := by
    have : (4294967296 : Int) = 2 ^ k * 2 ^ (32 - k) := by
      rw [← pow_add]
      have : k + (32 - k) = 32 := by omega
      rw [this]; norm_num
    exact ⟨_, this⟩
  have e2 : ((toU32 v % 2 ^ k : Nat) : Int) = v % 2 ^ k := by
    push_cast
    rw [toU32_cast]
    exact Int.emod_emod_of_dvd v hd
  rw [e2]
  apply wrap32_of_range
  · have := Int.emod_nonneg v (ne_of_gt hp0); omega
  · have := Int.emod_lt_of_pos v hp0
    have : (2:Int)^31 = 2147483648 := by norm_num
    omega

theorem int_not_eq (m : Int) : ~~~m = -m - 1 := by
  cases m with
  | ofNat n => show Int.negSucc n = -(n : Int) - 1; rw [Int.negSucc_eq]; omega
  | negSucc n => show Int.ofNat n = -(Int.negSucc n) - 1; rw [Int.negSucc_eq]; simp

/-- Masking with `-(2 ^ k)`, the pattern with the low `k` bits clear, rounds
down to a multiple of `2 ^ k`. -/
theorem and32_high_mask (v : Int) (k : Nat) (hk : k ≤ 31) :
    and32 v (-(2 ^ k)) = wrap32 (v - v % 2 ^ k) := by
  have hp : (2 : Int) ^ k ≤ 2 ^ 31 := pow_le_pow_right₀ (by decide) hk
  have hp0 : (0 : Int) < 2 ^ k := by positivity
  have h31 : (2:Int)^31 = 2147483648 := by norm_num
  have hpn : (2 : Nat) ^ k ≤ 2 ^ 32 := Nat.pow_le_pow_right (by decide) (by omega)
  have hm : toU32 (-(2 ^ k)) = 2 ^ 32 - 2 ^ k := by
    unfold toU32
    have : (-((2 : Int) ^ k)) % 4294967296 = 4294967296 - 2 ^ k := by
      generalize (2 : Int) ^ k = p at hp hp0
      omega
    rw [this]
    have e : (4294967296 - (2 : Int) ^ k) = ((2 ^ 32 - 2 ^ k : Nat) : Int) := by
      have h : ((2 ^ 32 - 2 ^ k : Nat) : Int) = ((2 ^ 32 : Nat) : Int) - ((2 ^ k : Nat) : Int) :=
        Nat.cast_sub hpn
      rw [h]; norm_num
    rw [e, Int.toNat_ofNat]
  unfold and32
  rw [hm, nat_and_high_mask _ _ (toU32_lt v) (by omega)]
  apply wrap32_congr
  have hle : toU32 v % 2 ^ k ≤ toU32 v := Nat.mod_le _ _
  have hd : (2 : Int) ^ k ∣ 4294967296 := by
    have : (4294967296 : Int) = 2 ^ k * 2 ^ (32 - k) := by
      rw [← pow_add]
      have : k + (32 - k) = 32 := by omega
      rw [this]; norm_num
    exact ⟨_, this⟩
  push_cast [Nat.cast_sub hle]
  rw [toU32_cast, Int.emod_emod_of_dvd v hd]
  have h1 : v % 4294967296 % 4294967296 = v % 4294967296 := Int.emod_emod_of_dvd v (dvd_refl _)
  omega

open tinymandelbrot
open tinymandelbrot.TinyMandelbrot

/-! ## Theorems: rectangles -/

namespace rect_t

/-- `intersect` written out field by field. -/
theorem intersect_eq (A B : rect_t) (hA : A.IsInt16) (hB : B.IsInt16) :
    A.intersect B =
      if 0 ≤ wrap16 (min A.r B.r - max A.x B.x) ∧ 0 ≤ wrap16 (min A.b B.b - max A.y B.y)
      then ⟨max A.x B.x, max A.y B.y, wrap16 (min A.r B.r - max A.x B.x),
        wrap16 (min A.b B.b - max A.y B.y)⟩
      else ⟨A.x, A.y, 0, 0⟩ := by
  obtain ⟨hx, hy, hw, hh⟩ := hA
  obtain ⟨hx', hy', hw', hh'⟩ := hB
  have e1 : (if A.x ≥ B.x then A.x else B.x) = max A.x B.x := by
    split <;> omega
  have e2 : (if A.y ≥ B.y then A.y else B.y) = max A.y B.y := by
    split <;> omega
  have e3 : (if A.r < B.r then A.r else B.r) = min A.r B.r := by
    split <;> omega
  have e4 : (if A.b < B.b then A.b else B.b) = min A.b B.b := by
    split <;> omega
  have r1 := wrap16_range (A.x + A.w)
  have r2 := wrap16_range (B.x + B.w)
  have r3 := wrap16_range (A.y + A.h)
  have r4 := wrap16_range (B.y + B.h)
  unfold intersect from_ltrb new
  simp only [e1, e2, e3, e4]
  have w1 : wrap16 (max A.x B.x) = max A.x B.x := wrap16_of_range (by omega) (by omega)
  have w2 : wrap16 (max A.y B.y) = max A.y B.y := wrap16_of_range (by omega) (by omega)
  have w3 : wrap16 (min A.r B.r) = min A.r B.r := by
    unfold r at *; exact wrap16_of_range (by omega) (by omega)
  have w4 : wrap16 (min A.b B.b) = min A.b B.b := by
    unfold b at *; exact wrap16_of_range (by omega) (by omega)
  have w5 : wrap16 A.x = A.x := wrap16_of_range hx.1 hx.2
  have w6 : wrap16 A.y = A.y := wrap16_of_range hy.1 hy.2
  have w7 : wrap16 0 = 0 := by decide
  simp only [w1, w2, w3, w4, w5, w6, w7, ge_iff_le]

end rect_t

/-- C20 (`rect_t::intersect` normalizes its result), as the code has it: for every
pair of rectangles `A.intersect(B)` has `w >= 0` and `h >= 0`; when no `int16_t`
conversion overflows (`rect_t.NoOverflow`), it is the rectangle from (max of the
lefts, max of the tops) to (min of the rights, min of the bottoms) if that
rectangle has non-negative width and height, and `(A.x, A.y, 0, 0)` otherwise. -/
theorem C20_intersect_amended (A B : rect_t) (hA : A.IsInt16) (hB : B.IsInt16) :
    0 ≤ (A.intersect B).w ∧ 0 ≤ (A.intersect B).h ∧
    (rect_t.NoOverflow A B →
      A.intersect B =
        if 0 ≤ min (A.x + A.w) (B.x + B.w) - max A.x B.x ∧
            0 ≤ min (A.y + A.h) (B.y + B.h) - max A.y B.y
        then ⟨max A.x B.x, max A.y B.y, min (A.x + A.w) (B.x + B.w) - max A.x B.x,
          min (A.y + A.h) (B.y + B.h) - max A.y B.y⟩
        else ⟨A.x, A.y, 0, 0⟩) := by
  rw [rect_t.intersect_eq A B hA hB]
  refine ⟨?_, ?_, ?_⟩
  · split
    · next h => exact h.1
    · exact le_refl _
  · split
    · next h => exact h.2
    · exact le_refl _
  · intro hno
    obtain ⟨hx, hy, hw, hh⟩ := hA
    obtain ⟨hx', hy', hw', hh'⟩ := hB
    obtain ⟨n1, n2, n3, n4, n5, n6⟩ := hno
    have e1 : A.r = A.x + A.w := wrap16_of_range n1.1 n1.2
    have e2 : A.b = A.y + A.h := wrap16_of_range n2.1 n2.2
    have e3 : B.r = B.x + B.w := wrap16_of_range n3.1 n3.2
    have e4 : B.b = B.y + B.h := wrap16_of_range n4.1 n4.2
    rw [e1, e2, e3, e4]
    have e5 : wrap16 (min (A.x + A.w) (B.x + B.w) - max A.x B.x)
        = min (A.x + A.w) (B.x + B.w) - max A.x B.x :=
      wrap16_of_range n5 (by omega)
    have e6 : wrap16 (min (A.y + A.h) (B.y + B.h) - max A.y B.y)
        = min (A.y + A.h) (B.y + B.h) - max A.y B.y :=
      wrap16_of_range n6 (by omega)
    rw [e5, e6]

/-- C20 witness: `A = (0, 0, 10, 10)` and `B = (5, 5, 10, 10)`. -/
theorem C20_intersect_amended_witness :
    (rect_t.IsInt16 ⟨0, 0, 10, 10⟩ ∧ rect_t.IsInt16 ⟨5, 5, 10, 10⟩ ∧
      rect_t.NoOverflow ⟨0, 0, 10, 10⟩ ⟨5, 5, 10, 10⟩) ∧
    (⟨0, 0, 10, 10⟩ : rect_t).intersect ⟨5, 5, 10, 10⟩ =
      if 0 ≤ min ((0 : Int) + 10) (5 + 10) - max 0 5 ∧ 0 ≤ min ((0 : Int) + 10) (5 + 10) - max 0 5
      then ⟨max 0 5, max 0 5, min (0 + 10) (5 + 10) - max 0 5, min (0 + 10) (5 + 10) - max 0 5⟩
      else ⟨0, 0, 0, 0⟩ :=
  ⟨⟨by unfold rect_t.IsInt16; decide, by unfold rect_t.IsInt16; decide,
      by unfold rect_t.NoOverflow; decide⟩,
    (C20_intersect_amended ⟨0, 0, 10, 10⟩ ⟨5, 5, 10, 10⟩ (by unfold rect_t.IsInt16; decide)
      (by unfold rect_t.IsInt16; decide)).2.2 (by unfold rect_t.NoOverflow; decide)⟩

/-- C20 counterexample: `A = (-30000, 0, 100, 1)` and `B = (30000, 0, 100, 1)` do not
overlap (the smaller right edge `-29900` is left of the larger left edge
`30000`), yet `A.intersect(B)` is `(30000, 0, 5636, 1)`, not `(A.x, A.y, 0, 0)`:
the width `-59900` wraps to `5636` in `int16_t`. -/
theorem C20_intersect_counterexample :
    (rect_t.IsInt16 ⟨-30000, 0, 100, 1⟩ ∧ rect_t.IsInt16 ⟨30000, 0, 100, 1⟩) ∧
    min ((-30000 : Int) + 100) (30000 + 100) - max (-30000) 30000 < 0 ∧
    (⟨-30000, 0, 100, 1⟩ : rect_t).intersect ⟨30000, 0, 100, 1⟩ = ⟨30000, 0, 5636, 1⟩ ∧
    (⟨-30000, 0, 100, 1⟩ : rect_t).intersect ⟨30000, 0, 100, 1⟩ ≠ ⟨-30000, 0, 0, 0⟩ := by
  refine ⟨⟨by unfold rect_t.IsInt16; decide, by unfold rect_t.IsInt16; decide⟩, by decide,
    by decide, by decide⟩

open tinymandelbrot
open tinymandelbrot.TinyMandelbrot

/-! ## Theorems: the fixed-point viewport -/

theorem wrap32_eq_of_exists {u v : Int} (h : ∃ t : Int, u = v + 4294967296 * t) :
    wrap32 u = wrap32 v := by
  obtain ⟨t, rfl⟩ := h
  unfold wrap32; omega

theorem wrap32_exists (v : Int) : ∃ t : Int, wrap32 v = v + 4294967296 * t := by
  refine ⟨-((v + 2147483648) / 4294967296), ?_⟩
  unfold wrap32; omega

/-- In a state whose zoom is within `[0, MAX_ZOOM]`, the position of the
pixel LSB is a natural number `k <= 17`. -/
theorem lsb_cases (s : TinyMandelbrot) (h0 : 0 ≤ s._zoom) (h1 : s._zoom ≤ MAX_ZOOM) :
    ∃ k : Nat, k ≤ 17 ∧ s.pixel_lsb_pos = (k : Int) ∧ s._zoom = 17 - (k : Int) := by
  refine ⟨(17 - s._zoom).toNat, ?_, ?_, ?_⟩ <;>
    simp only [pixel_lsb_pos, FIXED_POINT_POS, PIXEL_SCALE_BITS, MAX_ZOOM] at * <;> omega

theorem round_elem_eq (s : TinyMandelbrot) (k : Nat) (hk : k ≤ 17)
    (hl : s.pixel_lsb_pos = (k : Int)) (v : Int) :
    s.round_elem v = wrap32 (v - v % 2 ^ k) := by
  have hp : (2 : Int) ^ k ≤ 2 ^ 17 := pow_le_pow_right₀ (by decide) hk
  have hp0 : (0 : Int) < 2 ^ k := by positivity
  have h17 : (2 : Int) ^ 17 = 131072 := by norm_num
  unfold round_elem
  simp only [hl, shl32, Int.toNat_ofNat, one_mul]
  have e1 : wrap32 ((2 : Int) ^ k) = 2 ^ k := wrap32_of_range (by omega) (by omega)
  have e2 : wrap32 ((2 : Int) ^ k - 1) = 2 ^ k - 1 := wrap32_of_range (by omega) (by omega)
  have e3 : not32 ((2 : Int) ^ k - 1) = -(2 ^ k) := by
    unfold not32
    rw [int_not_eq]
    have : -((2 : Int) ^ k - 1) - 1 = -(2 ^ k) := by ring
    rw [this]
    exact wrap32_of_range (by omega) (by omega)
  rw [e1, e2, e3]
  exact and32_high_mask v k (by omega)

theorem pixel_size_eq (s : TinyMandelbrot) (k : Nat) (hk : k ≤ 17)
    (hz : s._zoom = 17 - (k : Int)) : s.pixel_size = 2 ^ k := by
  unfold pixel_size sar32 FIXED shl32 PIXEL_SCALE_BITS FIXED_POINT_POS
  rw [hz, Int.shiftRight_eq_div_pow]
  interval_cases k <;> rfl

theorem sar32_eq (v : Int) (k : Nat) : sar32 v (k : Int) = v / 2 ^ k := by
  unfold sar32
  rw [Int.shiftRight_eq_div_pow, Int.toNat_ofNat]
  norm_num

/-- C19 (quantization is idempotent): at every zoom within `[0, MAX_ZOOM]` and for
every value `v`, `round_elem(round_elem(v)) = round_elem(v)`. -/
theorem C19_round_elem_idempotent (s : TinyMandelbrot) (h0 : 0 ≤ s._zoom)
    (h1 : s._zoom ≤ MAX_ZOOM) (v : Int) :
    s.round_elem (s.round_elem v) = s.round_elem v := by
  obtain ⟨k, hk, hl, -⟩ := lsb_cases s h0 h1
  rw [round_elem_eq s k hk hl, round_elem_eq s k hk hl]
  unfold wrap32
  interval_cases k <;> norm_num <;> omega

/-- C19 witness: the freshly constructed engine (zoom 0) and the value 12345678. -/
theorem C19_round_elem_idempotent_witness :
    (0 ≤ (TinyMandelbrot.new (fun _ => 0) (fun _ => ⟨0, 0⟩))._zoom ∧
      (TinyMandelbrot.new (fun _ => 0) (fun _ => ⟨0, 0⟩))._zoom ≤ MAX_ZOOM) ∧
    (TinyMandelbrot.new (fun _ => 0) (fun _ => ⟨0, 0⟩)).round_elem
      ((TinyMandelbrot.new (fun _ => 0) (fun _ => ⟨0, 0⟩)).round_elem 12345678)
      = (TinyMandelbrot.new (fun _ => 0) (fun _ => ⟨0, 0⟩)).round_elem 12345678 :=
  ⟨⟨by decide, by decide⟩,
    C19_round_elem_idempotent _ (by decide) (by decide) 12345678⟩

theorem FIXED_two : FIXED 2 = 33554432 := by decide

theorem partial_update_fields (s : TinyMandelbrot) (dx dy : Int) :
    (s.partial_update dx dy)._a = s._a ∧ (s.partial_update dx dy)._b = s._b ∧
    (s.partial_update dx dy)._zoom = s._zoom ∧ (s.partial_update dx dy).queue = s.queue :=
  ⟨rfl, rfl, rfl, rfl⟩

theorem invalidate_buffer_fields (s : TinyMandelbrot) :
    s.invalidate_buffer._a = s._a ∧ s.invalidate_buffer._b = s._b ∧
    s.invalidate_buffer._zoom = s._zoom ∧ s.invalidate_buffer.queue = s.queue :=
  ⟨rfl, rfl, rfl, rfl⟩

theorem fast_scroll_fields (s : TinyMandelbrot) (a_px b_px : Int) :
    (s.fast_scroll a_px b_px)._a = s._a ∧ (s.fast_scroll a_px b_px)._b = s._b ∧
    (s.fast_scroll a_px b_px)._zoom = s._zoom ∧ (s.fast_scroll a_px b_px).queue = s.queue := by
  unfold fast_scroll
  split
  · split
    · exact partial_update_fields _ _ _
    · exact invalidate_buffer_fields _
  · exact ⟨rfl, rfl, rfl, rfl⟩

theorem set_pos_zoom (s : TinyMandelbrot) (a b : Int) : (s.set_pos a b)._zoom = s._zoom := by
  unfold set_pos
  split
  · rfl
  · exact (fast_scroll_fields _ _ _).2.2.1

theorem set_pos_queue (s : TinyMandelbrot) (a b : Int) : (s.set_pos a b).queue = s.queue := by
  unfold set_pos
  split
  · rfl
  · exact (fast_scroll_fields _ _ _).2.2.2

theorem set_pos_a (s : TinyMandelbrot) (a b : Int) : (s.set_pos a b)._a = s.clamp_pos a := by
  unfold set_pos
  split
  · next h => rw [h.1]
  · rw [(fast_scroll_fields _ _ _).1]

theorem set_pos_b (s : TinyMandelbrot) (a b : Int) : (s.set_pos a b)._b = s.clamp_pos b := by
  unfold set_pos
  split
  · next h => rw [h.2]
  · rw [(fast_scroll_fields _ _ _).2.1]

theorem set_pos_round_elem (s : TinyMandelbrot) (a b v : Int) :
    (s.set_pos a b).round_elem v = s.round_elem v := by
  simp only [round_elem, pixel_lsb_pos, set_pos_zoom]

theorem set_pos_pixel_size (s : TinyMandelbrot) (a b : Int) :
    (s.set_pos a b).pixel_size = s.pixel_size := by
  simp only [pixel_size, set_pos_zoom]

/-- Quantizing and then clamping to `[-FIXED(2), FIXED(2)]` is clamping and
then quantizing; the result lies in the range and is a multiple of the pixel size. -/
theorem clamp_pos_spec (s : TinyMandelbrot) (h0 : 0 ≤ s._zoom) (h1 : s._zoom ≤ MAX_ZOOM)
    (v : Int) (hv1 : -2147483648 ≤ v) (hv2 : v < 2147483648) :
    s.clamp_pos v = s.round_elem (limit (wrap32 (-(FIXED 2))) (FIXED 2) v) ∧
      -(FIXED 2) ≤ s.clamp_pos v ∧ s.clamp_pos v ≤ FIXED 2 ∧
      s.clamp_pos v % s.pixel_size = 0 := by
  obtain ⟨k, hk, hl, hz⟩ := lsb_cases s h0 h1
  unfold clamp_pos
  rw [round_elem_eq s k hk hl, round_elem_eq s k hk hl, pixel_size_eq s k hk hz, FIXED_two]
  have e : wrap32 (-33554432) = -33554432 := by decide
  rw [e]
  unfold limit wrap32
  interval_cases k <;> norm_num <;> (split_ifs <;> omega)

theorem a_eq (s : TinyMandelbrot) : s.a = s._a := rfl

theorem b_eq (s : TinyMandelbrot) : s.b = s._b := rfl

/-- C14 (`set_pos` clamps and quantizes): at every zoom within `[0, MAX_ZOOM]` and
for all 32-bit inputs `a`, `b`, after `set_pos(a, b)` the stored position is
`round_elem(limit(-FIXED(2), FIXED(2), a))`, likewise for `b` (clamping and then
quantizing, where the code quantizes and then clamps); both lie in
`[-FIXED(2), FIXED(2)]` and are exact multiples of `pixel_size()`. -/
theorem C14_set_pos_clamps_quantizes (s : TinyMandelbrot) (h0 : 0 ≤ s._zoom)
    (h1 : s._zoom ≤ MAX_ZOOM) (a b : Int)
    (ha : -2147483648 ≤ a ∧ a < 2147483648) (hb : -2147483648 ≤ b ∧ b < 2147483648) :
    (s.set_pos a b).a = (s.set_pos a b).round_elem (limit (wrap32 (-(FIXED 2))) (FIXED 2) a) ∧
    (s.set_pos a b).b = (s.set_pos a b).round_elem (limit (wrap32 (-(FIXED 2))) (FIXED 2) b) ∧
    (-(FIXED 2) ≤ (s.set_pos a b).a ∧ (s.set_pos a b).a ≤ FIXED 2) ∧
    (-(FIXED 2) ≤ (s.set_pos a b).b ∧ (s.set_pos a b).b ≤ FIXED 2) ∧
    (s.set_pos a b).a % (s.set_pos a b).pixel_size = 0 ∧
    (s.set_pos a b).b % (s.set_pos a b).pixel_size = 0 := by
  have hA := clamp_pos_spec s h0 h1 a ha.1 ha.2
  have hB := clamp_pos_spec s h0 h1 b hb.1 hb.2
  rw [a_eq, b_eq, set_pos_a, set_pos_b, set_pos_pixel_size]
  refine ⟨?_, ?_, ⟨hA.2.1, hA.2.2.1⟩, ⟨hB.2.1, hB.2.2.1⟩, hA.2.2.2, hB.2.2.2⟩
  · rw [set_pos_round_elem]; exact hA.1
  · rw [set_pos_round_elem]; exact hB.1

/-- C14 witness: the freshly constructed engine, `a = 100000001`, `b = -7`. -/
theorem C14_set_pos_clamps_quantizes_witness :
    (0 ≤ (TinyMandelbrot.new (fun _ => 0) (fun _ => ⟨0, 0⟩))._zoom ∧
      (TinyMandelbrot.new (fun _ => 0) (fun _ => ⟨0, 0⟩))._zoom ≤ MAX_ZOOM) ∧
    ((-2147483648 : Int) ≤ 100000001 ∧ (100000001 : Int) < 2147483648) ∧
    ((-2147483648 : Int) ≤ -7 ∧ (-7 : Int) < 2147483648) ∧
    ((TinyMandelbrot.new (fun _ => 0) (fun _ => ⟨0, 0⟩)).set_pos 100000001 (-7)).a
      = ((TinyMandelbrot.new (fun _ => 0) (fun _ => ⟨0, 0⟩)).set_pos 100000001 (-7)).round_elem
          (limit (wrap32 (-(FIXED 2))) (FIXED 2) 100000001) :=
  ⟨⟨by decide, by decide⟩, ⟨by decide, by decide⟩, ⟨by decide, by decide⟩,
    (C14_set_pos_clamps_quantizes _ (by decide) (by decide) 100000001 (-7)
      ⟨by decide, by decide⟩ ⟨by decide, by decide⟩).1⟩

open tinymandelbrot
open tinymandelbrot.TinyMandelbrot

/-! ## Theorems: the pixel grid -/

namespace Buffer2D

variable {T : Type}

theorem fill_row_spec (v : T) (n : Nat) (p : Int) (data : Int → T) (j : Int) :
    fill_row v n p data j = if p ≤ j ∧ j < p + n then v else data j := by
  induction n generalizing p data with
  | zero =>
    have : ¬ (p ≤ j ∧ j < p + ((0 : Nat) : Int)) := by omega
    simp only [fill_row, this, if_false]
  | succ n ih =>
    rw [fill_row, ih]
    by_cases h1 : p + 1 ≤ j ∧ j < p + 1 + (n : Int)
    · have h2 : p ≤ j ∧ j < p + ((n + 1 : Nat) : Int) := by omega
      rw [if_pos h1, if_pos h2]
    · rw [if_neg h1]
      by_cases hj : j = p
      · subst hj
        have h2 : j ≤ j ∧ j < j + ((n + 1 : Nat) : Int) := by omega
        rw [if_pos h2, Function.update_same]
      · have h2 : ¬ (p ≤ j ∧ j < p + ((n + 1 : Nat) : Int)) := by omega
        rw [if_neg h2, Function.update_noteq hj]

/-- The forward loop, run with the destination not above the source, copies
the `n` source elements as they were before the call. -/
theorem copy_fwd_spec (n : Nat) (dst src : Int) (data : Int → T) (h : dst ≤ src) (j : Int) :
    copy_fwd n dst src data j
      = if dst ≤ j ∧ j < dst + n then data (j - dst + src) else data j := by
  induction n generalizing dst src data with
  | zero =>
    have : ¬ (dst ≤ j ∧ j < dst + ((0 : Nat) : Int)) := by omega
    simp only [copy_fwd, this, if_false]
  | succ n ih =>
    rw [copy_fwd, ih (dst + 1) (src + 1) _ (by omega)]
    by_cases h1 : dst + 1 ≤ j ∧ j < dst + 1 + (n : Int)
    · have h2 : dst ≤ j ∧ j < dst + ((n + 1 : Nat) : Int) := by omega
      rw [if_pos h1, if_pos h2]
      have h3 : j - (dst + 1) + (src + 1) ≠ dst := by omega
      rw [Function.update_noteq h3]
      congr 1; omega
    · rw [if_neg h1]
      by_cases hj : j = dst
      · subst hj
        have h2 : j ≤ j ∧ j < j + ((n + 1 : Nat) : Int) := by omega
        rw [if_pos h2, Function.update_same]
        congr 1; omega
      · have h2 : ¬ (dst ≤ j ∧ j < dst + ((n + 1 : Nat) : Int)) := by omega
        rw [if_neg h2, Function.update_noteq hj]

/-- The backward loop, run with the destination not below the source, copies
the `n` source elements as they were before the call; `dst` and `src` are the
pointers one past the end. -/
theorem copy_bwd_spec (n : Nat) (dst src : Int) (data : Int → T) (h : src ≤ dst) (j : Int) :
    copy_bwd n dst src data j
      = if dst - n ≤ j ∧ j < dst then data (j - dst + src) else data j := by
  induction n generalizing dst src data with
  | zero =>
    have : ¬ (dst - ((0 : Nat) : Int) ≤ j ∧ j < dst) := by omega
    simp only [copy_bwd, this, if_false]
  | succ n ih =>
    rw [copy_bwd, ih (dst - 1) (src - 1) _ (by omega)]
    by_cases h1 : dst - 1 - (n : Int) ≤ j ∧ j < dst - 1
    · have h2 : dst - ((n + 1 : Nat) : Int) ≤ j ∧ j < dst := by omega
      rw [if_pos h1, if_pos h2]
      have h3 : j - (dst - 1) + (src - 1) ≠ dst - 1 := by omega
      rw [Function.update_noteq h3]
      congr 1; omega
    · rw [if_neg h1]
      by_cases hj : j = dst - 1
      · subst hj
        have h2 : dst - ((n + 1 : Nat) : Int) ≤ dst - 1 ∧ dst - 1 < dst := by omega
        rw [if_pos h2, Function.update_same]
        congr 1; omega
      · have h2 : ¬ (dst - ((n + 1 : Nat) : Int) ≤ j ∧ j < dst) := by omega
        rw [if_neg h2, Function.update_noteq hj]

/-- `line_copy` moves `n` elements like `memmove`: every destination element
receives the value its source element had before the call, whether or not the
two ranges overlap. -/
theorem line_copy_spec (dst src n : Int) (data : Int → T) (j : Int) :
    line_copy dst src n data j
      = if dst ≤ j ∧ j < dst + n then data (j - dst + src) else data j := by
  unfold line_copy
  by_cases hn : 0 ≤ n
  · have e : ((n.toNat : Nat) : Int) = n := Int.toNat_of_nonneg hn
    by_cases h : dst < src
    · rw [if_pos h, copy_fwd_spec _ _ _ _ (by omega), e]
    · rw [if_neg h, copy_bwd_spec _ _ _ _ (by omega), e]
      by_cases h1 : dst ≤ j ∧ j < dst + n
      · have h2 : dst + n - n ≤ j ∧ j < dst + n := by omega
        rw [if_pos h1, if_pos h2]
        congr 1; omega
      · have h2 : ¬ (dst + n - n ≤ j ∧ j < dst + n) := by omega
        rw [if_neg h1, if_neg h2]
  · have e : n.toNat = 0 := by omega
    have h1 : ¬ (dst ≤ j ∧ j < dst + n) := by omega
    rw [e, if_neg h1]
    split <;> rfl

/-- Row-major indices: inside a row of `S` elements, an index range that
starts in row `y` selects the cells of row `y` only. -/
theorem cell_index (S y y' x' lo hi : Int) (hx0 : 0 ≤ x') (hx1 : x' < S)
    (hlo : 0 ≤ lo) (hhi : hi ≤ S) :
    (y * S + lo ≤ y' * S + x' ∧ y' * S + x' < y * S + hi) ↔ (y' = y ∧ lo ≤ x' ∧ x' < hi) := by
  constructor
  · rintro ⟨h1, h2⟩
    have hS : 0 ≤ S := by omega
    rcases lt_trichotomy y' y with h | h | h
    · exfalso
      have : (y' + 1) * S ≤ y * S := Int.mul_le_mul_of_nonneg_right (by omega) hS
      have e : (y' + 1) * S = y' * S + S := by ring
      omega
    · subst h; omega
    · exfalso
      have : (y + 1) * S ≤ y' * S := Int.mul_le_mul_of_nonneg_right (by omega) hS
      have e : (y + 1) * S = y * S + S := by ring
      omega
  · rintro ⟨rfl, h1, h2⟩
    omega


/-- `line_copy` from row `ys`, column `xs` to row `yd`, column `xd`, read cell
by cell. -/
theorem line_copy_cell (S yd xd ys xs n : Int) (data : Int → T)
    (hxd : 0 ≤ xd) (hn : xd + n ≤ S) (y' x' : Int) (hx0 : 0 ≤ x') (hx1 : x' < S) :
    line_copy (yd * S + xd) (ys * S + xs) n data (y' * S + x')
      = if y' = yd ∧ xd ≤ x' ∧ x' < xd + n then data (ys * S + (xs + (x' - xd)))
        else data (y' * S + x') := by
  rw [line_copy_spec]
  have key := cell_index S yd y' x' xd (xd + n) hx0 hx1 hxd hn
  by_cases h : y' = yd ∧ xd ≤ x' ∧ x' < xd + n
  · have h' := key.2 h
    rw [if_pos h, if_pos ⟨h'.1, by omega⟩]
    obtain ⟨rfl, -, -⟩ := h
    congr 1; ring
  · have h' : ¬ (yd * S + xd ≤ y' * S + x' ∧ y' * S + x' < yd * S + xd + n) := by
      intro hc; exact h (key.1 ⟨hc.1, by omega⟩)
    rw [if_neg h, if_neg h']

/-- The top-down row loop (`dy < 0`): `k` rows are copied from rows
`ys, ys + 1, ...` to the rows `yd, yd + 1, ...` above them. -/
theorem rows_fwd_cell (S xd xs n : Int) (hxd : 0 ≤ xd) (hn : xd + n ≤ S)
    (hxs : 0 ≤ xs) (hns : xs + n ≤ S) (k : Nat) :
    ∀ (yd ys : Int) (data : Int → T), yd < ys →
      ∀ (y' x' : Int), 0 ≤ x' → x' < S →
        rows_fwd S n k (yd * S + xd) (ys * S + xs) data (y' * S + x')
          = if (yd ≤ y' ∧ y' < yd + k) ∧ xd ≤ x' ∧ x' < xd + n
            then data ((ys + (y' - yd)) * S + (xs + (x' - xd)))
            else data (y' * S + x') := by
  induction k with
  | zero =>
    intro yd ys data _ y' x' _ _
    have : ¬ ((yd ≤ y' ∧ y' < yd + ((0 : Nat) : Int)) ∧ xd ≤ x' ∧ x' < xd + n) := by omega
    rw [if_neg this]; rfl
  | succ k ih =>
    intro yd ys data hy y' x' hx0 hx1
    have e1 : yd * S + xd + S = (yd + 1) * S + xd := by ring
    have e2 : ys * S + xs + S = (ys + 1) * S + xs := by ring
    rw [rows_fwd, e1, e2, ih (yd + 1) (ys + 1) _ (by omega) y' x' hx0 hx1]
    by_cases h1 : (yd + 1 ≤ y' ∧ y' < yd + 1 + (k : Int)) ∧ xd ≤ x' ∧ x' < xd + n
    · have h2 : (yd ≤ y' ∧ y' < yd + ((k + 1 : Nat) : Int)) ∧ xd ≤ x' ∧ x' < xd + n := by
        omega
      rw [if_pos h1, if_pos h2]
      rw [line_copy_cell S yd xd ys xs n data hxd hn _ _ (by omega) (by omega)]
      have h3 : ¬ (ys + 1 + (y' - (yd + 1)) = yd ∧ xd ≤ xs + (x' - xd) ∧
          xs + (x' - xd) < xd + n) := by omega
      rw [if_neg h3]
      have e : ys + 1 + (y' - (yd + 1)) = ys + (y' - yd) := by omega
      rw [e]
    · rw [if_neg h1, line_copy_cell S yd xd ys xs n data hxd hn y' x' hx0 hx1]
      by_cases h4 : y' = yd ∧ xd ≤ x' ∧ x' < xd + n
      · have h2 : (yd ≤ y' ∧ y' < yd + ((k + 1 : Nat) : Int)) ∧ xd ≤ x' ∧ x' < xd + n := by
          omega
        rw [if_pos h4, if_pos h2]
        obtain ⟨rfl, -, -⟩ := h4
        have e : ys + (y' - y') = ys := by omega
        rw [e]
      · have h2 : ¬ ((yd ≤ y' ∧ y' < yd + ((k + 1 : Nat) : Int)) ∧ xd ≤ x' ∧ x' < xd + n) := by
          omega
        rw [if_neg h4, if_neg h2]

/-- The bottom-up row loop (`dy >= 0`): `k` rows are copied from rows
`ys, ...` to the rows `yd, ...` at or below them, last row first; the
pointers passed are those one row past the last row. -/
theorem rows_bwd_cell (S xd xs n : Int) (hxd : 0 ≤ xd) (hn : xd + n ≤ S)
    (hxs : 0 ≤ xs) (hns : xs + n ≤ S) (yd ys : Int) (hy : ys ≤ yd) (k : Nat) :
    ∀ (data : Int → T) (y' x' : Int), 0 ≤ x' → x' < S →
        rows_bwd S n k ((yd + k) * S + xd) ((ys + k) * S + xs) data (y' * S + x')
          = if (yd ≤ y' ∧ y' < yd + k) ∧ xd ≤ x' ∧ x' < xd + n
            then data ((ys + (y' - yd)) * S + (xs + (x' - xd)))
            else data (y' * S + x') := by
  induction k with
  | zero =>
    intro data y' x' _ _
    have : ¬ ((yd ≤ y' ∧ y' < yd + ((0 : Nat) : Int)) ∧ xd ≤ x' ∧ x' < xd + n) := by omega
    rw [if_neg this]; rfl
  | succ k ih =>
    intro data y' x' hx0 hx1
    have e1 : (yd + ((k + 1 : Nat) : Int)) * S + xd - S = (yd + k) * S + xd := by
      push_cast; ring
    have e2 : (ys + ((k + 1 : Nat) : Int)) * S + xs - S = (ys + k) * S + xs := by
      push_cast; ring
    rw [rows_bwd, e1, e2, ih _ y' x' hx0 hx1]
    by_cases h1 : (yd ≤ y' ∧ y' < yd + (k : Int)) ∧ xd ≤ x' ∧ x' < xd + n
    · have h2 : (yd ≤ y' ∧ y' < yd + ((k + 1 : Nat) : Int)) ∧ xd ≤ x' ∧ x' < xd + n := by
        omega
      rw [if_pos h1, if_pos h2]
      rw [line_copy_cell S (yd + k) xd (ys + k) xs n data hxd hn _ _ (by omega) (by omega)]
      have h3 : ¬ (ys + (y' - yd) = yd + k ∧ xd ≤ xs + (x' - xd) ∧
          xs + (x' - xd) < xd + n) := by omega
      rw [if_neg h3]
    · rw [if_neg h1, line_copy_cell S (yd + k) xd (ys + k) xs n data hxd hn y' x' hx0 hx1]
      by_cases h4 : y' = yd + k ∧ xd ≤ x' ∧ x' < xd + n
      · have h2 : (yd ≤ y' ∧ y' < yd + ((k + 1 : Nat) : Int)) ∧ xd ≤ x' ∧ x' < xd + n := by
          omega
        rw [if_pos h4, if_pos h2]
        obtain ⟨rfl, -, -⟩ := h4
        have e : ys + (yd + (k : Int) - yd) = ys + k := by omega
        rw [e]
      · have h2 : ¬ ((yd ≤ y' ∧ y' < yd + ((k + 1 : Nat) : Int)) ∧ xd ≤ x' ∧ x' < xd + n) := by
          omega
        rw [if_neg h4, if_neg h2]


/-- The store after `scroll(dx, dy)` with `|dx| < W`, `|dy| < H`, read cell by
cell over the whole stride. -/
theorem scroll_cell (b : Buffer2D T) (dx dy : Int)
    (hW : b.W ≤ b.STRIDE) (hW' : b.W < 32768) (hH' : b.H < 32768)
    (hdx : -b.W < dx ∧ dx < b.W) (hdy : -b.H < dy ∧ dy < b.H)
    (x y : Int) (hx0 : 0 ≤ x) (hx1 : x < b.STRIDE) :
    (b.scroll dx dy).data (y * b.STRIDE + x)
      = if (0 ≤ y ∧ y < b.H ∧ 0 ≤ y - dy ∧ y - dy < b.H) ∧
            (0 ≤ x ∧ x < b.W ∧ 0 ≤ x - dx ∧ x - dx < b.W)
        then b.data ((y - dy) * b.STRIDE + (x - dx))
        else b.data (y * b.STRIDE + x) := by
  have ex : wrap16 dx = dx := wrap16_of_range (by omega) (by omega)
  have ey : wrap16 dy = dy := wrap16_of_range (by omega) (by omega)
  have enx : wrap16 (-dx) = -dx := wrap16_of_range (by omega) (by omega)
  have eny : wrap16 (-dy) = -dy := wrap16_of_range (by omega) (by omega)
  have ew : wrap16 (b.W - |dx|) = b.W - |dx| :=
    wrap16_of_range (by have := abs_nonneg dx; have := abs_lt.2 hdx; omega)
      (by have := abs_nonneg dx; omega)
  have eh : wrap16 (b.H - |dy|) = b.H - |dy| :=
    wrap16_of_range (by have := abs_nonneg dy; have := abs_lt.2 hdy; omega)
      (by have := abs_nonneg dy; omega)
  have hk : (((b.H - |dy|).toNat : Nat) : Int) = b.H - |dy| :=
    Int.toNat_of_nonneg (by have := abs_lt.2 hdy; omega)
  have hS : 0 ≤ b.STRIDE := by omega
  -- the source and destination columns, for each sign of `dx`
  obtain ⟨xs, xd, hxs, hxd, hxx, hn1, hn2⟩ :
      ∃ xs xd : Int, (if dx > 0 then (0 : Int) else if dx < 0 then -dx else 0) = xs ∧
        (if dx > 0 then dx else if dx < 0 then (0 : Int) else 0) = xd ∧
        xs - xd = -dx ∧ (0 ≤ xd ∧ xd + (b.W - |dx|) ≤ b.STRIDE) ∧
        (0 ≤ xs ∧ xs + (b.W - |dx|) ≤ b.STRIDE) := by
    rcases lt_trichotomy dx 0 with h | h | h
    · refine ⟨-dx, 0, ?_, ?_, ?_, ?_, ?_⟩
      · rw [if_neg (by omega), if_pos h]
      · rw [if_neg (by omega), if_pos h]
      · omega
      · rw [abs_of_neg h]; omega
      · rw [abs_of_neg h]; omega
    · subst h
      refine ⟨0, 0, ?_, ?_, ?_, ?_, ?_⟩ <;> simp <;> omega
    · refine ⟨0, dx, ?_, ?_, ?_, ?_, ?_⟩
      · rw [if_pos h]
      · rw [if_pos h]
      · omega
      · rw [abs_of_pos h]; omega
      · rw [abs_of_pos h]; omega
  unfold scroll
  simp only [ex, ey, enx, eny, ew, eh, hxs, hxd]
  by_cases hneg : dy < 0
  · have e1 : (if dy > 0 then (0 : Int) else if dy < 0 then -dy else 0) = -dy := by
      rw [if_neg (by omega), if_pos hneg]
    have e2 : (if dy > 0 then dy else if dy < 0 then (0 : Int) else 0) = 0 := by
      rw [if_neg (by omega), if_pos hneg]
    rw [if_pos hneg, e1, e2]
    show rows_fwd b.STRIDE (b.W - |dx|) (b.H - |dy|).toNat (0 * b.STRIDE + xd)
      (-dy * b.STRIDE + xs) b.data (y * b.STRIDE + x) = _
    rw [rows_fwd_cell b.STRIDE xd xs (b.W - |dx|) hn1.1 hn1.2 hn2.1 hn2.2 _ 0 (-dy) b.data
      (by omega) y x hx0 hx1, hk, abs_of_neg hneg]
    have hax : |dx| = xd + xs := by
      rcases abs_cases dx with h | h <;> split_ifs at hxs hxd <;> omega
    by_cases hc : (0 ≤ y ∧ y < b.H ∧ 0 ≤ y - dy ∧ y - dy < b.H) ∧
        (0 ≤ x ∧ x < b.W ∧ 0 ≤ x - dx ∧ x - dx < b.W)
    · rw [if_pos hc, if_pos (by omega)]
      have e3 : -dy + (y - 0) = y - dy := by omega
      have e4 : xs + (x - xd) = x - dx := by omega
      rw [e3, e4]
    · rw [if_neg hc, if_neg (by omega)]
  · obtain ⟨yd, hyd1, hyd2, hyd3⟩ : ∃ yd : Int,
        (if dy > 0 then dy else if dy < 0 then (0 : Int) else 0) = yd ∧
        (if dy > 0 then (0 : Int) else if dy < 0 then -dy else 0) = 0 ∧ yd = dy := by
      rcases lt_trichotomy dy 0 with h | h | h
      · omega
      · subst h; exact ⟨0, by simp, by simp, rfl⟩
      · exact ⟨dy, by rw [if_pos h], by rw [if_pos h], rfl⟩
    subst hyd3
    rw [if_neg hneg, hyd1, hyd2]
    have e5 : yd * b.STRIDE + xd + b.STRIDE * (b.H - |yd|)
        = (yd + ((b.H - |yd|).toNat : Nat)) * b.STRIDE + xd := by rw [hk]; ring
    have e6 : 0 * b.STRIDE + xs + b.STRIDE * (b.H - |yd|)
        = (0 + ((b.H - |yd|).toNat : Nat)) * b.STRIDE + xs := by rw [hk]; ring
    show rows_bwd b.STRIDE (b.W - |dx|) (b.H - |yd|).toNat
      (yd * b.STRIDE + xd + b.STRIDE * (b.H - |yd|))
      (0 * b.STRIDE + xs + b.STRIDE * (b.H - |yd|)) b.data (y * b.STRIDE + x) = _
    rw [e5, e6, rows_bwd_cell b.STRIDE xd xs (b.W - |dx|) hn1.1 hn1.2 hn2.1 hn2.2 yd 0
      (by omega) _ b.data y x hx0 hx1, hk, abs_of_nonneg (by omega : 0 ≤ yd)]
    have hax : |dx| = xd + xs := by
      rcases abs_cases dx with h | h <;> split_ifs at hxs hxd <;> omega
    by_cases hc : (0 ≤ y ∧ y < b.H ∧ 0 ≤ y - yd ∧ y - yd < b.H) ∧
        (0 ≤ x ∧ x < b.W ∧ 0 ≤ x - dx ∧ x - dx < b.W)
    · rw [if_pos hc, if_pos (by omega)]
      have e3 : 0 + (y - yd) = y - yd := by omega
      have e4 : xs + (x - xd) = x - dx := by omega
      rw [e3, e4]
    · rw [if_neg hc, if_neg (by omega)]

end Buffer2D

theorem Buffer2D.scroll_dims {T : Type} (b : Buffer2D T) (dx dy : Int) :
    (b.scroll dx dy).W = b.W ∧ (b.scroll dx dy).H = b.H ∧ (b.scroll dx dy).STRIDE = b.STRIDE := by
  unfold Buffer2D.scroll
  simp only []
  split <;> exact ⟨rfl, rfl, rfl⟩

/-- C6 (`Buffer2D::scroll` shifts in place): for a grid of size `W x H` with
`STRIDE >= W` and `|dx| < W`, `|dy| < H`, after `scroll(dx, dy)` every cell
`(x, y)` of the grid holds the value that cell `(x - dx, y - dy)` held before the
call when that cell lies inside the grid, and its own value before the call
otherwise; `scroll(0, 0)` leaves every cell unchanged. -/
theorem C6_scroll_shifts {T : Type} (b : Buffer2D T) (dx dy : Int)
    (hS : b.W ≤ b.STRIDE) (hW : b.W < 32768) (hH : b.H < 32768)
    (hdx : |dx| < b.W) (hdy : |dy| < b.H)
    (x y : Int) (hx : 0 ≤ x ∧ x < b.W) (hy : 0 ≤ y ∧ y < b.H) :
    (b.scroll dx dy).get ⟨x, y⟩
        = (if (0 ≤ x - dx ∧ x - dx < b.W) ∧ (0 ≤ y - dy ∧ y - dy < b.H)
           then b.get ⟨x - dx, y - dy⟩ else b.get ⟨x, y⟩) ∧
      (b.scroll 0 0).get ⟨x, y⟩ = b.get ⟨x, y⟩ := by
  have hdx' := abs_lt.1 hdx
  have hdy' := abs_lt.1 hdy
  constructor
  · show (b.scroll dx dy).data (y * (b.scroll dx dy).STRIDE + x) = _
    have e : (b.scroll dx dy).STRIDE = b.STRIDE := (Buffer2D.scroll_dims b dx dy).2.2
    rw [e, Buffer2D.scroll_cell b dx dy hS hW hH hdx' hdy' x y hx.1 (by omega)]
    by_cases hc : (0 ≤ x - dx ∧ x - dx < b.W) ∧ (0 ≤ y - dy ∧ y - dy < b.H)
    · rw [if_pos hc, if_pos (by omega)]; rfl
    · rw [if_neg hc, if_neg (by omega)]; rfl
  · show (b.scroll 0 0).data (y * (b.scroll 0 0).STRIDE + x) = _
    have e : (b.scroll 0 0).STRIDE = b.STRIDE := (Buffer2D.scroll_dims b 0 0).2.2
    rw [e, Buffer2D.scroll_cell b 0 0 hS hW hH (by omega) (by omega) x y hx.1 (by omega)]
    rw [if_pos (by omega)]
    show b.data ((y - 0) * b.STRIDE + (x - 0)) = b.data (y * b.STRIDE + x)
    rw [sub_zero, sub_zero]

/-- C6 witness: a `3 x 2` grid inside rows of stride 4 whose element `i` holds
`i`, scrolled by `(1, -1)`, read at cell `(1, 0)`. -/
theorem C6_scroll_shifts_witness :
    ((3 : Int) ≤ 4 ∧ (3 : Int) < 32768 ∧ (2 : Int) < 32768 ∧ |(1 : Int)| < 3 ∧ |(-1 : Int)| < 2) ∧
    ((⟨3, 2, 4, fun i => i⟩ : Buffer2D Int).scroll 1 (-1)).get ⟨1, 0⟩
      = (if (0 ≤ (1 : Int) - 1 ∧ (1 : Int) - 1 < 3) ∧ (0 ≤ (0 : Int) - -1 ∧ (0 : Int) - -1 < 2)
         then (⟨3, 2, 4, fun i => i⟩ : Buffer2D Int).get ⟨1 - 1, 0 - -1⟩
         else (⟨3, 2, 4, fun i => i⟩ : Buffer2D Int).get ⟨1, 0⟩) :=
  ⟨⟨by decide, by decide, by decide, by norm_num, by norm_num⟩,
    (C6_scroll_shifts (⟨3, 2, 4, fun i => i⟩ : Buffer2D Int) 1 (-1) (by decide) (by decide)
      (by decide) (by norm_num) (by norm_num) 1 0 ⟨by decide, by decide⟩
      ⟨by decide, by decide⟩).1⟩

namespace Buffer2D

variable {T : Type}

/-- The row loop of `fill`, read cell by cell: `n` rows from row `y` on are
written from column `x0` up to column `r`. -/
theorem fill_rows_cell (b : Buffer2D T) (x0 r : Int) (v : T)
    (hx0 : 0 ≤ x0) (hx0' : x0 < 32768) (hr : r ≤ b.STRIDE) (n : Nat) :
    ∀ (y : Int) (data : Int → T), -32768 ≤ y → y + n ≤ 32768 →
      ∀ (y' x' : Int), 0 ≤ x' → x' < b.STRIDE →
        fill_rows b x0 r v n y data (y' * b.STRIDE + x')
          = if (y ≤ y' ∧ y' < y + n) ∧ x0 ≤ x' ∧ x' < r then v
            else data (y' * b.STRIDE + x') := by
  induction n with
  | zero =>
    intro y data _ _ y' x' _ _
    have : ¬ ((y ≤ y' ∧ y' < y + ((0 : Nat) : Int)) ∧ x0 ≤ x' ∧ x' < r) := by omega
    rw [if_neg this]; rfl
  | succ n ih =>
    intro y data hy0 hy1 y' x' hx'0 hx'1
    rw [fill_rows, ih (y + 1) _ (by omega) (by push_cast at hy1; omega) y' x' hx'0 hx'1]
    have ep : b.ptr x0 y = y * b.STRIDE + x0 := by
      unfold ptr
      rw [wrap16_of_range hy0 (by push_cast at hy1; omega), wrap16_of_range (by omega) hx0']
    rw [ep, fill_row_spec]
    by_cases h1 : (y + 1 ≤ y' ∧ y' < y + 1 + (n : Int)) ∧ x0 ≤ x' ∧ x' < r
    · have h2 : (y ≤ y' ∧ y' < y + ((n + 1 : Nat) : Int)) ∧ x0 ≤ x' ∧ x' < r := by omega
      rw [if_pos h1, if_pos h2]
    · rw [if_neg h1]
      by_cases hlen : r ≤ x0
      · have e0 : (((r - x0).toNat : Nat) : Int) = 0 := by omega
        rw [e0, if_neg (by omega), if_neg (by omega)]
      · have e0 : (((r - x0).toNat : Nat) : Int) = r - x0 := by omega
        rw [e0]
        have key := cell_index b.STRIDE y y' x' x0 r hx'0 hx'1 hx0 hr
        by_cases h4 : y' = y ∧ x0 ≤ x' ∧ x' < r
        · have h5 := key.2 h4
          have h2 : (y ≤ y' ∧ y' < y + ((n + 1 : Nat) : Int)) ∧ x0 ≤ x' ∧ x' < r := by omega
          rw [if_pos (by omega), if_pos h2]
        · have h5 : ¬ (y * b.STRIDE + x0 ≤ y' * b.STRIDE + x' ∧
              y' * b.STRIDE + x' < y * b.STRIDE + x0 + (r - x0)) := by
            intro hc; exact h4 (key.1 ⟨hc.1, by omega⟩)
          have h2 : ¬ ((y ≤ y' ∧ y' < y + ((n + 1 : Nat) : Int)) ∧ x0 ≤ x' ∧ x' < r) := by
            omega
          rw [if_neg h5, if_neg h2]

end Buffer2D

namespace rect_t

theorem contains_iff (s : rect_t) (p : pos_t) :
    s.contains p = true ↔ (s.x ≤ p.x ∧ p.x < s.r) ∧ (s.y ≤ p.y ∧ p.y < s.b) := by
  unfold contains
  simp only [Bool.and_eq_true, decide_eq_true_eq]
  tauto

end rect_t

namespace Buffer2D

variable {T : Type}

theorem fill_data (b : Buffer2D T) (rect : rect_t) (v : T) :
    (b.fill rect v).data
      = fill_rows b (rect.intersect b.bounds).x (rect.intersect b.bounds).r v
          ((rect.intersect b.bounds).b - (rect.intersect b.bounds).y).toNat
          (rect.intersect b.bounds).y b.data := rfl

theorem fill_dims (b : Buffer2D T) (rect : rect_t) (v : T) :
    (b.fill rect v).W = b.W ∧ (b.fill rect v).H = b.H ∧ (b.fill rect v).STRIDE = b.STRIDE :=
  ⟨rfl, rfl, rfl⟩

theorem bounds_eq (b : Buffer2D T) (hW : 0 ≤ b.W ∧ b.W < 32768) (hH : 0 ≤ b.H ∧ b.H < 32768) :
    b.bounds = ⟨0, 0, b.W, b.H⟩ := by
  unfold bounds rect_t.new
  rw [wrap16_of_range (by omega) hW.2, wrap16_of_range (by omega) hH.2]
  rfl

/-- The store after `fill(rect, v)`, read cell by cell over the whole stride:
exactly the cells of the grid that `rect` contains are overwritten. -/
theorem fill_cell (b : Buffer2D T) (rect : rect_t) (v : T)
    (hW : 0 ≤ b.W ∧ b.W < 32768) (hH : 0 ≤ b.H ∧ b.H < 32768) (hS : b.W ≤ b.STRIDE)
    (hr : rect.IsInt16) (x y : Int) (hx0 : 0 ≤ x) (hx1 : x < b.STRIDE) :
    (b.fill rect v).data (y * b.STRIDE + x)
      = if ((0 ≤ x ∧ x < b.W) ∧ (0 ≤ y ∧ y < b.H)) ∧ rect.contains ⟨x, y⟩ = true then v
        else b.data (y * b.STRIDE + x) := by
  have hb := bounds_eq b hW hH
  have hbi : (⟨0, 0, b.W, b.H⟩ : rect_t).IsInt16 := by
    unfold rect_t.IsInt16; dsimp only; omega
  have hR := rect_t.intersect_eq rect _ hr hbi
  have hct := rect_t.contains_iff rect ⟨x, y⟩
  obtain ⟨hx, hy, hw, hh⟩ := hr
  have r1 : -32768 ≤ rect.r ∧ rect.r < 32768 := wrap16_range (rect.x + rect.w)
  have r2 : -32768 ≤ rect.b ∧ rect.b < 32768 := wrap16_range (rect.y + rect.h)
  have eR : (⟨0, 0, b.W, b.H⟩ : rect_t).r = b.W := by
    show wrap16 (0 + b.W) = b.W
    unfold wrap16; omega
  have eB : (⟨0, 0, b.W, b.H⟩ : rect_t).b = b.H := by
    show wrap16 (0 + b.H) = b.H
    unfold wrap16; omega
  rw [eR, eB] at hR
  dsimp only at hR hct
  generalize rect.r = rr at hR hct r1
  generalize rect.b = rb at hR hct r2
  rw [fill_data, hb]
  by_cases hgood : 0 ≤ wrap16 (min rr b.W - max rect.x 0) ∧ 0 ≤ wrap16 (min rb b.H - max rect.y 0)
  · rw [if_pos hgood] at hR
    rw [hR]
    have e1 : (⟨max rect.x 0, max rect.y 0, wrap16 (min rr b.W - max rect.x 0),
        wrap16 (min rb b.H - max rect.y 0)⟩ : rect_t).r = min rr b.W := by
      show wrap16 (max rect.x 0 + wrap16 (min rr b.W - max rect.x 0)) = min rr b.W
      unfold wrap16; omega
    have e2 : (⟨max rect.x 0, max rect.y 0, wrap16 (min rr b.W - max rect.x 0),
        wrap16 (min rb b.H - max rect.y 0)⟩ : rect_t).b = min rb b.H := by
      show wrap16 (max rect.y 0 + wrap16 (min rb b.H - max rect.y 0)) = min rb b.H
      unfold wrap16; omega
    rw [e1, e2]
    dsimp only
    rw [fill_rows_cell b _ _ v (by omega) (by omega) (by omega) _ _ b.data (by omega)
      (by omega) y x hx0 hx1]
    by_cases hc : ((0 ≤ x ∧ x < b.W) ∧ (0 ≤ y ∧ y < b.H)) ∧ rect.contains ⟨x, y⟩ = true
    · have hc' := hct.1 hc.2
      rw [if_pos hc, if_pos (by omega)]
    · have hc' : ¬ (((0 ≤ x ∧ x < b.W) ∧ (0 ≤ y ∧ y < b.H)) ∧
          (rect.x ≤ x ∧ x < rr) ∧ (rect.y ≤ y ∧ y < rb)) := fun h => hc ⟨h.1, hct.2 h.2⟩
      rw [if_neg hc, if_neg (by omega)]
  · rw [if_neg hgood] at hR
    rw [hR]
    have e1 : (⟨rect.x, rect.y, 0, 0⟩ : rect_t).b = rect.y := by
      show wrap16 (rect.y + 0) = rect.y
      unfold wrap16; omega
    rw [e1]
    dsimp only
    have e0 : (rect.y - rect.y).toNat = 0 := by omega
    rw [e0, fill_rows]
    have hc : ¬ (((0 ≤ x ∧ x < b.W) ∧ (0 ≤ y ∧ y < b.H)) ∧ rect.contains ⟨x, y⟩ = true) := by
      intro h
      have h' := hct.1 h.2
      unfold wrap16 at hgood; omega
    rw [if_neg hc]

end Buffer2D

/-- C12 (`Buffer2D::fill` writes exactly the clipped rectangle), as the code has
it: for a grid with `0 <= W <= STRIDE`, every rectangle `rect` and value `v`,
after `fill(rect, v)` a grid cell holds `v` if `rect.contains` holds of it, the
test the code makes with the `int16_t` edges `r()` and `b()`, and its previous
value otherwise; when the right and bottom edges `x + w` and `y + h` of `rect`
are representable in `int16_t`, these are the cells `(x, y)` of the grid with
`rect.x <= x < rect.x + rect.w` and `rect.y <= y < rect.y + rect.h`; every element of
the backing store outside the grid (columns from `W` up to the stride, rows
outside `[0, H)`) keeps its value; `fill(v)` sets every grid cell to `v`. -/
theorem C12_fill_exact_amended {T : Type} (b : Buffer2D T) (rect : rect_t) (v : T)
    (hW : 0 ≤ b.W ∧ b.W < 32768) (hH : 0 ≤ b.H ∧ b.H < 32768) (hS : b.W ≤ b.STRIDE)
    (hr : rect.IsInt16) :
    (∀ x y : Int, 0 ≤ x ∧ x < b.W → 0 ≤ y ∧ y < b.H →
      (b.fill rect v).get ⟨x, y⟩ = if rect.contains ⟨x, y⟩ = true then v else b.get ⟨x, y⟩) ∧
    ((-32768 ≤ rect.x + rect.w ∧ rect.x + rect.w < 32768) →
      (-32768 ≤ rect.y + rect.h ∧ rect.y + rect.h < 32768) →
      ∀ x y : Int, 0 ≤ x ∧ x < b.W → 0 ≤ y ∧ y < b.H →
        (b.fill rect v).get ⟨x, y⟩
          = if (rect.x ≤ x ∧ x < rect.x + rect.w) ∧ (rect.y ≤ y ∧ y < rect.y + rect.h) then v
            else b.get ⟨x, y⟩) ∧
    (∀ x y : Int, 0 ≤ x ∧ x < b.STRIDE → ¬ ((0 ≤ x ∧ x < b.W) ∧ (0 ≤ y ∧ y < b.H)) →
      (b.fill rect v).get ⟨x, y⟩ = b.get ⟨x, y⟩) ∧
    (∀ x y : Int, 0 ≤ x ∧ x < b.W → 0 ≤ y ∧ y < b.H → (b.fillAll v).get ⟨x, y⟩ = v) := by
  have h1 : ∀ x y : Int, 0 ≤ x ∧ x < b.W → 0 ≤ y ∧ y < b.H →
      (b.fill rect v).get ⟨x, y⟩ = if rect.contains ⟨x, y⟩ = true then v else b.get ⟨x, y⟩ := by
    intro x y hx hy
    show (b.fill rect v).data (y * b.STRIDE + x) = _
    rw [Buffer2D.fill_cell b rect v hW hH hS hr x y hx.1 (by omega)]
    by_cases hc : rect.contains ⟨x, y⟩ = true
    · rw [if_pos ⟨⟨hx, hy⟩, hc⟩, if_pos hc]
    · rw [if_neg (fun h => hc h.2), if_neg hc]; rfl
  refine ⟨h1, ?_, ?_, ?_⟩
  · intro hrr hrb x y hx hy
    rw [h1 x y hx hy]
    have hc := rect_t.contains_iff rect ⟨x, y⟩
    have eR : rect.r = rect.x + rect.w := wrap16_of_range hrr.1 hrr.2
    have eB : rect.b = rect.y + rect.h := wrap16_of_range hrb.1 hrb.2
    rw [eR, eB] at hc
    by_cases hin : (rect.x ≤ x ∧ x < rect.x + rect.w) ∧ (rect.y ≤ y ∧ y < rect.y + rect.h)
    · rw [if_pos hin, if_pos (hc.2 hin)]
    · rw [if_neg hin, if_neg (fun hh => hin (hc.1 hh))]
  · intro x y hx hn
    show (b.fill rect v).data (y * b.STRIDE + x) = _
    rw [Buffer2D.fill_cell b rect v hW hH hS hr x y hx.1 hx.2, if_neg (fun h => hn h.1)]
    rfl
  · intro x y hx hy
    have hb := Buffer2D.bounds_eq b hW hH
    have hbi : b.bounds.IsInt16 := by
      rw [hb]; unfold rect_t.IsInt16; dsimp only; omega
    show (b.fill b.bounds v).data (y * b.STRIDE + x) = _
    rw [Buffer2D.fill_cell b b.bounds v hW hH hS hbi x y hx.1 (by omega)]
    have hc : b.bounds.contains ⟨x, y⟩ = true := by
      rw [rect_t.contains_iff, hb]
      have eR : (⟨0, 0, b.W, b.H⟩ : rect_t).r = b.W := by
        show wrap16 (0 + b.W) = b.W
        unfold wrap16; omega
      have eB : (⟨0, 0, b.W, b.H⟩ : rect_t).b = b.H := by
        show wrap16 (0 + b.H) = b.H
        unfold wrap16; omega
      rw [eR, eB]
      dsimp only
      omega
    rw [if_pos ⟨⟨hx, hy⟩, hc⟩]

/-- C12 witness: a `3 x 2` grid inside rows of stride 4 whose element `i` holds
`i`, filled with `9` over the rectangle `(1, -1, 5, 2)`, read at cell `(2, 0)`. -/
theorem C12_fill_exact_amended_witness :
    (((0 : Int) ≤ 3 ∧ (3 : Int) < 32768) ∧ ((0 : Int) ≤ 2 ∧ (2 : Int) < 32768) ∧ (3 : Int) ≤ 4 ∧
      rect_t.IsInt16 ⟨1, -1, 5, 2⟩ ∧ ((0 : Int) ≤ 2 ∧ (2 : Int) < 3) ∧ ((0 : Int) ≤ 0 ∧ (0 : Int) < 2)) ∧
    ((⟨3, 2, 4, fun i => i⟩ : Buffer2D Int).fill ⟨1, -1, 5, 2⟩ 9).get ⟨2, 0⟩
      = if (⟨1, -1, 5, 2⟩ : rect_t).contains ⟨2, 0⟩ = true then 9
        else (⟨3, 2, 4, fun i => i⟩ : Buffer2D Int).get ⟨2, 0⟩ :=
  ⟨⟨by decide, by decide, by decide, by unfold rect_t.IsInt16; decide, by decide, by decide⟩,
    (C12_fill_exact_amended (⟨3, 2, 4, fun i => i⟩ : Buffer2D Int) ⟨1, -1, 5, 2⟩ 9 (by decide)
      (by decide) (by decide) (by unfold rect_t.IsInt16; decide)).1 2 0 (by decide) (by decide)⟩

/-- C12 counterexample: on a `240 x 240` grid whose cells hold `7`,
`fill(rect_t(100, 0, 32700, 1), 0)` leaves cell `(150, 0)` at `7`, although the
cell lies in the grid and in the rectangle (`100 <= 150 < 100 + 32700`,
`0 <= 0 < 0 + 1`): the right edge `100 + 32700` wraps to `-32736` in `int16_t`. -/
theorem C12_fill_exact_counterexample :
    rect_t.IsInt16 ⟨100, 0, 32700, 1⟩ ∧
    (((0 : Int) ≤ 150 ∧ (150 : Int) < 240) ∧ ((0 : Int) ≤ 0 ∧ (0 : Int) < 240)) ∧
    (((100 : Int) ≤ 150 ∧ (150 : Int) < 100 + 32700) ∧ ((0 : Int) ≤ 0 ∧ (0 : Int) < 0 + 1)) ∧
    (⟨100, 0, 32700, 1⟩ : rect_t).r = -32736 ∧
    ((⟨240, 240, 240, fun _ => 7⟩ : Buffer2D Nat).fill ⟨100, 0, 32700, 1⟩ 0).get ⟨150, 0⟩ = 7 := by
  refine ⟨by unfold rect_t.IsInt16; decide, by decide, by decide, by decide, by decide⟩

open tinymandelbrot
open tinymandelbrot.TinyMandelbrot

/-! ## Theorems: the escape-time kernel -/

/-- The loop entered with the counter at `n + 1` leaves with a counter of at most `n`. -/
theorem mandelbrot_loop_le (a b : Int) (n : Nat) :
    ∀ x y : Int, mandelbrot_loop a b (n + 1) x y ≤ n := by
  induction n with
  | zero =>
    intro x y
    rw [mandelbrot_loop]
    simp
  | succ n ih =>
    intro x y
    rw [mandelbrot_loop]
    split
    · exact Nat.le_succ_of_le (ih _ _)
    · exact Nat.le_refl _

theorem mandelbrot_func_range (a b : Int) :
    1 ≤ mandelbrot_func a b ∧ mandelbrot_func a b ≤ 128 := by
  unfold mandelbrot_func MAX_LOOPS
  have h : mandelbrot_loop a b 128 0 0 ≤ 127 := mandelbrot_loop_le a b 127 0 0
  omega

/-- C16 (kernel range and encoding): for all inputs `mandelbrot_func(a, b)` returns
a count within `[0, MAX_LOOPS]`; the stored cell value `2 + mandelbrot_func(a, b)`
lies in `[2, MAX_LOOPS + 2]`, is not changed by the conversion to the 8-bit cell
type, and is neither sentinel `0` nor `1`. -/
theorem C16_kernel_range (a b : Int) :
    (0 ≤ mandelbrot_func a b ∧ mandelbrot_func a b ≤ MAX_LOOPS) ∧
    (2 ≤ 2 + mandelbrot_func a b ∧ 2 + mandelbrot_func a b ≤ MAX_LOOPS + 2) ∧
    (2 + mandelbrot_func a b) % 256 = 2 + mandelbrot_func a b ∧
    (2 + mandelbrot_func a b) % 256 ≠ 0 ∧ (2 + mandelbrot_func a b) % 256 ≠ 1 := by
  have h := mandelbrot_func_range a b
  unfold MAX_LOOPS
  omega

theorem mult_split_zero : mult_split 0 0 = (0, 0, 0) := by decide

/-- At the origin the accumulators stay `0` and the loop runs until the
counter reaches `0`. -/
theorem mandelbrot_loop_origin (n : Nat) : mandelbrot_loop 0 0 n 0 0 = 0 := by
  induction n with
  | zero => rfl
  | succ n ih =>
    rw [mandelbrot_loop, mult_split_zero]
    have e1 : wrap32 (wrap32 ((0 : Int) - 0) + 0) = 0 := by decide
    have e2 : wrap32 (wrap32 ((0 : Int) + 0) + 0) = 0 := by decide
    have e3 : wrap32 ((0 : Int) + 0) < FIXED 4 := by decide
    simp only [e1, e2, e3, and_true]
    split
    · exact ih
    · omega

/-- C17 (`mandelbrot_func(0, 0)`): at the origin the accumulators stay `0` through
every iteration, the escape test never fires, and the returned count is
`MAX_LOOPS`, that is 128. -/
theorem C17_origin_max_loops :
    (∀ n : Nat, mandelbrot_loop 0 0 n 0 0 = 0) ∧ mult_split 0 0 = (0, 0, 0) ∧
    mandelbrot_func 0 0 = MAX_LOOPS ∧ mandelbrot_func 0 0 = 128 := by
  refine ⟨mandelbrot_loop_origin, mult_split_zero, ?_, ?_⟩ <;>
    (unfold mandelbrot_func; rw [mandelbrot_loop_origin])  <;> rfl

/-- C18 (`mandelbrot_func(FIXED(3), 0)`): the orbit of `3 + 0i` escapes at once; the
returned count is 2, hence at most 2. -/
theorem C18_far_point_escapes :
    mandelbrot_func (FIXED 3) 0 = 2 ∧ mandelbrot_func (FIXED 3) 0 ≤ 2 := by
  decide

open tinymandelbrot
open tinymandelbrot.TinyMandelbrot

/-! ## Theorems: split multiplication -/

theorem and32_ffff (v : Int) : and32 v 0xffff = v % 65536 := by
  have h := and32_low_mask v 16 (by decide)
  norm_num at h
  exact h

theorem and32_ffffff (v : Int) : and32 v 0xffffff = v % 16777216 := by
  have h := and32_low_mask v 24 (by decide)
  norm_num at h
  exact h

theorem sar32_16 (v : Int) : sar32 v 16 = v / 65536 := by
  have h := sar32_eq v 16
  norm_num at h
  exact h

theorem sar32_8 (v : Int) : sar32 v 8 = v / 256 := by
  have h := sar32_eq v 8
  norm_num at h
  exact h

theorem shl32_8 (v : Int) : shl32 v 8 = wrap32 (v * 256) := by
  unfold shl32
  have e : (8 : Int).toNat = 8 := rfl
  rw [e]
  norm_num

/-- The 16-bit halves taken after the sign test recompose the magnitude of
the operand. -/
theorem halves_spec (x : Int) (h1 : -2147483648 ≤ x) (h2 : x < 2147483648) :
    (0 ≤ lo16 (neg_if_neg x) ∧ lo16 (neg_if_neg x) < 65536) ∧
    (0 ≤ hi16 (neg_if_neg x) ∧ hi16 (neg_if_neg x) ≤ 32768) ∧
    lo16 (neg_if_neg x) + 65536 * hi16 (neg_if_neg x) = |x| := by
  unfold lo16 hi16 neg_if_neg
  rw [and32_ffff, sar32_16, and32_ffff]
  rcases abs_cases x with ⟨e, h⟩ | ⟨e, h⟩
  · rw [e, if_neg (by omega)]
    omega
  · rw [e, if_pos h]
    unfold wrap32
    omega

theorem split_square_eq (L Hh : Int) (hL : 0 ≤ L ∧ L < 65536) (hH : 0 ≤ Hh ∧ Hh ≤ 32768) :
    split_square L Hh = wrap32 ((L + 65536 * Hh) * (L + 65536 * Hh) / 16777216) := by
  unfold split_square
  simp only [and32_ffff, and32_ffffff, sar32_16, sar32_8, shl32_8]
  have e : (L + 65536 * Hh) * (L + 65536 * Hh)
      = L * L + 131072 * (L * Hh) + 4294967296 * (Hh * Hh) := by ring
  rw [e]
  have hP : 0 ≤ L * L ∧ L * L ≤ 65535 * 65535 := by
    constructor
    · exact mul_nonneg hL.1 hL.1
    · exact mul_le_mul (by omega) (by omega) hL.1 (by norm_num)
  have hQ : 0 ≤ L * Hh ∧ L * Hh ≤ 65535 * 32768 := by
    constructor
    · exact mul_nonneg hL.1 hH.1
    · exact mul_le_mul (by omega) (by omega) hH.1 (by norm_num)
  have hR : 0 ≤ Hh * Hh := mul_nonneg hH.1 hH.1
  generalize L * L = P at hP ⊢
  generalize L * Hh = Q at hQ ⊢
  generalize Hh * Hh = R at hR ⊢
  unfold wrap32
  omega

theorem split_cross_eq (L1 H1 L2 H2 : Int) (hL1 : 0 ≤ L1 ∧ L1 < 65536)
    (hH1 : 0 ≤ H1 ∧ H1 ≤ 32768) (hL2 : 0 ≤ L2 ∧ L2 < 65536) (hH2 : 0 ≤ H2 ∧ H2 ≤ 32768) :
    split_cross L1 H1 L2 H2
      = wrap32 ((L1 + 65536 * H1) * (L2 + 65536 * H2) / 16777216) := by
  unfold split_cross
  simp only [and32_ffff, and32_ffffff, sar32_16, sar32_8, shl32_8]
  have e : (L1 + 65536 * H1) * (L2 + 65536 * H2)
      = L1 * L2 + 65536 * (L1 * H2) + 65536 * (H1 * L2) + 4294967296 * (H1 * H2) := by ring
  rw [e]
  have hP : 0 ≤ L1 * L2 ∧ L1 * L2 ≤ 65535 * 65535 := by
    constructor
    · exact mul_nonneg hL1.1 hL2.1
    · exact mul_le_mul (by omega) (by omega) hL2.1 (by norm_num)
  have hQ1 : 0 ≤ L1 * H2 ∧ L1 * H2 ≤ 65535 * 32768 := by
    constructor
    · exact mul_nonneg hL1.1 hH2.1
    · exact mul_le_mul (by omega) (by omega) hH2.1 (by norm_num)
  have hQ2 : 0 ≤ H1 * L2 ∧ H1 * L2 ≤ 32768 * 65535 := by
    constructor
    · exact mul_nonneg hH1.1 hL2.1
    · exact mul_le_mul (by omega) (by omega) hL2.1 (by norm_num)
  have hR : 0 ≤ H1 * H2 := mul_nonneg hH1.1 hH2.1
  generalize L1 * L2 = P at hP ⊢
  generalize L1 * H2 = Q1 at hQ1 ⊢
  generalize H1 * L2 = Q2 at hQ2 ⊢
  generalize H1 * H2 = R at hR ⊢
  unfold wrap32
  omega

theorem xysign_eq (x y : Int) :
    xysign x y = if (x < 0) = (y < 0) then 1 else -1 := by
  unfold xysign
  have e1 : wrap32 (-1) = -1 := by decide
  have e2 : wrap32 1 = 1 := by decide
  by_cases hx : x < 0 <;> by_cases hy : y < 0 <;> simp [hx, hy, e1, e2]

theorem mult_direct_eq (x y : Int) :
    mult_direct x y = (wrap32 (x * y / 16777216), wrap32 (x * x / 16777216),
      wrap32 (y * y / 16777216)) := by
  unfold mult_direct FIXED_POINT_POS
  have e : (24 : Int).toNat = 24 := rfl
  rw [e, Int.shiftRight_eq_div_pow, Int.shiftRight_eq_div_pow, Int.shiftRight_eq_div_pow]
  norm_num

theorem mult_split_eq (x y : Int) (hx : -2147483648 ≤ x ∧ x < 2147483648)
    (hy : -2147483648 ≤ y ∧ y < 2147483648) :
    mult_split x y
      = (wrap32 (wrap32 (|x| * |y| / 16777216) * (if (x < 0) = (y < 0) then 1 else -1)),
         wrap32 (x * x / 16777216), wrap32 (y * y / 16777216)) := by
  obtain ⟨a1, a2, a3⟩ := halves_spec x hx.1 hx.2
  obtain ⟨b1, b2, b3⟩ := halves_spec y hy.1 hy.2
  unfold mult_split
  rw [split_cross_eq _ _ _ _ a1 a2 b1 b2, split_square_eq _ _ a1 a2, split_square_eq _ _ b1 b2,
    a3, b3, xysign_eq, abs_mul_abs_self, abs_mul_abs_self]

/-- C7 (split multiplication against direct multiplication), as the code has
it: for all 32-bit `x`, `y` the products `xx` and `yy` of the split path equal
those of the direct path; `xy` is equal when `x * y >= 0` or `x * y` is a
multiple of `2 ^ 24`, and otherwise the split path, which multiplies magnitudes
and applies the sign afterwards, yields the direct result plus one (modulo
`2 ^ 32`). -/
theorem C7_split_mul_amended (x y : Int) (hx : -2147483648 ≤ x ∧ x < 2147483648)
    (hy : -2147483648 ≤ y ∧ y < 2147483648) :
    (mult_split x y).2 = (mult_direct x y).2 ∧
    ((0 ≤ x * y ∨ (x * y) % 16777216 = 0) → (mult_split x y).1 = (mult_direct x y).1) ∧
    (¬ (0 ≤ x * y ∨ (x * y) % 16777216 = 0) →
      (mult_split x y).1 = wrap32 ((mult_direct x y).1 + 1)) := by
  rw [mult_split_eq x y hx hy, mult_direct_eq]
  refine ⟨rfl, ?_, ?_⟩
  · intro h
    show wrap32 (wrap32 (|x| * |y| / 16777216) * (if (x < 0) = (y < 0) then 1 else -1))
      = wrap32 (x * y / 16777216)
    have hm : |x| * |y| = |x * y| := (abs_mul x y).symm
    rw [hm]
    by_cases hs : (x < 0) = (y < 0)
    · rw [if_pos hs]
      have hp : 0 ≤ x * y := by
        by_cases hx0 : x < 0
        · have hy0 : y < 0 := by rw [← hs]; exact hx0
          exact le_of_lt (mul_pos_of_neg_of_neg hx0 hy0)
        · have hy0 : ¬ y < 0 := by rw [← hs]; exact hx0
          exact mul_nonneg (by omega) (by omega)
      rw [abs_of_nonneg hp]
      generalize x * y = p
      unfold wrap32; omega
    · rw [if_neg hs]
      have hp : x * y ≤ 0 := by
        by_cases hx0 : x < 0
        · have hy0 : ¬ y < 0 := by intro hc; exact hs (by simp [hx0, hc])
          exact mul_nonpos_of_nonpos_of_nonneg (by omega) (by omega)
        · have hy0 : y < 0 := by
            by_contra hc; exact hs (by simp [hx0, hc])
          exact mul_nonpos_of_nonneg_of_nonpos (by omega) (by omega)
      rw [abs_of_nonpos hp]
      generalize x * y = p at h hp
      unfold wrap32; omega
  · intro h
    show wrap32 (wrap32 (|x| * |y| / 16777216) * (if (x < 0) = (y < 0) then 1 else -1))
      = wrap32 (wrap32 (x * y / 16777216) + 1)
    have hm : |x| * |y| = |x * y| := (abs_mul x y).symm
    rw [hm]
    have hp : x * y < 0 := by
      by_contra hc; exact h (Or.inl (by omega))
    have hs : ¬ ((x < 0) = (y < 0)) := by
      intro hs
      by_cases hx0 : x < 0
      · have hy0 : y < 0 := by rw [← hs]; exact hx0
        have := mul_pos_of_neg_of_neg hx0 hy0
        omega
      · have hy0 : ¬ y < 0 := by rw [← hs]; exact hx0
        have := mul_nonneg (by omega : 0 ≤ x) (by omega : 0 ≤ y)
        omega
    rw [if_neg hs, abs_of_neg hp]
    generalize x * y = p at h hp
    unfold wrap32; omega

/-- C7 witness: `x = 1`, `y = -1`, whose product is negative and no multiple of
`2 ^ 24`. -/
theorem C7_split_mul_amended_witness :
    ((-2147483648 : Int) ≤ 1 ∧ (1 : Int) < 2147483648) ∧
    ((-2147483648 : Int) ≤ -1 ∧ (-1 : Int) < 2147483648) ∧
    ¬ ((0 : Int) ≤ 1 * -1 ∨ ((1 : Int) * -1) % 16777216 = 0) ∧
    (mult_split 1 (-1)).1 = wrap32 ((mult_direct 1 (-1)).1 + 1) :=
  ⟨⟨by decide, by decide⟩, ⟨by decide, by decide⟩, by decide,
    (C7_split_mul_amended 1 (-1) ⟨by decide, by decide⟩ ⟨by decide, by decide⟩).2.2
      (by decide)⟩

/-- C7 counterexample: for `x = 1`, `y = -1` (fixed-point `2^-24` and `-2^-24`) the
split path yields `xy = 0` and the direct path `xy = -1`. -/
theorem C7_split_mul_counterexample :
    (mult_split 1 (-1)).1 = 0 ∧ (mult_direct 1 (-1)).1 = -1 ∧
    mult_split 1 (-1) ≠ mult_direct 1 (-1) := by
  decide

open tinymandelbrot
open tinymandelbrot.TinyMandelbrot

/-! ## Theorems: what the steps of `render` leave alone -/

theorem queue_push_consts {T : Type} (q : ArrayQueue T) (v : T) :
    (q.push v).2.CAPACITY = q.CAPACITY ∧ (q.push v).2.INDEX_MASK = q.INDEX_MASK := by
  unfold ArrayQueue.push
  split <;> exact ⟨rfl, rfl⟩

theorem queue_pop_consts {T : Type} (q : ArrayQueue T) (v : T) :
    (q.pop v).2.2.CAPACITY = q.CAPACITY ∧ (q.pop v).2.2.INDEX_MASK = q.INDEX_MASK := by
  unfold ArrayQueue.pop
  split <;> exact ⟨rfl, rfl⟩

theorem sameView_refl (s : TinyMandelbrot) : SameView s s :=
  ⟨rfl, rfl, rfl, rfl, rfl, rfl, rfl, rfl, rfl⟩

theorem sameView_trans {s t u : TinyMandelbrot} (h1 : SameView s t) (h2 : SameView t u) :
    SameView s u := by
  obtain ⟨a1, a2, a3, a4, a5, a6, a7, a8, a9⟩ := h1
  obtain ⟨b1, b2, b3, b4, b5, b6, b7, b8, b9⟩ := h2
  exact ⟨b1.trans a1, b2.trans a2, b3.trans a3, b4.trans a4, b5.trans a5, b6.trans a6,
    b7.trans a7, b8.trans a8, b9.trans a9⟩

theorem push_task_sameView (s : TinyMandelbrot) (pos : pos_t) (force : Bool) :
    SameView s (s.push_task pos force) := by
  unfold push_task
  split
  · exact sameView_refl s
  · split
    · exact sameView_refl s
    · exact ⟨rfl, rfl, rfl, rfl, rfl, rfl, rfl, (queue_push_consts _ _).1,
        (queue_push_consts _ _).2⟩

theorem push_task_rect_x_sameView (rect : rect_t) (force : Bool) (n : Nat) :
    ∀ (x : Int) (s : TinyMandelbrot), SameView s (push_task_rect_x rect force n x s) := by
  induction n with
  | zero => intro x s; exact sameView_refl s
  | succ n ih =>
    intro x s
    rw [push_task_rect_x]
    refine sameView_trans ?_ (ih _ _)
    split
    · exact sameView_trans (push_task_sameView _ _ _) (push_task_sameView _ _ _)
    · exact push_task_sameView _ _ _

theorem push_task_rect_y_sameView (rect : rect_t) (force : Bool) (n : Nat) :
    ∀ (y : Int) (s : TinyMandelbrot), SameView s (push_task_rect_y rect force n y s) := by
  induction n with
  | zero => intro y s; exact sameView_refl s
  | succ n ih =>
    intro y s
    rw [push_task_rect_y]
    refine sameView_trans ?_ (ih _ _)
    split
    · exact sameView_trans (push_task_sameView _ _ _) (push_task_sameView _ _ _)
    · exact push_task_sameView _ _ _

theorem push_task_rect_sameView (s : TinyMandelbrot) (rect : rect_t) (force : Bool) :
    SameView s (s.push_task_rect rect force) := by
  unfold push_task_rect
  exact sameView_trans (push_task_rect_x_sameView _ _ _ _ _) (push_task_rect_y_sameView _ _ _ _ _)

theorem push_above_below_sameView (s : TinyMandelbrot) (p q : pos_t) :
    SameView s (s.push_above_below p q) := by
  unfold push_above_below
  exact sameView_trans (sameView_trans (sameView_trans (push_task_sameView _ _ _)
    (push_task_sameView _ _ _)) (push_task_sameView _ _ _)) (push_task_sameView _ _ _)

theorem push_left_right_sameView (s : TinyMandelbrot) (p q : pos_t) :
    SameView s (s.push_left_right p q) := by
  unfold push_left_right
  exact sameView_trans (sameView_trans (sameView_trans (push_task_sameView _ _ _)
    (push_task_sameView _ _ _)) (push_task_sameView _ _ _)) (push_task_sameView _ _ _)

theorem push_neighbor_tasks_sameView (s : TinyMandelbrot) (p : pos_t) (v dx dy : Int) :
    SameView s (s.push_neighbor_tasks p v dx dy) := by
  unfold push_neighbor_tasks
  split
  · exact sameView_refl s
  · split
    · split
      · exact push_above_below_sameView _ _ _
      · split
        · exact push_left_right_sameView _ _ _
        · exact sameView_refl s
    · exact sameView_refl s

theorem render_compute_sameView (s : TinyMandelbrot) (ao bo st : Int) (pos : pos_t) :
    SameView s (s.render_compute ao bo st pos) := by
  unfold render_compute
  split
  · exact ⟨rfl, rfl, rfl, rfl, rfl, rfl, rfl, rfl, rfl⟩
  · exact sameView_refl s

theorem render_visit_sameView (s : TinyMandelbrot) (ao bo st : Int) (pos : pos_t) :
    SameView s (s.render_visit ao bo st pos) := by
  unfold render_visit
  exact sameView_trans (sameView_trans (sameView_trans (sameView_trans
    (render_compute_sameView _ _ _ _ _)
    (push_neighbor_tasks_sameView _ _ _ _ _)) (push_neighbor_tasks_sameView _ _ _ _ _))
    (push_neighbor_tasks_sameView _ _ _ _ _)) (push_neighbor_tasks_sameView _ _ _ _ _)

theorem render_drain_sameView (ao bo st : Int) (fuel : Nat) :
    ∀ (pos : pos_t) (s : TinyMandelbrot), SameView s (render_drain ao bo st fuel pos s) := by
  induction fuel with
  | zero => intro pos s; exact sameView_refl s
  | succ n ih =>
    intro pos s
    rw [render_drain]
    split
    · refine sameView_trans ?_ (ih _ _)
      refine sameView_trans ?_ (render_visit_sameView _ _ _ _ _)
      exact ⟨rfl, rfl, rfl, rfl, rfl, rfl, rfl, (queue_pop_consts _ _).1,
        (queue_pop_consts _ _).2⟩
    · exact ⟨rfl, rfl, rfl, rfl, rfl, rfl, rfl, (queue_pop_consts _ _).1,
        (queue_pop_consts _ _).2⟩

theorem render_drained_sameView (s : TinyMandelbrot) : SameView s s.render_drained := by
  unfold render_drained
  exact sameView_trans (sameView_trans (push_task_rect_sameView _ _ _)
    (push_task_rect_sameView _ _ _)) (render_drain_sameView _ _ _ _ _ _)

open tinymandelbrot
open tinymandelbrot.TinyMandelbrot

/-! ## Theorems: invariants of the reachable states -/

theorem W_eq : W = 240 := rfl

theorem H_eq : H = 240 := rfl

theorem render_finish_fields (s : TinyMandelbrot) (data : Int → Nat) :
    (s.render_finish data)._a = s._a ∧ (s.render_finish data)._b = s._b ∧
    (s.render_finish data)._zoom = s._zoom ∧ (s.render_finish data).queue = s.queue ∧
    (s.render_finish data)._stable_rect = s.buff.bounds ∧
    (s.render_finish data).buff.W = s.buff.W ∧ (s.render_finish data).buff.H = s.buff.H ∧
    (s.render_finish data).buff.STRIDE = s.buff.STRIDE ∧
    (s.render_finish data).buff.data = data ∧
    (s.render_finish data).buff.bounds = s.buff.bounds :=
  ⟨rfl, rfl, rfl, rfl, rfl, rfl, rfl, rfl, rfl, rfl⟩

theorem render_buff_dims (s : TinyMandelbrot) :
    s.render.buff.W = s.buff.W ∧ s.render.buff.H = s.buff.H ∧
      s.render.buff.STRIDE = s.buff.STRIDE := by
  obtain ⟨-, -, -, -, h5, h6, h7, -, -⟩ := render_drained_sameView s
  unfold render
  have h := render_finish_fields s.render_drained
    (render_fill_rows s.render_drained.buff H.toNat 0 (s.render_drained.buff.data, 0)).1
  rw [h.2.2.2.2.2.1, h.2.2.2.2.2.2.1, h.2.2.2.2.2.2.2.1]
  exact ⟨h5, h6, h7⟩

theorem render_view (s : TinyMandelbrot) :
    s.render._a = s._a ∧ s.render._b = s._b ∧ s.render._zoom = s._zoom := by
  obtain ⟨h1, h2, h3, -, -, -, -, -, -⟩ := render_drained_sameView s
  unfold render
  have h := render_finish_fields s.render_drained
    (render_fill_rows s.render_drained.buff H.toNat 0 (s.render_drained.buff.data, 0)).1
  rw [h.1, h.2.1, h.2.2.1]
  exact ⟨h1, h2, h3⟩

theorem render_stable_rect (s : TinyMandelbrot) :
    s.render._stable_rect = s.render.buff.bounds := by
  unfold render
  have h := render_finish_fields s.render_drained
    (render_fill_rows s.render_drained.buff H.toNat 0 (s.render_drained.buff.data, 0)).1
  rw [h.2.2.2.2.1, h.2.2.2.2.2.2.2.2.2]

theorem bounds_of_dims (s : TinyMandelbrot) (h : GridDims s) :
    s.buff.bounds = ⟨0, 0, W, H⟩ := by
  have := Buffer2D.bounds_eq s.buff (by rw [h.1, W_eq]; omega) (by rw [h.2.1, H_eq]; omega)
  rw [this, h.1, h.2.1]

theorem clear_columns_dims (b : Buffer2D Nat) (dx : Int) :
    (clear_columns b dx).W = b.W ∧ (clear_columns b dx).H = b.H ∧
      (clear_columns b dx).STRIDE = b.STRIDE := by
  unfold clear_columns
  split
  · exact Buffer2D.fill_dims _ _ _
  · split
    · exact Buffer2D.fill_dims _ _ _
    · exact ⟨rfl, rfl, rfl⟩

theorem clear_rows_dims (b : Buffer2D Nat) (dy : Int) :
    (clear_rows b dy).W = b.W ∧ (clear_rows b dy).H = b.H ∧
      (clear_rows b dy).STRIDE = b.STRIDE := by
  unfold clear_rows
  split
  · exact Buffer2D.fill_dims _ _ _
  · split
    · exact Buffer2D.fill_dims _ _ _
    · exact ⟨rfl, rfl, rfl⟩

theorem partial_update_dims (s : TinyMandelbrot) (dx dy : Int) (h : GridDims s) :
    GridDims (s.partial_update dx dy) := by
  have h1 := clear_rows_dims (clear_columns (s.buff.scroll (-dx) (-dy)) dx) dy
  have h2 := clear_columns_dims (s.buff.scroll (-dx) (-dy)) dx
  have h3 := Buffer2D.scroll_dims s.buff (-dx) (-dy)
  unfold GridDims partial_update
  dsimp only
  rw [h1.1, h1.2.1, h1.2.2, h2.1, h2.2.1, h2.2.2, h3.1, h3.2.1, h3.2.2]
  exact h

theorem fillAll_dims {T : Type} (b : Buffer2D T) (v : T) :
    (b.fillAll v).W = b.W ∧ (b.fillAll v).H = b.H ∧ (b.fillAll v).STRIDE = b.STRIDE :=
  ⟨rfl, rfl, rfl⟩

theorem invalidate_buffer_dims (s : TinyMandelbrot) (h : GridDims s) :
    GridDims s.invalidate_buffer := by
  unfold GridDims invalidate_buffer
  dsimp only
  rw [(fillAll_dims s.buff 0).1, (fillAll_dims s.buff 0).2.1, (fillAll_dims s.buff 0).2.2]
  exact h

theorem fast_scroll_dims (s : TinyMandelbrot) (a_px b_px : Int) (h : GridDims s) :
    GridDims (s.fast_scroll a_px b_px) := by
  unfold fast_scroll
  split
  · split
    · exact partial_update_dims _ _ _ h
    · exact invalidate_buffer_dims _ h
  · exact h

theorem gridDims_of_buff {s t : TinyMandelbrot} (e : t.buff = s.buff) (h : GridDims s) :
    GridDims t := by
  unfold GridDims at h ⊢
  rw [e]
  exact h

theorem with_pos_fields (s : TinyMandelbrot) (a b : Int) :
    ({ s with _a := a, _b := b } : TinyMandelbrot).buff = s.buff ∧
    ({ s with _a := a, _b := b } : TinyMandelbrot)._stable_rect = s._stable_rect ∧
    ({ s with _a := a, _b := b } : TinyMandelbrot)._zoom = s._zoom ∧
    ({ s with _a := a, _b := b } : TinyMandelbrot).queue = s.queue ∧
    ({ s with _a := a, _b := b } : TinyMandelbrot)._a = a ∧
    ({ s with _a := a, _b := b } : TinyMandelbrot)._b = b :=
  ⟨rfl, rfl, rfl, rfl, rfl, rfl⟩

theorem set_pos_dims (s : TinyMandelbrot) (a b : Int) (h : GridDims s) :
    GridDims (s.set_pos a b) := by
  unfold set_pos
  split
  · exact h
  · exact fast_scroll_dims _ _ _ (gridDims_of_buff (with_pos_fields s _ _).1 h)

/-- The stable rectangle after a partial update lies inside the bounds again. -/
theorem intersect_offset_inside (S : rect_t) (dx dy : Int)
    (hS : 0 ≤ S.w ∧ 0 ≤ S.h ∧ 0 ≤ S.x ∧ 0 ≤ S.y ∧ S.x + S.w ≤ 240 ∧ S.y + S.h ≤ 240)
    (hdx : -240 < dx ∧ dx < 240) (hdy : -240 < dy ∧ dy < 240) :
    0 ≤ (S.intersect (S.offset (-dx) (-dy))).w ∧ 0 ≤ (S.intersect (S.offset (-dx) (-dy))).h ∧
      0 ≤ (S.intersect (S.offset (-dx) (-dy))).x ∧ 0 ≤ (S.intersect (S.offset (-dx) (-dy))).y ∧
      (S.intersect (S.offset (-dx) (-dy))).x + (S.intersect (S.offset (-dx) (-dy))).w ≤ 240 ∧
      (S.intersect (S.offset (-dx) (-dy))).y + (S.intersect (S.offset (-dx) (-dy))).h ≤ 240 := by
  obtain ⟨h1, h2, h3, h4, h5, h6⟩ := hS
  have hSi : S.IsInt16 := by unfold rect_t.IsInt16; omega
  have hO : (S.offset (-dx) (-dy)) = ⟨S.x - dx, S.y - dy, S.w, S.h⟩ := by
    unfold rect_t.offset rect_t.new
    rw [wrap16_of_range (by omega : -32768 ≤ -dx) (by omega),
      wrap16_of_range (by omega : -32768 ≤ -dy) (by omega),
      wrap16_of_range (by omega : -32768 ≤ S.x + -dx) (by omega),
      wrap16_of_range (by omega : -32768 ≤ S.y + -dy) (by omega),
      wrap16_of_range (by omega : -32768 ≤ S.w) (by omega),
      wrap16_of_range (by omega : -32768 ≤ S.h) (by omega)]
    rfl
  have hOi : (⟨S.x - dx, S.y - dy, S.w, S.h⟩ : rect_t).IsInt16 := by
    unfold rect_t.IsInt16; dsimp only; omega
  rw [hO, rect_t.intersect_eq S _ hSi hOi]
  have e1 : S.r = S.x + S.w := wrap16_of_range (by omega) (by omega)
  have e2 : S.b = S.y + S.h := wrap16_of_range (by omega) (by omega)
  have e3 : (⟨S.x - dx, S.y - dy, S.w, S.h⟩ : rect_t).r = S.x - dx + S.w :=
    wrap16_of_range (by dsimp only; omega) (by dsimp only; omega)
  have e4 : (⟨S.x - dx, S.y - dy, S.w, S.h⟩ : rect_t).b = S.y - dy + S.h :=
    wrap16_of_range (by dsimp only; omega) (by dsimp only; omega)
  rw [e1, e2, e3, e4]
  dsimp only
  split
  · next hg =>
    dsimp only
    unfold wrap16 at hg ⊢
    omega
  · dsimp only; omega

theorem stableInside_of_rect {s t : TinyMandelbrot} (e : t._stable_rect = s._stable_rect)
    (h : StableInside s) : StableInside t := by
  unfold StableInside at h ⊢
  rw [e]
  exact h

theorem stableInside_zero (s : TinyMandelbrot) (e : s._stable_rect = rect_t.zero) :
    StableInside s := by
  unfold StableInside
  rw [e]
  decide

theorem invalidate_buffer_stable (s : TinyMandelbrot) :
    s.invalidate_buffer._stable_rect = rect_t.zero := rfl

theorem partial_update_stable (s : TinyMandelbrot) (dx dy : Int) :
    (s.partial_update dx dy)._stable_rect
      = s._stable_rect.intersect (s._stable_rect.offset (-dx) (-dy)) := rfl

theorem fast_scroll_stable (s : TinyMandelbrot) (a_px b_px : Int) (h : StableInside s) :
    StableInside (s.fast_scroll a_px b_px) := by
  unfold fast_scroll
  split
  · split
    · next hd =>
      unfold StableInside
      rw [partial_update_stable, W_eq, H_eq]
      rw [W_eq, H_eq] at hd
      unfold StableInside at h
      rw [W_eq, H_eq] at h
      exact intersect_offset_inside _ _ _ h ⟨hd.1, hd.2.1⟩ ⟨hd.2.2.1, hd.2.2.2⟩
    · exact stableInside_zero _ (invalidate_buffer_stable _)
  · exact h

theorem set_pos_stable (s : TinyMandelbrot) (a b : Int) (h : StableInside s) :
    StableInside (s.set_pos a b) := by
  unfold set_pos
  split
  · exact h
  · exact fast_scroll_stable _ _ _ (stableInside_of_rect (with_pos_fields s _ _).2.1 h)

theorem limit_zoom_range (z : Int) : 0 ≤ limit 0 MAX_ZOOM z ∧ limit 0 MAX_ZOOM z ≤ MAX_ZOOM := by
  unfold limit MAX_ZOOM
  split
  · omega
  · split <;> omega

theorem with_zoom_fields (s : TinyMandelbrot) (z : Int) :
    ({ s with _zoom := z } : TinyMandelbrot).buff = s.buff ∧
    ({ s with _zoom := z } : TinyMandelbrot)._zoom = z ∧
    ({ s with _zoom := z } : TinyMandelbrot)._a = s._a ∧
    ({ s with _zoom := z } : TinyMandelbrot)._b = s._b ∧
    ({ s with _zoom := z } : TinyMandelbrot).queue = s.queue :=
  ⟨rfl, rfl, rfl, rfl, rfl⟩

theorem set_zoom_same (s : TinyMandelbrot) (z : Int) (h : limit 0 MAX_ZOOM z = s._zoom) :
    s.set_zoom z = (false, s) := by
  unfold set_zoom
  rw [if_pos h]

theorem set_zoom_changed (s : TinyMandelbrot) (z : Int) (h : limit 0 MAX_ZOOM z ≠ s._zoom) :
    s.set_zoom z
      = (true, ({ s with _zoom := limit 0 MAX_ZOOM z } : TinyMandelbrot).invalidate_buffer) := by
  unfold set_zoom
  rw [if_neg h]

theorem set_zoom_inv (s : TinyMandelbrot) (z : Int)
    (h : GridDims s ∧ StableInside s ∧ 0 ≤ s._zoom ∧ s._zoom ≤ MAX_ZOOM) :
    GridDims (s.set_zoom z).2 ∧ StableInside (s.set_zoom z).2 ∧
      0 ≤ (s.set_zoom z).2._zoom ∧ (s.set_zoom z).2._zoom ≤ MAX_ZOOM := by
  by_cases hz : limit 0 MAX_ZOOM z = s._zoom
  · rw [set_zoom_same s z hz]
    exact h
  · rw [set_zoom_changed s z hz]
    refine ⟨invalidate_buffer_dims _ (gridDims_of_buff (with_zoom_fields s _).1 h.1),
      stableInside_zero _ (invalidate_buffer_stable _), ?_⟩
    rw [(invalidate_buffer_fields _).2.2.1, (with_zoom_fields s _).2.1]
    exact limit_zoom_range z

theorem new_fields (mem : Int → Nat) (qmem : Nat → pos_t) :
    (TinyMandelbrot.new mem qmem).buff = (Buffer2D.new W H mem).fillAll 0 ∧
    (TinyMandelbrot.new mem qmem).queue = ArrayQueue.fresh QUEUE_SIZE_BITS qmem ∧
    (TinyMandelbrot.new mem qmem)._a = FIXED_neg_half ∧
    (TinyMandelbrot.new mem qmem)._b = 0 ∧
    (TinyMandelbrot.new mem qmem)._zoom = 0 ∧
    (TinyMandelbrot.new mem qmem)._stable_rect = rect_t.zero :=
  ⟨rfl, rfl, rfl, rfl, rfl, rfl⟩

theorem new_inv (mem : Int → Nat) (qmem : Nat → pos_t) :
    GridDims (TinyMandelbrot.new mem qmem) ∧ StableInside (TinyMandelbrot.new mem qmem) ∧
      0 ≤ (TinyMandelbrot.new mem qmem)._zoom ∧
      (TinyMandelbrot.new mem qmem)._zoom ≤ MAX_ZOOM := by
  have h := new_fields mem qmem
  refine ⟨?_, stableInside_zero _ h.2.2.2.2.2, ?_, ?_⟩
  · unfold GridDims
    rw [h.1, (fillAll_dims _ _).1, (fillAll_dims _ _).2.1, (fillAll_dims _ _).2.2]
    unfold Buffer2D.new
    dsimp only
    decide
  · rw [h.2.2.2.2.1]
  · rw [h.2.2.2.2.1]; decide

theorem render_inv (s : TinyMandelbrot)
    (h : GridDims s ∧ StableInside s ∧ 0 ≤ s._zoom ∧ s._zoom ≤ MAX_ZOOM) :
    GridDims s.render ∧ StableInside s.render ∧ 0 ≤ s.render._zoom ∧
      s.render._zoom ≤ MAX_ZOOM := by
  have hd : GridDims s.render := by
    unfold GridDims
    rw [(render_buff_dims s).1, (render_buff_dims s).2.1, (render_buff_dims s).2.2]
    exact h.1
  refine ⟨hd, ?_, ?_⟩
  · unfold StableInside
    rw [render_stable_rect, bounds_of_dims _ hd]
    decide
  · rw [(render_view s).2.2]
    exact h.2.2

/-- Every reachable state has the configured grid dimensions, a stable
rectangle inside the bounds and a zoom within `[0, MAX_ZOOM]`. -/
theorem reachable_inv {s : TinyMandelbrot} (hr : Reachable s) :
    GridDims s ∧ StableInside s ∧ 0 ≤ s._zoom ∧ s._zoom ≤ MAX_ZOOM := by
  induction hr with
  | new mem qmem => exact new_inv mem qmem
  | set_pos a b _ _ _ ih =>
    refine ⟨set_pos_dims _ _ _ ih.1, set_pos_stable _ _ _ ih.2.1, ?_⟩
    rw [set_pos_zoom]; exact ih.2.2
  | scroll da db _ _ _ ih =>
    unfold TinyMandelbrot.scroll
    refine ⟨set_pos_dims _ _ _ ih.1, set_pos_stable _ _ _ ih.2.1, ?_⟩
    rw [set_pos_zoom]; exact ih.2.2
  | set_zoom z _ _ ih => exact set_zoom_inv _ z ih
  | zoom_in _ ih => unfold TinyMandelbrot.zoom_in; exact set_zoom_inv _ _ ih
  | zoom_out _ ih => unfold TinyMandelbrot.zoom_out; exact set_zoom_inv _ _ ih
  | invalidate_buffer _ ih =>
    refine ⟨invalidate_buffer_dims _ ih.1, stableInside_zero _ (invalidate_buffer_stable _), ?_⟩
    rw [(invalidate_buffer_fields _).2.2.1]; exact ih.2.2
  | render _ ih => exact render_inv _ ih

theorem bounds_contains {T : Type} (b : Buffer2D T) (hW : 0 ≤ b.W ∧ b.W < 32768)
    (hH : 0 ≤ b.H ∧ b.H < 32768) (p : pos_t) :
    b.bounds.contains p = true ↔ (0 ≤ p.x ∧ p.x < b.W) ∧ (0 ≤ p.y ∧ p.y < b.H) := by
  rw [rect_t.contains_iff, Buffer2D.bounds_eq b hW hH]
  have eR : (⟨0, 0, b.W, b.H⟩ : rect_t).r = b.W := by
    show wrap16 (0 + b.W) = b.W
    unfold wrap16; omega
  have eB : (⟨0, 0, b.W, b.H⟩ : rect_t).b = b.H := by
    show wrap16 (0 + b.H) = b.H
    unfold wrap16; omega
  rw [eR, eB]

theorem fillAll_get {T : Type} (b : Buffer2D T) (v : T) (hW : 0 ≤ b.W ∧ b.W < 32768)
    (hH : 0 ≤ b.H ∧ b.H < 32768) (hS : b.W ≤ b.STRIDE) (x y : Int)
    (hx : 0 ≤ x ∧ x < b.W) (hy : 0 ≤ y ∧ y < b.H) : (b.fillAll v).get ⟨x, y⟩ = v := by
  have hbi : b.bounds.IsInt16 := by
    rw [Buffer2D.bounds_eq b hW hH]; unfold rect_t.IsInt16; dsimp only; omega
  show (b.fill b.bounds v).data (y * b.STRIDE + x) = _
  rw [Buffer2D.fill_cell b b.bounds v hW hH hS hbi x y hx.1 (by omega)]
  have hc : b.bounds.contains ⟨x, y⟩ = true := (bounds_contains b hW hH ⟨x, y⟩).2 ⟨hx, hy⟩
  rw [if_pos ⟨⟨hx, hy⟩, hc⟩]

theorem invalidate_buffer_get (s : TinyMandelbrot) (hd : GridDims s) (x y : Int)
    (hx : 0 ≤ x ∧ x < W) (hy : 0 ≤ y ∧ y < H) : s.invalidate_buffer.buff.get ⟨x, y⟩ = 0 := by
  have e : s.invalidate_buffer.buff = s.buff.fillAll 0 := rfl
  rw [e]
  obtain ⟨h1, h2, h3⟩ := hd
  rw [W_eq] at hx
  rw [H_eq] at hy
  rw [W_eq] at h1 h3
  rw [H_eq] at h2
  exact fillAll_get s.buff 0 (by omega) (by omega) (by omega) x y (by omega) (by omega)

/-- C8 (stable-rectangle invariant): in every state reachable from the constructor
through the public methods the stable rectangle has `w >= 0`, `h >= 0` and lies
inside the grid bounds; immediately after every `render()` it is the full grid
`(0, 0, W, H)`, equal to `buff.bounds()`, so `no_change()` returns true. -/
theorem C8_stable_rect_invariant :
    (∀ s : TinyMandelbrot, Reachable s →
      0 ≤ s.stable_rect.w ∧ 0 ≤ s.stable_rect.h ∧ 0 ≤ s.stable_rect.x ∧ 0 ≤ s.stable_rect.y ∧
        s.stable_rect.x + s.stable_rect.w ≤ W ∧ s.stable_rect.y + s.stable_rect.h ≤ H) ∧
    (∀ s : TinyMandelbrot, Reachable s →
      s.render.stable_rect = ⟨0, 0, W, H⟩ ∧ s.render.stable_rect = s.render.buff.bounds ∧
        s.render.no_change = true) := by
  constructor
  · intro s hr
    exact (reachable_inv hr).2.1
  · intro s hr
    have hd := (reachable_inv (Reachable.render hr)).1
    have e := render_stable_rect s
    refine ⟨?_, e, ?_⟩
    · show s.render._stable_rect = _
      rw [e, bounds_of_dims _ hd]
    · unfold no_change
      exact decide_eq_true e

/-- C8 witness: the freshly constructed engine. -/
theorem C8_stable_rect_invariant_witness :
    Reachable (TinyMandelbrot.new (fun _ => 0) (fun _ => ⟨0, 0⟩)) ∧
    (TinyMandelbrot.new (fun _ => 0) (fun _ => ⟨0, 0⟩)).render.no_change = true :=
  ⟨Reachable.new _ _, (C8_stable_rect_invariant.2 _ (Reachable.new _ _)).2.2⟩

/-- C13 (`set_zoom` by cases), with `z' = limit(0, MAX_ZOOM, z)`: if `z'` is the
current zoom, `set_zoom(z)` returns false and leaves the whole state unchanged;
otherwise it returns true, the zoom becomes `z'`, the position is kept, every
grid cell becomes 0 and the stable rectangle becomes empty. `zoom_in()` at
`MAX_ZOOM` and `zoom_out()` at 0 return false and change nothing, and in every
reachable state the zoom is within `[0, MAX_ZOOM]`. -/
theorem C13_set_zoom_cases (s : TinyMandelbrot) (z : Int) :
    (limit 0 MAX_ZOOM z = s._zoom → s.set_zoom z = (false, s)) ∧
    (limit 0 MAX_ZOOM z ≠ s._zoom → GridDims s →
      (s.set_zoom z).1 = true ∧ (s.set_zoom z).2.zoom = limit 0 MAX_ZOOM z ∧
      (s.set_zoom z).2.a = s.a ∧ (s.set_zoom z).2.b = s.b ∧
      (∀ x y : Int, 0 ≤ x ∧ x < W → 0 ≤ y ∧ y < H → (s.set_zoom z).2.buff.get ⟨x, y⟩ = 0) ∧
      (s.set_zoom z).2.stable_rect.empty = true) ∧
    (s._zoom = MAX_ZOOM → s.zoom_in = (false, s)) ∧
    (s._zoom = 0 → s.zoom_out = (false, s)) ∧
    (∀ t : TinyMandelbrot, Reachable t → 0 ≤ t.zoom ∧ t.zoom ≤ MAX_ZOOM) := by
  refine ⟨set_zoom_same s z, ?_, ?_, ?_, ?_⟩
  · intro hz hd
    rw [set_zoom_changed s z hz]
    refine ⟨rfl, ?_, ?_, ?_, ?_, ?_⟩
    · show (TinyMandelbrot.invalidate_buffer _)._zoom = _
      rw [(invalidate_buffer_fields _).2.2.1, (with_zoom_fields s _).2.1]
    · show (TinyMandelbrot.invalidate_buffer _)._a = s._a
      rw [(invalidate_buffer_fields _).1, (with_zoom_fields s _).2.2.1]
    · show (TinyMandelbrot.invalidate_buffer _)._b = s._b
      rw [(invalidate_buffer_fields _).2.1, (with_zoom_fields s _).2.2.2.1]
    · intro x y hx hy
      exact invalidate_buffer_get _ (gridDims_of_buff (with_zoom_fields s _).1 hd) x y hx hy
    · show (TinyMandelbrot.invalidate_buffer _)._stable_rect.empty = true
      rw [invalidate_buffer_stable]
      decide
  · intro hz
    unfold TinyMandelbrot.zoom_in
    apply set_zoom_same
    rw [hz]
    decide
  · intro hz
    unfold TinyMandelbrot.zoom_out
    apply set_zoom_same
    rw [hz]
    decide
  · intro t ht
    exact (reachable_inv ht).2.2

/-- C13 witness: the freshly constructed engine (zoom 0) and `z = 5`. -/
theorem C13_set_zoom_cases_witness :
    (limit 0 MAX_ZOOM 5 ≠ (TinyMandelbrot.new (fun _ => 0) (fun _ => ⟨0, 0⟩))._zoom ∧
      GridDims (TinyMandelbrot.new (fun _ => 0) (fun _ => ⟨0, 0⟩))) ∧
    ((TinyMandelbrot.new (fun _ => 0) (fun _ => ⟨0, 0⟩)).set_zoom 5).1 = true :=
  ⟨⟨by decide, (new_inv _ _).1⟩,
    ((C13_set_zoom_cases (TinyMandelbrot.new (fun _ => 0) (fun _ => ⟨0, 0⟩)) 5).2.1 (by decide)
      (new_inv _ _).1).1⟩

open tinymandelbrot
open tinymandelbrot.TinyMandelbrot

/-- For two states at the same zoom the plane coordinate of column `x` in the
second is that of column `x + dx` in the first, `dx` being the difference of
their pixel coordinates. -/
theorem plane_shift (p A B x : Int) (k : Nat) (hk : k ≤ 17) (hp : p = 2 ^ k) :
    wrap32 (wrap32 (wrap32 (B - B % p) - wrap32 (p * 120)) + wrap32 (p * x))
      = wrap32 (wrap32 (wrap32 (A - A % p) - wrap32 (p * 120))
          + wrap32 (p * (x + wrap32 (wrap32 (B - B % p) / p - wrap32 (A - A % p) / p)))) := by
  obtain ⟨t1, h1⟩ := wrap32_exists (B - B % p)
  obtain ⟨t2, h2⟩ := wrap32_exists (A - A % p)
  have hp0 : 0 < p := by rw [hp]; positivity
  have hd : p ∣ 4294967296 := by
    rw [hp]
    have : (4294967296 : Int) = 2 ^ k * 2 ^ (32 - k) := by
      rw [← pow_add]
      have : k + (32 - k) = 32 := by omega
      rw [this]; norm_num
    exact ⟨_, this⟩
  obtain ⟨c, hc⟩ := hd
  -- both quantized values are multiples of `p`
  have hB : wrap32 (B - B % p) = p * (B / p + c * t1) := by
    rw [h1, hc]
    have := Int.emod_add_ediv B p
    linear_combination -this
  have hA : wrap32 (A - A % p) = p * (A / p + c * t2) := by
    rw [h2, hc]
    have := Int.emod_add_ediv A p
    linear_combination -this
  rw [hB, hA, Int.mul_ediv_cancel_left _ (ne_of_gt hp0), Int.mul_ediv_cancel_left _ (ne_of_gt hp0)]
  obtain ⟨t3, h3⟩ := wrap32_exists (B / p + c * t1 - (A / p + c * t2))
  obtain ⟨t4, h4⟩ := wrap32_exists (p * 120)
  obtain ⟨t5, h5⟩ := wrap32_exists (p * x)
  obtain ⟨t6, h6⟩ := wrap32_exists (p * (x + wrap32 (B / p + c * t1 - (A / p + c * t2))))
  obtain ⟨t7, h7⟩ := wrap32_exists (p * (B / p + c * t1) - wrap32 (p * 120))
  obtain ⟨t8, h8⟩ := wrap32_exists (p * (A / p + c * t2) - wrap32 (p * 120))
  apply wrap32_eq_of_exists
  refine ⟨t7 + t5 - t8 - t6 - p * t3, ?_⟩
  rw [h7, h5, h8, h6, h3, h4]
  ring

theorem round_diff (p A B : Int) (k : Nat) (hk : k ≤ 17) (hp : p = 2 ^ k) :
    wrap32 (wrap32 (B - B % p) - wrap32 (A - A % p))
      = wrap32 (wrap32 (wrap32 (B - B % p) / p - wrap32 (A - A % p) / p) * p) := by
  obtain ⟨t1, h1⟩ := wrap32_exists (B - B % p)
  obtain ⟨t2, h2⟩ := wrap32_exists (A - A % p)
  have hp0 : 0 < p := by rw [hp]; positivity
  have hd : p ∣ 4294967296 := by
    rw [hp]
    have : (4294967296 : Int) = 2 ^ k * 2 ^ (32 - k) := by
      rw [← pow_add]
      have : k + (32 - k) = 32 := by omega
      rw [this]; norm_num
    exact ⟨_, this⟩
  obtain ⟨c, hc⟩ := hd
  have hB : wrap32 (B - B % p) = p * (B / p + c * t1) := by
    rw [h1, hc]
    have := Int.emod_add_ediv B p
    linear_combination -this
  have hA : wrap32 (A - A % p) = p * (A / p + c * t2) := by
    rw [h2, hc]
    have := Int.emod_add_ediv A p
    linear_combination -this
  rw [hB, hA, Int.mul_ediv_cancel_left _ (ne_of_gt hp0), Int.mul_ediv_cancel_left _ (ne_of_gt hp0)]
  obtain ⟨t3, h3⟩ := wrap32_exists (B / p + c * t1 - (A / p + c * t2))
  apply wrap32_eq_of_exists
  refine ⟨-(p * t3), ?_⟩
  rw [h3]
  ring

theorem view_eq (s : TinyMandelbrot) (k : Nat) (hk : k ≤ 17)
    (hl : s.pixel_lsb_pos = (k : Int)) (hz : s._zoom = 17 - (k : Int)) :
    s.a_round = wrap32 (s._a - s._a % 2 ^ k) ∧ s.b_round = wrap32 (s._b - s._b % 2 ^ k) ∧
    s.a_pixel = wrap32 (s._a - s._a % 2 ^ k) / 2 ^ k ∧
    s.b_pixel = wrap32 (s._b - s._b % 2 ^ k) / 2 ^ k ∧
    (∀ x : Int, s.plane_a x
      = wrap32 (wrap32 (wrap32 (s._a - s._a % 2 ^ k) - wrap32 (2 ^ k * 120))
          + wrap32 (2 ^ k * x))) ∧
    (∀ y : Int, s.plane_b y
      = wrap32 (wrap32 (wrap32 (s._b - s._b % 2 ^ k) - wrap32 (2 ^ k * 120))
          + wrap32 (2 ^ k * y))) := by
  have ea : s.a_round = wrap32 (s._a - s._a % 2 ^ k) := round_elem_eq s k hk hl _
  have eb : s.b_round = wrap32 (s._b - s._b % 2 ^ k) := round_elem_eq s k hk hl _
  have ep := pixel_size_eq s k hk hz
  have eW : W / 2 = 120 := by decide
  have eH : H / 2 = 120 := by decide
  refine ⟨ea, eb, ?_, ?_, ?_, ?_⟩
  · unfold a_pixel; rw [hl, sar32_eq, ea]
  · unfold b_pixel; rw [hl, sar32_eq, eb]
  · intro x; unfold plane_a; rw [ep, ea, eW]
  · intro y; unfold plane_b; rw [ep, eb, eH]

/-- C5 (exact coordinate reconstruction across a pan): at every zoom within
`[0, MAX_ZOOM]`, for every `set_pos(a, b)` with pixel delta
`(dx, dy) = (a_pixel_new - a_pixel_old, b_pixel_new - b_pixel_old)`, the plane
coordinate `render` uses for pixel `(x, y)` afterwards is, as a 32-bit value, the
one it used for pixel `(x + dx, y + dy)` before; and in 32-bit arithmetic
`a_round_new - a_round_old = dx * pixel_size()`, likewise for `b`. -/
theorem C5_coordinate_reconstruction (s : TinyMandelbrot) (h0 : 0 ≤ s._zoom)
    (h1 : s._zoom ≤ MAX_ZOOM) (a b x y : Int) :
    (s.set_pos a b).plane_a x
        = s.plane_a (x + wrap32 ((s.set_pos a b).a_pixel - s.a_pixel)) ∧
    (s.set_pos a b).plane_b y
        = s.plane_b (y + wrap32 ((s.set_pos a b).b_pixel - s.b_pixel)) ∧
    wrap32 ((s.set_pos a b).a_round - s.a_round)
        = wrap32 (wrap32 ((s.set_pos a b).a_pixel - s.a_pixel) * s.pixel_size) ∧
    wrap32 ((s.set_pos a b).b_round - s.b_round)
        = wrap32 (wrap32 ((s.set_pos a b).b_pixel - s.b_pixel) * s.pixel_size) := by
  obtain ⟨k, hk, hl, hz⟩ := lsb_cases s h0 h1
  have hz' : (s.set_pos a b)._zoom = 17 - (k : Int) := by rw [set_pos_zoom]; exact hz
  have hl' : (s.set_pos a b).pixel_lsb_pos = (k : Int) := by
    unfold pixel_lsb_pos; rw [set_pos_zoom]; exact hl
  obtain ⟨e1, e2, e3, e4, e5, e6⟩ := view_eq s k hk hl hz
  obtain ⟨f1, f2, f3, f4, f5, f6⟩ := view_eq (s.set_pos a b) k hk hl' hz'
  rw [e5, e6, f5, f6, e1, e2, e3, e4, f1, f2, f3, f4, pixel_size_eq s k hk hz]
  exact ⟨plane_shift _ _ _ _ k hk rfl, plane_shift _ _ _ _ k hk rfl,
    round_diff _ _ _ k hk rfl, round_diff _ _ _ k hk rfl⟩

/-- C5 witness: the freshly constructed engine panned to `a = 0`, `b = 1000000`,
read at pixel `(3, 4)`. -/
theorem C5_coordinate_reconstruction_witness :
    (0 ≤ (TinyMandelbrot.new (fun _ => 0) (fun _ => ⟨0, 0⟩))._zoom ∧
      (TinyMandelbrot.new (fun _ => 0) (fun _ => ⟨0, 0⟩))._zoom ≤ MAX_ZOOM) ∧
    ((TinyMandelbrot.new (fun _ => 0) (fun _ => ⟨0, 0⟩)).set_pos 0 1000000).plane_a 3
      = (TinyMandelbrot.new (fun _ => 0) (fun _ => ⟨0, 0⟩)).plane_a
          (3 + wrap32 (((TinyMandelbrot.new (fun _ => 0) (fun _ => ⟨0, 0⟩)).set_pos 0
            1000000).a_pixel - (TinyMandelbrot.new (fun _ => 0) (fun _ => ⟨0, 0⟩)).a_pixel)) :=
  ⟨⟨by decide, by decide⟩,
    (C5_coordinate_reconstruction _ (by decide) (by decide) 0 1000000 3 4).1⟩

open tinymandelbrot
open tinymandelbrot.TinyMandelbrot

/-- A buffer with the configured dimensions: width, height and stride 240. -/
theorem fill_cell_240 (b : Buffer2D Nat) (hd : b.W = 240 ∧ b.H = 240 ∧ b.STRIDE = 240)
    (rx ry rw rh : Int) (hr : (⟨rx, ry, rw, rh⟩ : rect_t).IsInt16)
    (hrr : -32768 ≤ rx + rw ∧ rx + rw < 32768) (hrb : -32768 ≤ ry + rh ∧ ry + rh < 32768)
    (x y : Int) (hx : 0 ≤ x ∧ x < 240) (hy : 0 ≤ y ∧ y < 240) :
    (b.fill ⟨rx, ry, rw, rh⟩ 0).data (y * 240 + x)
      = if (rx ≤ x ∧ x < rx + rw) ∧ (ry ≤ y ∧ y < ry + rh) then 0 else b.data (y * 240 + x) := by
  obtain ⟨h1, h2, h3⟩ := hd
  have h := Buffer2D.fill_cell b ⟨rx, ry, rw, rh⟩ 0 (by omega) (by omega) (by omega) hr x y hx.1
    (by omega)
  rw [h3] at h
  rw [h]
  have hc := rect_t.contains_iff ⟨rx, ry, rw, rh⟩ ⟨x, y⟩
  have eR : (⟨rx, ry, rw, rh⟩ : rect_t).r = rx + rw := wrap16_of_range hrr.1 hrr.2
  have eB : (⟨rx, ry, rw, rh⟩ : rect_t).b = ry + rh := wrap16_of_range hrb.1 hrb.2
  rw [eR, eB] at hc
  dsimp only at hc
  by_cases hin : (rx ≤ x ∧ x < rx + rw) ∧ (ry ≤ y ∧ y < ry + rh)
  · rw [if_pos hin, if_pos ⟨⟨by omega, by omega⟩, hc.2 hin⟩]
  · rw [if_neg hin, if_neg (fun hh => hin (hc.1 hh.2))]

theorem clear_columns_cell (b : Buffer2D Nat) (hd : b.W = 240 ∧ b.H = 240 ∧ b.STRIDE = 240)
    (dx : Int) (hdx : -240 < dx ∧ dx < 240) (x y : Int) (hx : 0 ≤ x ∧ x < 240)
    (hy : 0 ≤ y ∧ y < 240) :
    (clear_columns b dx).data (y * 240 + x)
      = if 0 ≤ x + dx ∧ x + dx < 240 then b.data (y * 240 + x) else 0 := by
  unfold clear_columns
  rw [W_eq, H_eq]
  by_cases h1 : dx > 0
  · rw [if_pos h1]
    have e : rect_t.new (240 - dx) 0 dx 240 = ⟨240 - dx, 0, dx, 240⟩ := by
      unfold rect_t.new
      rw [wrap16_of_range (by omega : -32768 ≤ 240 - dx) (by omega),
        wrap16_of_range (by omega : -32768 ≤ dx) (by omega)]
      rfl
    rw [e, fill_cell_240 b hd _ _ _ _ (by unfold rect_t.IsInt16; dsimp only; omega) (by omega)
      (by omega) x y hx hy]
    by_cases hc : 0 ≤ x + dx ∧ x + dx < 240
    · rw [if_pos hc, if_neg (by omega)]
    · rw [if_neg hc, if_pos (by omega)]
  · rw [if_neg h1]
    by_cases h2 : dx < 0
    · rw [if_pos h2]
      have e : rect_t.new 0 0 (-dx) 240 = ⟨0, 0, -dx, 240⟩ := by
        unfold rect_t.new
        rw [wrap16_of_range (by omega : -32768 ≤ -dx) (by omega)]
        rfl
      rw [e, fill_cell_240 b hd _ _ _ _ (by unfold rect_t.IsInt16; dsimp only; omega) (by omega)
        (by omega) x y hx hy]
      by_cases hc : 0 ≤ x + dx ∧ x + dx < 240
      · rw [if_pos hc, if_neg (by omega)]
      · rw [if_neg hc, if_pos (by omega)]
    · rw [if_neg h2, if_pos (by omega)]

theorem clear_rows_cell (b : Buffer2D Nat) (hd : b.W = 240 ∧ b.H = 240 ∧ b.STRIDE = 240)
    (dy : Int) (hdy : -240 < dy ∧ dy < 240) (x y : Int) (hx : 0 ≤ x ∧ x < 240)
    (hy : 0 ≤ y ∧ y < 240) :
    (clear_rows b dy).data (y * 240 + x)
      = if 0 ≤ y + dy ∧ y + dy < 240 then b.data (y * 240 + x) else 0 := by
  unfold clear_rows
  rw [W_eq, H_eq]
  by_cases h1 : dy > 0
  · rw [if_pos h1]
    have e : rect_t.new 0 (240 - dy) 240 dy = ⟨0, 240 - dy, 240, dy⟩ := by
      unfold rect_t.new
      rw [wrap16_of_range (by omega : -32768 ≤ 240 - dy) (by omega),
        wrap16_of_range (by omega : -32768 ≤ dy) (by omega)]
      rfl
    rw [e, fill_cell_240 b hd _ _ _ _ (by unfold rect_t.IsInt16; dsimp only; omega) (by omega)
      (by omega) x y hx hy]
    by_cases hc : 0 ≤ y + dy ∧ y + dy < 240
    · rw [if_pos hc, if_neg (by omega)]
    · rw [if_neg hc, if_pos (by omega)]
  · rw [if_neg h1]
    by_cases h2 : dy < 0
    · rw [if_pos h2]
      have e : rect_t.new 0 0 240 (-dy) = ⟨0, 0, 240, -dy⟩ := by
        unfold rect_t.new
        rw [wrap16_of_range (by omega : -32768 ≤ -dy) (by omega)]
        rfl
      rw [e, fill_cell_240 b hd _ _ _ _ (by unfold rect_t.IsInt16; dsimp only; omega) (by omega)
        (by omega) x y hx hy]
      by_cases hc : 0 ≤ y + dy ∧ y + dy < 240
      · rw [if_pos hc, if_neg (by omega)]
      · rw [if_neg hc, if_pos (by omega)]
    · rw [if_neg h2, if_pos (by omega)]

theorem gridDims_240 (s : TinyMandelbrot) (hd : GridDims s) :
    s.buff.W = 240 ∧ s.buff.H = 240 ∧ s.buff.STRIDE = 240 := by
  unfold GridDims at hd
  rw [W_eq, H_eq] at hd
  exact hd

/-- The grid after the partial update of `set_pos`: every cell holds the value
of the cell `(dx, dy)` further, or 0 when that cell is outside the grid. -/
theorem partial_update_get (s : TinyMandelbrot) (hd : GridDims s) (dx dy : Int)
    (hdx : -240 < dx ∧ dx < 240) (hdy : -240 < dy ∧ dy < 240) (x y : Int)
    (hx : 0 ≤ x ∧ x < 240) (hy : 0 ≤ y ∧ y < 240) :
    (s.partial_update dx dy).buff.get ⟨x, y⟩
      = if (0 ≤ x + dx ∧ x + dx < 240) ∧ (0 ≤ y + dy ∧ y + dy < 240)
        then s.buff.get ⟨x + dx, y + dy⟩ else 0 := by
  have h0 := gridDims_240 s hd
  have hs := Buffer2D.scroll_dims s.buff (-dx) (-dy)
  have hc := clear_columns_dims (s.buff.scroll (-dx) (-dy)) dx
  have hr := clear_rows_dims (clear_columns (s.buff.scroll (-dx) (-dy)) dx) dy
  have d1 : (s.buff.scroll (-dx) (-dy)).W = 240 ∧ (s.buff.scroll (-dx) (-dy)).H = 240 ∧
      (s.buff.scroll (-dx) (-dy)).STRIDE = 240 := by
    rw [hs.1, hs.2.1, hs.2.2]; exact h0
  have d2 : (clear_columns (s.buff.scroll (-dx) (-dy)) dx).W = 240 ∧
      (clear_columns (s.buff.scroll (-dx) (-dy)) dx).H = 240 ∧
      (clear_columns (s.buff.scroll (-dx) (-dy)) dx).STRIDE = 240 := by
    rw [hc.1, hc.2.1, hc.2.2]; exact d1
  have e : (s.partial_update dx dy).buff
      = clear_rows (clear_columns (s.buff.scroll (-dx) (-dy)) dx) dy := rfl
  rw [e]
  show (clear_rows (clear_columns (s.buff.scroll (-dx) (-dy)) dx) dy).data
    (y * (clear_rows (clear_columns (s.buff.scroll (-dx) (-dy)) dx) dy).STRIDE + x) = _
  rw [hr.2.2, d2.2.2, clear_rows_cell _ d2 dy hdy x y hx hy,
    clear_columns_cell _ d1 dx hdx x y hx hy]
  have hsc := Buffer2D.scroll_cell s.buff (-dx) (-dy) (by omega) (by omega) (by omega)
    (by omega) (by omega) x y hx.1 (by omega)
  rw [h0.1, h0.2.1, h0.2.2] at hsc
  rw [hsc]
  show _ = if (0 ≤ x + dx ∧ x + dx < 240) ∧ (0 ≤ y + dy ∧ y + dy < 240)
    then s.buff.data ((y + dy) * s.buff.STRIDE + (x + dx)) else 0
  rw [h0.2.2]
  by_cases hin : (0 ≤ x + dx ∧ x + dx < 240) ∧ (0 ≤ y + dy ∧ y + dy < 240)
  · rw [if_pos hin, if_pos hin.2, if_pos hin.1, if_pos (by omega)]
    have e1 : y - -dy = y + dy := by omega
    have e2 : x - -dx = x + dx := by omega
    rw [e1, e2]
  · rw [if_neg hin]
    by_cases hy' : 0 ≤ y + dy ∧ y + dy < 240
    · rw [if_pos hy', if_neg (by omega)]
    · rw [if_neg hy']

/-- A rectangle of non-negative size inside the bounds is its own
intersection with itself. -/
theorem intersect_offset_zero (S : rect_t)
    (hS : 0 ≤ S.w ∧ 0 ≤ S.h ∧ 0 ≤ S.x ∧ 0 ≤ S.y ∧ S.x + S.w ≤ 240 ∧ S.y + S.h ≤ 240) :
    S.intersect (S.offset (-0) (-0)) = S := by
  obtain ⟨h1, h2, h3, h4, h5, h6⟩ := hS
  have hSi : S.IsInt16 := by unfold rect_t.IsInt16; omega
  have hO : (S.offset (-0) (-0)) = S := by
    unfold rect_t.offset rect_t.new
    have e0 : wrap16 (-0) = 0 := by decide
    rw [e0, add_zero, add_zero, wrap16_of_range (by omega : -32768 ≤ S.x) (by omega),
      wrap16_of_range (by omega : -32768 ≤ S.y) (by omega),
      wrap16_of_range (by omega : -32768 ≤ S.w) (by omega),
      wrap16_of_range (by omega : -32768 ≤ S.h) (by omega)]
  rw [hO, rect_t.intersect_eq S S hSi hSi]
  have e1 : S.r = S.x + S.w := wrap16_of_range (by omega) (by omega)
  have e2 : S.b = S.y + S.h := wrap16_of_range (by omega) (by omega)
  rw [e1, e2, min_self, min_self, max_self, max_self]
  have e3 : S.x + S.w - S.x = S.w := by omega
  have e4 : S.y + S.h - S.y = S.h := by omega
  rw [e3, e4, wrap16_of_range (by omega : -32768 ≤ S.w) (by omega),
    wrap16_of_range (by omega : -32768 ≤ S.h) (by omega), if_pos ⟨h1, h2⟩]

/-- The pixel coordinates and the quantized position depend on the stored
position and the zoom only. -/
theorem view_congr {s t : TinyMandelbrot} (ha : t._a = s._a) (hb : t._b = s._b)
    (hz : t._zoom = s._zoom) :
    t.a_pixel = s.a_pixel ∧ t.b_pixel = s.b_pixel ∧ t.a_round = s.a_round ∧
      t.b_round = s.b_round := by
  unfold a_pixel b_pixel a_round b_round round_elem pixel_lsb_pos
  rw [ha, hb, hz]
  exact ⟨rfl, rfl, rfl, rfl⟩

theorem set_pos_same (s : TinyMandelbrot) (a b : Int)
    (h : s.clamp_pos a = s._a ∧ s.clamp_pos b = s._b) : s.set_pos a b = s := by
  unfold set_pos
  rw [if_pos h]

theorem set_pos_moved (s : TinyMandelbrot) (a b : Int)
    (h : ¬ (s.clamp_pos a = s._a ∧ s.clamp_pos b = s._b)) :
    s.set_pos a b
      = fast_scroll { s with _a := s.clamp_pos a, _b := s.clamp_pos b } s.a_pixel s.b_pixel := by
  unfold set_pos
  rw [if_neg h]

theorem fast_scroll_partial (s : TinyMandelbrot) (a_px b_px : Int)
    (hne : s._stable_rect.empty = false)
    (hc : -W < wrap32 (s.a_pixel - a_px) ∧ wrap32 (s.a_pixel - a_px) < W ∧
        -H < wrap32 (s.b_pixel - b_px) ∧ wrap32 (s.b_pixel - b_px) < H) :
    s.fast_scroll a_px b_px
      = s.partial_update (wrap32 (s.a_pixel - a_px)) (wrap32 (s.b_pixel - b_px)) := by
  unfold fast_scroll
  rw [hne, if_pos (by decide), if_pos hc]

theorem fast_scroll_full (s : TinyMandelbrot) (a_px b_px : Int)
    (hne : s._stable_rect.empty = false)
    (hc : ¬ (-W < wrap32 (s.a_pixel - a_px) ∧ wrap32 (s.a_pixel - a_px) < W ∧
        -H < wrap32 (s.b_pixel - b_px) ∧ wrap32 (s.b_pixel - b_px) < H)) :
    s.fast_scroll a_px b_px = s.invalidate_buffer := by
  unfold fast_scroll
  rw [hne, if_pos (by decide), if_neg hc]

theorem fast_scroll_skip (s : TinyMandelbrot) (a_px b_px : Int)
    (he : s._stable_rect.empty = true) : s.fast_scroll a_px b_px = s := by
  unfold fast_scroll
  rw [he, if_neg (by decide)]

/-- What `set_pos` does when it changes the stored position and the stable
rectangle is not empty: with the pixel delta within the grid, the partial
update. -/
theorem set_pos_partial (s : TinyMandelbrot) (a b : Int)
    (h : ¬ (s.clamp_pos a = s._a ∧ s.clamp_pos b = s._b))
    (hne : s._stable_rect.empty = false)
    (hdx : |wrap32 ((s.set_pos a b).a_pixel - s.a_pixel)| < W)
    (hdy : |wrap32 ((s.set_pos a b).b_pixel - s.b_pixel)| < H) :
    s.set_pos a b
      = ({ s with _a := s.clamp_pos a, _b := s.clamp_pos b } : TinyMandelbrot).partial_update
          (wrap32 ((s.set_pos a b).a_pixel - s.a_pixel))
          (wrap32 ((s.set_pos a b).b_pixel - s.b_pixel)) := by
  have hv := view_congr (s := ({ s with _a := s.clamp_pos a, _b := s.clamp_pos b } : TinyMandelbrot))
    (t := s.set_pos a b)
    (by rw [set_pos_a, (with_pos_fields s _ _).2.2.2.2.1])
    (by rw [set_pos_b, (with_pos_fields s _ _).2.2.2.2.2])
    (by rw [set_pos_zoom, (with_pos_fields s _ _).2.2.1])
  rw [hv.1] at hdx
  rw [hv.2.1] at hdy
  rw [hv.1, hv.2.1]
  have hx := abs_lt.1 hdx
  have hy := abs_lt.1 hdy
  rw [set_pos_moved s a b h]
  exact fast_scroll_partial _ _ _ (by rw [(with_pos_fields s _ _).2.1]; exact hne)
    ⟨hx.1, hx.2, hy.1, hy.2⟩

/-- C3 (partial update): from a state with the configured grid whose stable
rectangle `S` is non-empty (of non-negative size, inside the bounds, as in every
reachable state), for every `set_pos` that changes the pixel position by
`(dx, dy)` with `|dx| < W` and `|dy| < H`, afterwards every grid cell `(x, y)` holds
the value cell `(x + dx, y + dy)` held before when that cell lies inside the grid
and 0 otherwise, and the stable rectangle is `S.intersect(S.offset(-dx, -dy))`. -/
theorem C3_partial_update (s : TinyMandelbrot) (hd : GridDims s) (hs : StableInside s)
    (hne : s.stable_rect.empty = false) (a b : Int)
    (hdx : |wrap32 ((s.set_pos a b).a_pixel - s.a_pixel)| < W)
    (hdy : |wrap32 ((s.set_pos a b).b_pixel - s.b_pixel)| < H) :
    (∀ x y : Int, 0 ≤ x ∧ x < W → 0 ≤ y ∧ y < H →
      (s.set_pos a b).buff.get ⟨x, y⟩
        = if (0 ≤ x + wrap32 ((s.set_pos a b).a_pixel - s.a_pixel) ∧
              x + wrap32 ((s.set_pos a b).a_pixel - s.a_pixel) < W) ∧
             (0 ≤ y + wrap32 ((s.set_pos a b).b_pixel - s.b_pixel) ∧
              y + wrap32 ((s.set_pos a b).b_pixel - s.b_pixel) < H)
          then s.buff.get ⟨x + wrap32 ((s.set_pos a b).a_pixel - s.a_pixel),
            y + wrap32 ((s.set_pos a b).b_pixel - s.b_pixel)⟩
          else 0) ∧
    (s.set_pos a b).stable_rect
      = s.stable_rect.intersect
          (s.stable_rect.offset (-wrap32 ((s.set_pos a b).a_pixel - s.a_pixel))
            (-wrap32 ((s.set_pos a b).b_pixel - s.b_pixel))) := by
  have e0 : wrap32 0 = 0 := by decide
  by_cases h : s.clamp_pos a = s._a ∧ s.clamp_pos b = s._b
  · rw [set_pos_same s a b h, sub_self, sub_self, e0]
    constructor
    · intro x y hx hy
      rw [add_zero, add_zero, if_pos ⟨hx, hy⟩]
    · unfold StableInside at hs
      rw [W_eq, H_eq] at hs
      exact (intersect_offset_zero _ hs).symm
  · have e := set_pos_partial s a b h hne hdx hdy
    generalize wrap32 ((s.set_pos a b).a_pixel - s.a_pixel) = dx at e hdx ⊢
    generalize wrap32 ((s.set_pos a b).b_pixel - s.b_pixel) = dy at e hdy ⊢
    rw [W_eq] at hdx ⊢
    rw [H_eq] at hdy ⊢
    rw [e]
    constructor
    · intro x y hx hy
      exact partial_update_get _ (gridDims_of_buff (with_pos_fields s _ _).1 hd) dx dy
        (abs_lt.1 hdx) (abs_lt.1 hdy) x y hx hy
    · show (TinyMandelbrot.partial_update _ dx dy)._stable_rect = _
      rw [partial_update_stable, (with_pos_fields s _ _).2.1]
      rfl

/-- The state used in witnesses: the engine after construction and one
`render()`. -/
theorem rendered_new_facts :
    Reachable (TinyMandelbrot.new (fun _ => 0) (fun _ => ⟨0, 0⟩)).render ∧
    (TinyMandelbrot.new (fun _ => 0) (fun _ => ⟨0, 0⟩)).render._a = -8388608 ∧
    (TinyMandelbrot.new (fun _ => 0) (fun _ => ⟨0, 0⟩)).render._b = 0 ∧
    (TinyMandelbrot.new (fun _ => 0) (fun _ => ⟨0, 0⟩)).render._zoom = 0 ∧
    (TinyMandelbrot.new (fun _ => 0) (fun _ => ⟨0, 0⟩)).render._stable_rect = ⟨0, 0, 240, 240⟩ := by
  have hr : Reachable (TinyMandelbrot.new (fun _ => 0) (fun _ => ⟨0, 0⟩)).render :=
    Reachable.render (Reachable.new _ _)
  have hv := render_view (TinyMandelbrot.new (fun _ => 0) (fun _ => ⟨0, 0⟩))
  have hn := new_fields (fun _ => 0) (fun _ => ⟨0, 0⟩)
  refine ⟨hr, ?_, ?_, ?_, ?_⟩
  · rw [hv.1, hn.2.2.1]; rfl
  · rw [hv.2.1, hn.2.2.2.1]
  · rw [hv.2.2, hn.2.2.2.2.1]
  · rw [render_stable_rect, bounds_of_dims _ (reachable_inv hr).1]; rfl

/-- The pixel coordinates of a state at zoom 0. -/
theorem pixel_at_zoom0 (s : TinyMandelbrot) (hz : s._zoom = 0) :
    s.a_pixel = wrap32 (s._a - s._a % 131072) / 131072 ∧
    s.b_pixel = wrap32 (s._b - s._b % 131072) / 131072 ∧
    (∀ v : Int, s.clamp_pos v
      = limit (-33554432) 33554432 (wrap32 (v - v % 131072))) := by
  have hl : s.pixel_lsb_pos = ((17 : Nat) : Int) := by
    unfold pixel_lsb_pos; rw [hz]; rfl
  have h := view_eq s 17 (by decide) hl (by rw [hz]; rfl)
  have e : (2 : Int) ^ 17 = 131072 := by norm_num
  rw [e] at h
  refine ⟨h.2.2.1, h.2.2.2.1, ?_⟩
  intro v
  unfold clamp_pos
  rw [round_elem_eq s 17 (by decide) hl, e, FIXED_two]
  rfl

/-- C3 witness: the engine after construction and one `render()`, panned by
`set_pos(0, 0)`: 64 pixels to the right. -/
theorem C3_partial_update_witness :
    (GridDims (TinyMandelbrot.new (fun _ => 0) (fun _ => ⟨0, 0⟩)).render ∧
      StableInside (TinyMandelbrot.new (fun _ => 0) (fun _ => ⟨0, 0⟩)).render ∧
      (TinyMandelbrot.new (fun _ => 0) (fun _ => ⟨0, 0⟩)).render.stable_rect.empty = false ∧
      wrap32 (((TinyMandelbrot.new (fun _ => 0) (fun _ => ⟨0, 0⟩)).render.set_pos 0 0).a_pixel
        - (TinyMandelbrot.new (fun _ => 0) (fun _ => ⟨0, 0⟩)).render.a_pixel) = 64 ∧
      wrap32 (((TinyMandelbrot.new (fun _ => 0) (fun _ => ⟨0, 0⟩)).render.set_pos 0 0).b_pixel
        - (TinyMandelbrot.new (fun _ => 0) (fun _ => ⟨0, 0⟩)).render.b_pixel) = 0) ∧
    ((TinyMandelbrot.new (fun _ => 0) (fun _ => ⟨0, 0⟩)).render.set_pos 0 0).stable_rect
      = (TinyMandelbrot.new (fun _ => 0) (fun _ => ⟨0, 0⟩)).render.stable_rect.intersect
          ((TinyMandelbrot.new (fun _ => 0) (fun _ => ⟨0, 0⟩)).render.stable_rect.offset
            (-wrap32 (((TinyMandelbrot.new (fun _ => 0) (fun _ => ⟨0, 0⟩)).render.set_pos 0
              0).a_pixel - (TinyMandelbrot.new (fun _ => 0) (fun _ => ⟨0, 0⟩)).render.a_pixel))
            (-wrap32 (((TinyMandelbrot.new (fun _ => 0) (fun _ => ⟨0, 0⟩)).render.set_pos 0
              0).b_pixel
                - (TinyMandelbrot.new (fun _ => 0) (fun _ => ⟨0, 0⟩)).render.b_pixel))) := by
  obtain ⟨hr, ha, hb, hz, hst⟩ := rendered_new_facts
  have hi := reachable_inv hr
  have hne : (TinyMandelbrot.new (fun _ => 0) (fun _ => ⟨0, 0⟩)).render.stable_rect.empty
      = false := by
    show (TinyMandelbrot.render _)._stable_rect.empty = false
    rw [hst]; decide
  have p0 := pixel_at_zoom0 _ hz
  have p1 := pixel_at_zoom0 ((TinyMandelbrot.new (fun _ => 0) (fun _ => ⟨0, 0⟩)).render.set_pos
    0 0) (by rw [set_pos_zoom]; exact hz)
  have ex : wrap32 (((TinyMandelbrot.new (fun _ => 0) (fun _ => ⟨0, 0⟩)).render.set_pos 0
      0).a_pixel - (TinyMandelbrot.new (fun _ => 0) (fun _ => ⟨0, 0⟩)).render.a_pixel) = 64 := by
    rw [p1.1, p0.1, set_pos_a, p0.2.2, ha]; decide
  have ey : wrap32 (((TinyMandelbrot.new (fun _ => 0) (fun _ => ⟨0, 0⟩)).render.set_pos 0
      0).b_pixel - (TinyMandelbrot.new (fun _ => 0) (fun _ => ⟨0, 0⟩)).render.b_pixel) = 0 := by
    rw [p1.2.1, p0.2.1, set_pos_b, p0.2.2, hb]; decide
  exact ⟨⟨hi.1, hi.2.1, hne, ex, ey⟩,
    (C3_partial_update _ hi.1 hi.2.1 hne 0 0 (by rw [ex]; decide) (by rw [ey]; decide)).2⟩



theorem round_elem_round_elem (s : TinyMandelbrot) (h0 : 0 ≤ s._zoom) (h1 : s._zoom ≤ MAX_ZOOM)
    (v : Int) : s.round_elem (s.round_elem v) = s.round_elem v := by
  obtain ⟨k, hk, hl, -⟩ := lsb_cases s h0 h1
  rw [round_elem_eq s k hk hl, round_elem_eq s k hk hl]
  unfold wrap32
  interval_cases k <;> norm_num <;> omega

theorem a_round_def (s : TinyMandelbrot) : s.a_round = s.round_elem s._a := rfl

theorem b_round_def (s : TinyMandelbrot) : s.b_round = s.round_elem s._b := rfl

theorem pixel_lsb_pos_def (s : TinyMandelbrot) :
    s.pixel_lsb_pos = FIXED_POINT_POS - PIXEL_SCALE_BITS - s._zoom := rfl

theorem a_pixel_def (s : TinyMandelbrot) : s.a_pixel = sar32 s.a_round s.pixel_lsb_pos := rfl

theorem b_pixel_def (s : TinyMandelbrot) : s.b_pixel = sar32 s.b_round s.pixel_lsb_pos := rfl

theorem zoom_eq (s : TinyMandelbrot) : s.zoom = s._zoom := rfl

theorem stable_rect_eq (s : TinyMandelbrot) : s.stable_rect = s._stable_rect := rfl

/-- `set_pos` with an argument whose clamped, quantized value is the quantized
current position: the state afterwards is the state before with the stored
position replaced by its quantized value. -/
theorem set_pos_requantize (s : TinyMandelbrot) (hd : GridDims s) (hs : StableInside s)
    (h0 : 0 ≤ s._zoom) (h1 : s._zoom ≤ MAX_ZOOM) (a b : Int)
    (hq : s.clamp_pos a = s.a_round ∧ s.clamp_pos b = s.b_round) :
    (s.set_pos a b)._a = s.a_round ∧ (s.set_pos a b)._b = s.b_round ∧
    (s.set_pos a b)._zoom = s._zoom ∧
    (s.set_pos a b).a_round = s.a_round ∧ (s.set_pos a b).b_round = s.b_round ∧
    (s.set_pos a b)._stable_rect = s._stable_rect ∧
    (∀ x y : Int, 0 ≤ x ∧ x < W → 0 ≤ y ∧ y < H →
      (s.set_pos a b).buff.get ⟨x, y⟩ = s.buff.get ⟨x, y⟩) := by
  have ea : (s.set_pos a b)._a = s.a_round := by rw [set_pos_a, hq.1]
  have eb : (s.set_pos a b)._b = s.b_round := by rw [set_pos_b, hq.2]
  have ez := set_pos_zoom s a b
  have era : (s.set_pos a b).a_round = s.a_round := by
    rw [a_round_def (s.set_pos a b), set_pos_round_elem, ea, a_round_def s]
    exact round_elem_round_elem s h0 h1 _
  have erb : (s.set_pos a b).b_round = s.b_round := by
    rw [b_round_def (s.set_pos a b), set_pos_round_elem, eb, b_round_def s]
    exact round_elem_round_elem s h0 h1 _
  refine ⟨ea, eb, ez, era, erb, ?_⟩
  by_cases h : s.clamp_pos a = s._a ∧ s.clamp_pos b = s._b
  · rw [set_pos_same s a b h]
    exact ⟨rfl, fun _ _ _ _ => rfl⟩
  · by_cases hne : s._stable_rect.empty = true
    · rw [set_pos_moved s a b h,
        fast_scroll_skip _ _ _ (by rw [(with_pos_fields s _ _).2.1]; exact hne)]
      refine ⟨(with_pos_fields s _ _).2.1, ?_⟩
      intro x y _ _
      rw [(with_pos_fields s _ _).1]
    · have hne' : s._stable_rect.empty = false := by
        cases hb : s._stable_rect.empty
        · rfl
        · exact absurd hb hne
      have epa : (s.set_pos a b).a_pixel = s.a_pixel := by
        rw [a_pixel_def (s.set_pos a b), a_pixel_def s, era, pixel_lsb_pos_def (s.set_pos a b),
          pixel_lsb_pos_def s, ez]
      have epb : (s.set_pos a b).b_pixel = s.b_pixel := by
        rw [b_pixel_def (s.set_pos a b), b_pixel_def s, erb, pixel_lsb_pos_def (s.set_pos a b),
          pixel_lsb_pos_def s, ez]
      have e0 : wrap32 0 = 0 := by decide
      have hW : |(0 : Int)| < W := by rw [abs_zero, W_eq]; norm_num
      have hH : |(0 : Int)| < H := by rw [abs_zero, H_eq]; norm_num
      have e := set_pos_partial s a b h hne' (by rw [epa, sub_self, e0]; exact hW)
        (by rw [epb, sub_self, e0]; exact hH)
      rw [epa, epb, sub_self, sub_self, e0] at e
      rw [e]
      constructor
      · rw [partial_update_stable, (with_pos_fields s _ _).2.1]
        unfold StableInside at hs
        rw [W_eq, H_eq] at hs
        exact intersect_offset_zero _ hs
      · intro x y hx hy
        rw [W_eq] at hx
        rw [H_eq] at hy
        rw [partial_update_get _ (gridDims_of_buff (with_pos_fields s _ _).1 hd) 0 0
          (by omega) (by omega) x y hx hy, add_zero, add_zero, if_pos ⟨hx, hy⟩,
          (with_pos_fields s _ _).1]

/-- C15 (`set_pos` with an unchanged quantized position), as the code has it: in
a state with the configured grid, a stable rectangle inside the bounds and a
zoom within `[0, MAX_ZOOM]` (every reachable state), for every `(a, b)` whose
clamped, quantized value equals `(a_round(), b_round())`, `set_pos(a, b)` leaves
the zoom, every grid cell, the stable rectangle and the quantized position
unchanged, and the stored position `a()`, `b()` becomes the quantized position:
it is unchanged exactly when it was quantized already. -/
theorem C15_set_pos_noop_amended (s : TinyMandelbrot) (hd : GridDims s) (hs : StableInside s)
    (h0 : 0 ≤ s._zoom) (h1 : s._zoom ≤ MAX_ZOOM) (a b : Int)
    (hq : s.clamp_pos a = s.a_round ∧ s.clamp_pos b = s.b_round) :
    (s.set_pos a b).zoom = s.zoom ∧
    (∀ x y : Int, 0 ≤ x ∧ x < W → 0 ≤ y ∧ y < H →
      (s.set_pos a b).buff.get ⟨x, y⟩ = s.buff.get ⟨x, y⟩) ∧
    (s.set_pos a b).stable_rect = s.stable_rect ∧
    ((s.set_pos a b).a_round = s.a_round ∧ (s.set_pos a b).b_round = s.b_round) ∧
    ((s.set_pos a b).a = s.a_round ∧ (s.set_pos a b).b = s.b_round) ∧
    ((s.set_pos a b).a = s.a ∧ (s.set_pos a b).b = s.b ↔ s.a = s.a_round ∧ s.b = s.b_round) := by
  obtain ⟨ea, eb, ez, era, erb, est, ec⟩ := set_pos_requantize s hd hs h0 h1 a b hq
  rw [zoom_eq (s.set_pos a b), zoom_eq s, stable_rect_eq (s.set_pos a b), stable_rect_eq s,
    a_eq (s.set_pos a b), b_eq (s.set_pos a b), a_eq s, b_eq s, ea, eb]
  refine ⟨ez, ec, est, ⟨era, erb⟩, ⟨rfl, rfl⟩, ?_⟩
  constructor
  · intro h; exact ⟨h.1.symm, h.2.symm⟩
  · intro h; exact ⟨h.1.symm, h.2.symm⟩

/-- C15 witness: the freshly constructed engine and `set_pos(-8388608, 0)`, its own
position. -/
theorem C15_set_pos_noop_amended_witness :
    (GridDims (TinyMandelbrot.new (fun _ => 0) (fun _ => ⟨0, 0⟩)) ∧
      StableInside (TinyMandelbrot.new (fun _ => 0) (fun _ => ⟨0, 0⟩)) ∧
      (TinyMandelbrot.new (fun _ => 0) (fun _ => ⟨0, 0⟩)).clamp_pos (-8388608)
        = (TinyMandelbrot.new (fun _ => 0) (fun _ => ⟨0, 0⟩)).a_round ∧
      (TinyMandelbrot.new (fun _ => 0) (fun _ => ⟨0, 0⟩)).clamp_pos 0
        = (TinyMandelbrot.new (fun _ => 0) (fun _ => ⟨0, 0⟩)).b_round) ∧
    ((TinyMandelbrot.new (fun _ => 0) (fun _ => ⟨0, 0⟩)).set_pos (-8388608) 0).stable_rect
      = (TinyMandelbrot.new (fun _ => 0) (fun _ => ⟨0, 0⟩)).stable_rect :=
  ⟨⟨(new_inv _ _).1, (new_inv _ _).2.1, by decide, by decide⟩,
    (C15_set_pos_noop_amended _ (new_inv _ _).1 (new_inv _ _).2.1 (by decide) (by decide)
      (-8388608) 0 ⟨by decide, by decide⟩).2.2.1⟩

/-- C15 counterexample: zoom in to level 17, `set_pos(1, 0)`, zoom out to level 0.
The state reached stores `a() = 1` with `a_round() = 0`; `set_pos(0, 0)`, whose
clamped, quantized argument is the quantized current position, changes `a()`
from 1 to 0. -/
theorem C15_set_pos_noop_counterexample :
    Reachable ((((TinyMandelbrot.new (fun _ => 0) (fun _ => ⟨0, 0⟩)).set_zoom 17).2.set_pos
      1 0).set_zoom 0).2 ∧
    ((((TinyMandelbrot.new (fun _ => 0) (fun _ => ⟨0, 0⟩)).set_zoom 17).2.set_pos
      1 0).set_zoom 0).2.clamp_pos 0
      = ((((TinyMandelbrot.new (fun _ => 0) (fun _ => ⟨0, 0⟩)).set_zoom 17).2.set_pos
          1 0).set_zoom 0).2.a_round ∧
    ((((TinyMandelbrot.new (fun _ => 0) (fun _ => ⟨0, 0⟩)).set_zoom 17).2.set_pos
      1 0).set_zoom 0).2.clamp_pos 0
      = ((((TinyMandelbrot.new (fun _ => 0) (fun _ => ⟨0, 0⟩)).set_zoom 17).2.set_pos
          1 0).set_zoom 0).2.b_round ∧
    ((((TinyMandelbrot.new (fun _ => 0) (fun _ => ⟨0, 0⟩)).set_zoom 17).2.set_pos
      1 0).set_zoom 0).2.a = 1 ∧
    (((((TinyMandelbrot.new (fun _ => 0) (fun _ => ⟨0, 0⟩)).set_zoom 17).2.set_pos
      1 0).set_zoom 0).2.set_pos 0 0).a = 0 := by
  refine ⟨?_, by decide, by decide, by decide, by decide⟩
  exact Reachable.set_zoom 0 (by decide)
    (Reachable.set_pos 1 0 (by decide) (by decide)
      (Reachable.set_zoom 17 (by decide) (Reachable.new _ _)))

open tinymandelbrot
open tinymandelbrot.TinyMandelbrot

/-! ## Theorems: the steps of `render`, one induction principle each -/

/-- The state `push_task` leaves when it marks and enqueues. -/
theorem with_push_fields (s : TinyMandelbrot) (pos : pos_t) :
    ({ s with buff := s.buff.set pos 1, queue := (s.queue.push pos).2 } : TinyMandelbrot).buff
      = s.buff.set pos 1 ∧
    ({ s with buff := s.buff.set pos 1, queue := (s.queue.push pos).2 } : TinyMandelbrot).queue
      = (s.queue.push pos).2 :=
  ⟨rfl, rfl⟩

/-- What holds of `s` and of the state with `pos` marked and enqueued, whenever
`pos` is inside the bounds and its cell is `0` or the push is forced, holds
after `push_task`. -/
theorem push_task_elim (P : TinyMandelbrot → Prop) (s : TinyMandelbrot) (pos : pos_t)
    (force : Bool) (h0 : P s)
    (h1 : s.buff.bounds.contains pos = true → (s.buff.get pos = 0 ∨ force = true) →
      P { s with buff := s.buff.set pos 1, queue := (s.queue.push pos).2 }) :
    P (s.push_task pos force) := by
  unfold push_task
  split
  · exact h0
  · rename_i hb
    split
    · exact h0
    · rename_i hc
      apply h1
      · cases h : s.buff.bounds.contains pos
        · rw [h] at hb; exact absurd rfl hb
        · rfl
      · by_cases hz : s.buff.get pos = 0
        · exact Or.inl hz
        · right
          cases hf : force
          · rw [hf] at hc; exact absurd ⟨hz, rfl⟩ hc
          · rfl

theorem push_task_rect_x_ind (P : TinyMandelbrot → Prop) (rect : rect_t) (force : Bool)
    (hp : ∀ s pos, P s → P (s.push_task pos force)) (n : Nat) :
    ∀ (x : Int) (s : TinyMandelbrot), P s → P (push_task_rect_x rect force n x s) := by
  induction n with
  | zero => intro x s h; exact h
  | succ n ih =>
    intro x s h
    rw [push_task_rect_x]
    apply ih
    split
    · exact hp _ _ (hp _ _ h)
    · exact hp _ _ h

theorem push_task_rect_y_ind (P : TinyMandelbrot → Prop) (rect : rect_t) (force : Bool)
    (hp : ∀ s pos, P s → P (s.push_task pos force)) (n : Nat) :
    ∀ (y : Int) (s : TinyMandelbrot), P s → P (push_task_rect_y rect force n y s) := by
  induction n with
  | zero => intro y s h; exact h
  | succ n ih =>
    intro y s h
    rw [push_task_rect_y]
    apply ih
    split
    · exact hp _ _ (hp _ _ h)
    · exact hp _ _ h

theorem push_task_rect_ind (P : TinyMandelbrot → Prop) (rect : rect_t) (force : Bool)
    (hp : ∀ s pos, P s → P (s.push_task pos force)) (s : TinyMandelbrot) (h : P s) :
    P (s.push_task_rect rect force) := by
  unfold push_task_rect
  exact push_task_rect_y_ind P rect force hp _ _ _
    (push_task_rect_x_ind P rect force hp _ _ _ h)

theorem push_neighbor_tasks_ind (P : TinyMandelbrot → Prop)
    (hp : ∀ s pos, P s → P (s.push_task pos false)) (s : TinyMandelbrot) (p : pos_t)
    (v dx dy : Int) (h : P s) : P (s.push_neighbor_tasks p v dx dy) := by
  unfold push_neighbor_tasks
  split
  · exact h
  · split
    · split
      · unfold push_above_below
        exact hp _ _ (hp _ _ (hp _ _ (hp _ _ h)))
      · split
        · unfold push_left_right
          exact hp _ _ (hp _ _ (hp _ _ (hp _ _ h)))
        · exact h
    · exact h

theorem render_visit_ind (P : TinyMandelbrot → Prop)
    (hp : ∀ s pos, P s → P (s.push_task pos false)) (s : TinyMandelbrot) (ao bo st : Int)
    (pos : pos_t) (h : P (s.render_compute ao bo st pos)) : P (s.render_visit ao bo st pos) := by
  unfold render_visit
  exact push_neighbor_tasks_ind P hp _ _ _ _ _ (push_neighbor_tasks_ind P hp _ _ _ _ _
    (push_neighbor_tasks_ind P hp _ _ _ _ _ (push_neighbor_tasks_ind P hp _ _ _ _ _ h)))

/-- An invariant of the drain loop: kept by `push_task` without force, by a
successful `pop` followed by the computation of the popped cell, and by the
failing `pop` that ends the loop. -/
theorem render_drain_ind (P : TinyMandelbrot → Prop) (ao bo st : Int)
    (hp : ∀ s pos, P s → P (s.push_task pos false))
    (hc : ∀ s slot, P s → (s.queue.pop slot).1 = true →
      P (render_compute { s with queue := (s.queue.pop slot).2.2 } ao bo st
        (s.queue.pop slot).2.1))
    (he : ∀ s slot, P s → (s.queue.pop slot).1 = false →
      P { s with queue := (s.queue.pop slot).2.2 }) (fuel : Nat) :
    ∀ (pos : pos_t) (s : TinyMandelbrot), P s → P (render_drain ao bo st fuel pos s) := by
  induction fuel with
  | zero => intro pos s h; exact h
  | succ n ih =>
    intro pos s h
    rw [render_drain]
    split
    · rename_i hpop
      exact ih _ _ (render_visit_ind P hp _ _ _ _ _ (hc s pos h hpop))
    · rename_i hpop
      apply he s pos h
      cases hb : (s.queue.pop pos).1
      · rfl
      · exact absurd hb hpop

/-! ## Theorems: the cells during `render` -/

theorem Buffer2D.set_data {T : Type} (b : Buffer2D T) (p : pos_t) (v : T) (i : Int) :
    (b.set p v).data i = if i = p.y * b.STRIDE + p.x then v else b.data i := by
  unfold Buffer2D.set
  exact Function.update_apply _ _ _ _

theorem Buffer2D.get_eq {T : Type} (b : Buffer2D T) (p : pos_t) :
    b.get p = b.data (p.y * b.STRIDE + p.x) := rfl

/-- The store after `push_task`: a cell changes only at `pos`, inside the
bounds, from `0` (or from anything when forced) to `1`. -/
theorem push_task_data (s : TinyMandelbrot) (pos : pos_t) (force : Bool) (i : Int) :
    (s.push_task pos force).buff.data i = s.buff.data i ∨
    ((s.push_task pos force).buff.data i = 1 ∧ (s.buff.data i = 0 ∨ force = true) ∧
      i = pos.y * s.buff.STRIDE + pos.x ∧ s.buff.bounds.contains pos = true) := by
  refine push_task_elim
    (fun t => t.buff.data i = s.buff.data i ∨
      (t.buff.data i = 1 ∧ (s.buff.data i = 0 ∨ force = true) ∧
        i = pos.y * s.buff.STRIDE + pos.x ∧ s.buff.bounds.contains pos = true))
    s pos force (Or.inl rfl) ?_
  intro hb hz
  show (s.buff.set pos 1).data i = s.buff.data i ∨ _
  rw [Buffer2D.set_data]
  by_cases hi : i = pos.y * s.buff.STRIDE + pos.x
  · right
    rw [if_pos hi]
    refine ⟨rfl, ?_, hi, hb⟩
    rw [hi]
    exact hz
  · left
    rw [if_neg hi]

/-- The value the drain loop stores lies in `[2, MAX_LOOPS + 2]`. -/
theorem render_val_range (s : TinyMandelbrot) (ao bo st : Int) (pos : pos_t)
    (h : s.buff.get pos < 2) :
    2 ≤ s.render_val ao bo st pos ∧ s.render_val ao bo st pos ≤ 130 := by
  unfold render_val
  rw [if_pos h]
  have := mandelbrot_func_range (wrap32 (ao + wrap32 (st * pos.x)))
    (wrap32 (bo + wrap32 (st * pos.y)))
  omega

/-- The store after the computation of the popped cell: a cell changes only at
`pos`, from a value below `2` to the computed value. -/
theorem render_compute_data (s : TinyMandelbrot) (ao bo st : Int) (pos : pos_t) (i : Int) :
    (s.render_compute ao bo st pos).buff.data i = s.buff.data i ∨
    ((s.render_compute ao bo st pos).buff.data i = s.render_val ao bo st pos ∧
      s.buff.data i < 2 ∧ 2 ≤ s.render_val ao bo st pos ∧
      s.render_val ao bo st pos ≤ 130 ∧ i = pos.y * s.buff.STRIDE + pos.x) := by
  unfold render_compute
  split
  · rename_i h
    show (s.buff.set pos _).data i = s.buff.data i ∨ _
    rw [Buffer2D.set_data]
    by_cases hi : i = pos.y * s.buff.STRIDE + pos.x
    · right
      rw [if_pos hi]
      have hr := render_val_range s ao bo st pos h
      refine ⟨rfl, ?_, hr.1, hr.2, hi⟩
      rw [hi]
      exact h
    · left
      rw [if_neg hi]
  · exact Or.inl rfl

/-- No step of `render` before the raster pass makes a cell `0`. -/
theorem push_task_nonzero (s : TinyMandelbrot) (pos : pos_t) (force : Bool) (i : Int)
    (h : s.buff.data i ≠ 0) : (s.push_task pos force).buff.data i ≠ 0 := by
  rcases push_task_data s pos force i with e | e
  · rw [e]; exact h
  · rw [e.1]; decide

theorem render_compute_nonzero (s : TinyMandelbrot) (ao bo st : Int) (pos : pos_t) (i : Int)
    (h : s.buff.data i ≠ 0) : (s.render_compute ao bo st pos).buff.data i ≠ 0 := by
  rcases render_compute_data s ao bo st pos i with e | e
  · rw [e]; exact h
  · rw [e.1]; omega

theorem with_queue_buff (s : TinyMandelbrot) (q : ArrayQueue pos_t) :
    ({ s with queue := q } : TinyMandelbrot).buff = s.buff ∧
    ({ s with queue := q } : TinyMandelbrot).queue = q := ⟨rfl, rfl⟩

theorem push_task_rect_nonzero (s : TinyMandelbrot) (rect : rect_t) (force : Bool) (i : Int)
    (h : s.buff.data i ≠ 0) : (s.push_task_rect rect force).buff.data i ≠ 0 :=
  push_task_rect_ind (fun t => t.buff.data i ≠ 0) rect force
    (fun t pos ht => push_task_nonzero t pos force i ht) s h

theorem render_drain_nonzero (ao bo st : Int) (fuel : Nat) (pos : pos_t) (s : TinyMandelbrot)
    (i : Int) (h : s.buff.data i ≠ 0) : (render_drain ao bo st fuel pos s).buff.data i ≠ 0 := by
  refine render_drain_ind (fun t => t.buff.data i ≠ 0) ao bo st
    (fun t pos ht => push_task_nonzero t pos false i ht) ?_ ?_ fuel pos s h
  · intro t slot ht _
    apply render_compute_nonzero
    rw [(with_queue_buff t _).1]
    exact ht
  · intro t slot ht _
    rw [(with_queue_buff t _).1]
    exact ht

open tinymandelbrot
open tinymandelbrot.TinyMandelbrot

/-! ## Theorems: the seeding of `render` -/

theorem push_tasks_nil (s : TinyMandelbrot) (force : Bool) : push_tasks s force [] = s := rfl

theorem push_tasks_cons (s : TinyMandelbrot) (force : Bool) (p : pos_t) (l : List pos_t) :
    push_tasks s force (p :: l) = push_tasks (s.push_task p force) force l := rfl

theorem push_tasks_append (s : TinyMandelbrot) (force : Bool) (l m : List pos_t) :
    push_tasks s force (l ++ m) = push_tasks (push_tasks s force l) force m := by
  unfold push_tasks
  exact List.foldl_append _ _ _ _

theorem push_task_rect_x_eq (rect : rect_t) (force : Bool) (n : Nat) :
    ∀ (x : Int) (s : TinyMandelbrot),
      push_task_rect_x rect force n x s = push_tasks s force (rect_x_tasks rect n x) := by
  induction n with
  | zero => intro x s; rfl
  | succ n ih =>
    intro x s
    rw [push_task_rect_x, rect_x_tasks, push_tasks_append, ih]
    split
    · rfl
    · rfl

theorem push_task_rect_y_eq (rect : rect_t) (force : Bool) (n : Nat) :
    ∀ (y : Int) (s : TinyMandelbrot),
      push_task_rect_y rect force n y s = push_tasks s force (rect_y_tasks rect n y) := by
  induction n with
  | zero => intro y s; rfl
  | succ n ih =>
    intro y s
    rw [push_task_rect_y, rect_y_tasks, push_tasks_append, ih]
    split
    · rfl
    · rfl

/-- The procedure `push_task_rect` is the sequence of `push_task` calls on the
positions of `rect_tasks`. -/
theorem push_task_rect_eq (s : TinyMandelbrot) (rect : rect_t) (force : Bool) :
    s.push_task_rect rect force = push_tasks s force (rect_tasks rect) := by
  unfold push_task_rect rect_tasks
  rw [push_tasks_append, push_task_rect_x_eq, push_task_rect_y_eq]

theorem push_tasks_ind (P : TinyMandelbrot → Prop) (force : Bool)
    (hp : ∀ s pos, P s → P (s.push_task pos force)) (l : List pos_t) :
    ∀ s : TinyMandelbrot, P s → P (push_tasks s force l) := by
  induction l with
  | nil => intro s h; exact h
  | cons p l ih => intro s h; rw [push_tasks_cons]; exact ih _ (hp _ _ h)

theorem gridDims_of_sameView {s t : TinyMandelbrot} (h : SameView s t) (hd : GridDims s) :
    GridDims t := by
  obtain ⟨-, -, -, -, h5, h6, h7, -, -⟩ := h
  unfold GridDims at hd ⊢
  rw [h5, h6, h7]
  exact hd

theorem push_task_dims (s : TinyMandelbrot) (pos : pos_t) (force : Bool) (hd : GridDims s) :
    GridDims (s.push_task pos force) := gridDims_of_sameView (push_task_sameView s pos force) hd

/-- In bounds, `push_task` leaves the cell of `pos` non-zero. -/
theorem push_task_marks (s : TinyMandelbrot) (pos : pos_t) (force : Bool)
    (hb : s.buff.bounds.contains pos = true) :
    (s.push_task pos force).buff.data (pos.y * s.buff.STRIDE + pos.x) ≠ 0 := by
  unfold push_task
  split
  · rename_i h
    rw [hb] at h
    exact absurd h (by decide)
  · split
    · rename_i h
      exact h.1
    · show (s.buff.set pos 1).data (pos.y * s.buff.STRIDE + pos.x) ≠ 0
      rw [Buffer2D.set_data, if_pos rfl]
      decide

theorem push_tasks_nonzero (force : Bool) (l : List pos_t) (i : Int) (s : TinyMandelbrot)
    (h : s.buff.data i ≠ 0) : (push_tasks s force l).buff.data i ≠ 0 :=
  push_tasks_ind (fun t => t.buff.data i ≠ 0) force
    (fun t pos ht => push_task_nonzero t pos force i ht) l s h

theorem bounds_240 (s : TinyMandelbrot) (hd : GridDims s) (p : pos_t) :
    s.buff.bounds.contains p = true ↔ (0 ≤ p.x ∧ p.x < 240) ∧ (0 ≤ p.y ∧ p.y < 240) := by
  obtain ⟨h1, h2, -⟩ := hd
  rw [W_eq] at h1
  rw [H_eq] at h2
  rw [bounds_contains s.buff (by omega) (by omega) p, h1, h2]

/-- Every position of the sequence that is inside the bounds has a non-zero
cell afterwards. -/
theorem push_tasks_marks (force : Bool) (l : List pos_t) :
    ∀ (s : TinyMandelbrot), GridDims s → ∀ x y : Int, (⟨x, y⟩ : pos_t) ∈ l →
      0 ≤ x ∧ x < 240 → 0 ≤ y ∧ y < 240 →
      (push_tasks s force l).buff.data (y * 240 + x) ≠ 0 := by
  induction l with
  | nil => intro s _ x y hp; exact absurd hp (List.not_mem_nil _)
  | cons q l ih =>
    intro s hd x y hp hx hy
    rw [push_tasks_cons]
    rcases List.mem_cons.1 hp with e | e
    · apply push_tasks_nonzero
      have h := push_task_marks s ⟨x, y⟩ force ((bounds_240 s hd ⟨x, y⟩).2 ⟨hx, hy⟩)
      rw [hd.2.2, W_eq] at h
      rw [← e]
      exact h
    · exact ih _ (push_task_dims s q force hd) x y e hx hy

theorem wrap16_id (x : Int) (h : -32768 ≤ x ∧ x < 32768) : wrap16 x = x := by
  unfold wrap16; omega

theorem pos_new_id (x y : Int) (hx : -32768 ≤ x ∧ x < 32768) (hy : -32768 ≤ y ∧ y < 32768) :
    pos_t.new x y = ⟨x, y⟩ := by
  unfold pos_t.new
  rw [wrap16_id x hx, wrap16_id y hy]

theorem rect_x_tasks_mem_top (rect : rect_t) (n : Nat) :
    ∀ (x0 x : Int), x0 ≤ x → x < x0 + n → pos_t.new x rect.y ∈ rect_x_tasks rect n x0 := by
  induction n with
  | zero => intro x0 x h1 h2; exfalso; simp only [Nat.cast_zero, add_zero] at h2; omega
  | succ n ih =>
    intro x0 x h1 h2
    rw [rect_x_tasks]
    by_cases e : x = x0
    · apply List.mem_append_left
      rw [e]
      split
      · exact List.mem_cons_self _ _
      · exact List.mem_cons_self _ _
    · apply List.mem_append_right
      apply ih
      · omega
      · push_cast at h2; omega

theorem rect_x_tasks_mem_bottom (rect : rect_t) (hw : rect.w ≥ 2) (n : Nat) :
    ∀ (x0 x : Int), x0 ≤ x → x < x0 + n →
      pos_t.new x (rect.b - 1) ∈ rect_x_tasks rect n x0 := by
  induction n with
  | zero => intro x0 x h1 h2; exfalso; simp only [Nat.cast_zero, add_zero] at h2; omega
  | succ n ih =>
    intro x0 x h1 h2
    rw [rect_x_tasks]
    by_cases e : x = x0
    · apply List.mem_append_left
      rw [e, if_pos hw]
      exact List.mem_cons_of_mem _ (List.mem_cons_self _ _)
    · apply List.mem_append_right
      apply ih
      · omega
      · push_cast at h2; omega

theorem rect_y_tasks_mem_left (rect : rect_t) (n : Nat) :
    ∀ (y0 y : Int), y0 ≤ y → y < y0 + n → pos_t.new rect.x y ∈ rect_y_tasks rect n y0 := by
  induction n with
  | zero => intro y0 y h1 h2; exfalso; simp only [Nat.cast_zero, add_zero] at h2; omega
  | succ n ih =>
    intro y0 y h1 h2
    rw [rect_y_tasks]
    by_cases e : y = y0
    · apply List.mem_append_left
      rw [e]
      split
      · exact List.mem_cons_self _ _
      · exact List.mem_cons_self _ _
    · apply List.mem_append_right
      apply ih
      · omega
      · push_cast at h2; omega

theorem rect_y_tasks_mem_right (rect : rect_t) (hh : rect.h ≥ 2) (n : Nat) :
    ∀ (y0 y : Int), y0 ≤ y → y < y0 + n →
      pos_t.new (rect.r - 1) y ∈ rect_y_tasks rect n y0 := by
  induction n with
  | zero => intro y0 y h1 h2; exfalso; simp only [Nat.cast_zero, add_zero] at h2; omega
  | succ n ih =>
    intro y0 y h1 h2
    rw [rect_y_tasks]
    by_cases e : y = y0
    · apply List.mem_append_left
      rw [e, if_pos hh]
      exact List.mem_cons_of_mem _ (List.mem_cons_self _ _)
    · apply List.mem_append_right
      apply ih
      · omega
      · push_cast at h2; omega

/-- Every pixel on the border of the grid is among the positions of the first
seeding call `push_task_rect(buff.bounds(), false)`. -/
theorem border_mem_tasks (x y : Int) (hx : 0 ≤ x ∧ x < 240) (hy : 0 ≤ y ∧ y < 240)
    (hb : x = 0 ∨ x = 239 ∨ y = 0 ∨ y = 239) :
    (⟨x, y⟩ : pos_t) ∈ rect_tasks ⟨0, 0, 240, 240⟩ := by
  have er : (⟨0, 0, 240, 240⟩ : rect_t).r = 240 := by decide
  have eb : (⟨0, 0, 240, 240⟩ : rect_t).b = 240 := by decide
  unfold rect_tasks
  rw [er, eb]
  have n1 : ((240 : Int) - (⟨0, 0, 240, 240⟩ : rect_t).x).toNat = 240 := by decide
  have n2 : ((240 : Int) - 1 - ((⟨0, 0, 240, 240⟩ : rect_t).y + 1)).toNat = 238 := by decide
  rw [n1, n2]
  by_cases h0 : y = 0
  · apply List.mem_append_left
    have := rect_x_tasks_mem_top ⟨0, 0, 240, 240⟩ 240 0 x hx.1 (by push_cast; omega)
    rw [pos_new_id x 0 (by omega) (by decide)] at this
    rw [h0]
    exact this
  · by_cases h1 : y = 239
    · apply List.mem_append_left
      have := rect_x_tasks_mem_bottom ⟨0, 0, 240, 240⟩ (by decide) 240 0 x hx.1
        (by push_cast; omega)
      rw [eb, pos_new_id x (240 - 1) (by omega) (by decide)] at this
      rw [h1]
      exact this
    · apply List.mem_append_right
      by_cases h2 : x = 0
      · have := rect_y_tasks_mem_left ⟨0, 0, 240, 240⟩ 238 (0 + 1) y (by omega)
          (by push_cast; omega)
        rw [pos_new_id 0 y (by decide) (by omega)] at this
        rw [h2]
        exact this
      · have h3 : x = 239 := by omega
        have := rect_y_tasks_mem_right ⟨0, 0, 240, 240⟩ (by decide) 238 (0 + 1) y (by omega)
          (by push_cast; omega)
        rw [er, pos_new_id (240 - 1) y (by decide) (by omega)] at this
        rw [h3]
        exact this

/-- After the first seeding call, and to the end of `render`, no cell on the
border of the grid is `0`. -/
theorem seeded_border_nonzero (s : TinyMandelbrot) (hd : GridDims s) (x y : Int)
    (hx : 0 ≤ x ∧ x < 240) (hy : 0 ≤ y ∧ y < 240)
    (hb : x = 0 ∨ x = 239 ∨ y = 0 ∨ y = 239) :
    s.render_seeded.buff.data (y * 240 + x) ≠ 0 := by
  unfold render_seeded
  apply push_task_rect_nonzero
  have e : s.buff.bounds = ⟨0, 0, 240, 240⟩ := bounds_of_dims s hd
  rw [push_task_rect_eq, e]
  exact push_tasks_marks false _ s hd x y (border_mem_tasks x y hx hy hb) hx hy

theorem render_drained_eq (s : TinyMandelbrot) :
    s.render_drained
      = render_drain (wrap32 (s.a_round - wrap32 (s.pixel_size * (W / 2))))
          (wrap32 (s.b_round - wrap32 (s.pixel_size * (H / 2)))) s.pixel_size
          s.render_seeded.render_fuel (pos_t.new 0 0) s.render_seeded := rfl

theorem drained_border_nonzero (s : TinyMandelbrot) (hd : GridDims s) (x y : Int)
    (hx : 0 ≤ x ∧ x < 240) (hy : 0 ≤ y ∧ y < 240)
    (hb : x = 0 ∨ x = 239 ∨ y = 0 ∨ y = 239) :
    s.render_drained.buff.data (y * 240 + x) ≠ 0 := by
  rw [render_drained_eq]
  exact render_drain_nonzero _ _ _ _ _ _ _ (seeded_border_nonzero s hd x y hx hy hb)

open tinymandelbrot
open tinymandelbrot.TinyMandelbrot

/-! ## Theorems: the raster pass of `render` -/

theorem render_fill_row_add (m : Nat) :
    ∀ (n : Nat) (ptr : Int) (st : (Int → Nat) × Nat),
      render_fill_row (m + n) ptr st = render_fill_row n (ptr + m) (render_fill_row m ptr st) := by
  induction m with
  | zero =>
    intro n ptr st
    rw [Nat.zero_add]
    simp only [Nat.cast_zero, add_zero]
    rfl
  | succ m ih =>
    intro n ptr st
    have e : m + 1 + n = (m + n) + 1 := by omega
    rw [e, render_fill_row, render_fill_row, ih]
    have e2 : ptr + 1 + (m : Int) = ptr + ((m + 1 : Nat) : Int) := by push_cast; ring
    rw [e2]

/-- The raster pass over `n` cells from `ptr` on: the value of `last_n`
afterwards, and the store afterwards. -/
theorem render_fill_row_spec (d : Int → Nat) (l : Nat) (ptr : Int) (n : Nat) :
    (render_fill_row n ptr (d, l)).2 = last_seen d l ptr n ∧
    ∀ i : Int, (render_fill_row n ptr (d, l)).1 i
      = if (ptr ≤ i ∧ i < ptr + n) ∧ d i = 0 then last_seen d l ptr (i - ptr).toNat else d i := by
  induction n with
  | zero =>
    refine ⟨rfl, ?_⟩
    intro i
    rw [if_neg]
    · rfl
    · intro h
      simp only [Nat.cast_zero, add_zero] at h
      omega
  | succ n ih =>
    obtain ⟨ih1, ih2⟩ := ih
    have e := render_fill_row_add n 1 ptr (d, l)
    rw [e]
    have hst : render_fill_row n ptr (d, l)
        = ((render_fill_row n ptr (d, l)).1, (render_fill_row n ptr (d, l)).2) := rfl
    rw [hst, render_fill_row, render_fill_row]
    have hd : (render_fill_row n ptr (d, l)).1 (ptr + n) = d (ptr + n) := by
      rw [ih2, if_neg]
      intro h
      omega
    dsimp only
    rw [hd, ih1]
    by_cases hz : d (ptr + n) = 0
    · rw [if_pos hz]
      dsimp only
      constructor
      · rw [last_seen, if_pos hz]
      · intro i
        rw [Function.update_apply]
        by_cases hi : i = ptr + n
        · rw [if_pos hi, if_pos]
          · rw [hi]
            have : (ptr + (n : Int) - ptr).toNat = n := by
              have : ptr + (n : Int) - ptr = n := by ring
              rw [this]; rfl
            rw [this]
          · rw [hi]
            refine ⟨⟨by omega, ?_⟩, hz⟩
            push_cast; omega
        · rw [if_neg hi, ih2]
          by_cases hc : (ptr ≤ i ∧ i < ptr + n) ∧ d i = 0
          · rw [if_pos hc, if_pos]
            refine ⟨⟨hc.1.1, ?_⟩, hc.2⟩
            push_cast; omega
          · rw [if_neg hc, if_neg]
            intro h
            apply hc
            refine ⟨⟨h.1.1, ?_⟩, h.2⟩
            have := h.1.2
            push_cast at this
            omega
    · rw [if_neg hz]
      dsimp only
      constructor
      · rw [last_seen, if_neg hz]
      · intro i
        rw [ih2]
        by_cases hc : (ptr ≤ i ∧ i < ptr + n) ∧ d i = 0
        · rw [if_pos hc, if_pos]
          refine ⟨⟨hc.1.1, ?_⟩, hc.2⟩
          push_cast; omega
        · rw [if_neg hc, if_neg]
          intro h
          apply hc
          refine ⟨⟨h.1.1, ?_⟩, h.2⟩
          have h3 := h.1.2
          push_cast at h3
          have : i ≠ ptr + n := by
            intro e3
            rw [e3] at h
            exact hz h.2
          omega

/-- With the stride equal to the width, the rows are contiguous and the raster
pass is one scan of the store. -/
theorem render_fill_rows_eq (b : Buffer2D Nat) (hS : b.STRIDE = 240) (n : Nat) :
    ∀ (y : Int) (st : (Int → Nat) × Nat), 0 ≤ y → y + n ≤ 240 →
      render_fill_rows b n y st = render_fill_row (240 * n) (y * 240) st := by
  induction n with
  | zero => intro y st _ _; rfl
  | succ n ih =>
    intro y st h0 h1
    push_cast at h1
    have e : 240 * (n + 1) = 240 + 240 * n := by ring
    rw [render_fill_rows, e, render_fill_row_add, ih _ _ (by omega) (by omega)]
    have ep : b.ptr 0 y = y * 240 := by
      unfold Buffer2D.ptr
      rw [hS, wrap16_id y (by omega), wrap16_id 0 (by decide)]
      ring
    have eW : W.toNat = 240 := rfl
    have e2 : (y + 1) * 240 = y * 240 + ((240 : Nat) : Int) := by push_cast; ring
    rw [ep, eW, e2]

/-- When one of the cells seen is not `0`, `last_n` is the value of the last
such cell. -/
theorem last_seen_nearest (d : Int → Nat) (l : Nat) (ptr : Int) (n : Nat) :
    ∀ j : Nat, j < n → d (ptr + j) ≠ 0 →
      ∃ k : Nat, j ≤ k ∧ k < n ∧ d (ptr + k) ≠ 0 ∧
        (∀ m : Nat, k < m → m < n → d (ptr + m) = 0) ∧ last_seen d l ptr n = d (ptr + k) := by
  induction n with
  | zero => intro j hj; exact absurd hj (Nat.not_lt_zero j)
  | succ n ih =>
    intro j hj hdj
    by_cases hz : d (ptr + n) = 0
    · have hjn : j < n := by
        rcases Nat.lt_succ_iff_lt_or_eq.1 hj with h | h
        · exact h
        · rw [h] at hdj; exact absurd hz hdj
      obtain ⟨k, h1, h2, h3, h4, h5⟩ := ih j hjn hdj
      refine ⟨k, h1, by omega, h3, ?_, ?_⟩
      · intro m hm1 hm2
        rcases Nat.lt_succ_iff_lt_or_eq.1 hm2 with h | h
        · exact h4 m hm1 h
        · rw [h]; exact hz
      · rw [last_seen, if_pos hz, h5]
    · refine ⟨n, by omega, by omega, hz, ?_, ?_⟩
      · intro m hm1 hm2; omega
      · rw [last_seen, if_neg hz]

theorem get_240 (s : TinyMandelbrot) (hd : GridDims s) (x y : Int) :
    s.buff.get ⟨x, y⟩ = s.buff.data (y * 240 + x) := by
  rw [Buffer2D.get_eq, hd.2.2, W_eq]

theorem render_drained_dims (s : TinyMandelbrot) (hd : GridDims s) : GridDims s.render_drained :=
  gridDims_of_sameView (render_drained_sameView s) hd

theorem render_dims (s : TinyMandelbrot) (hd : GridDims s) : GridDims s.render := by
  obtain ⟨h1, h2, h3⟩ := render_buff_dims s
  unfold GridDims at hd ⊢
  rw [h1, h2, h3]
  exact hd

theorem render_data (s : TinyMandelbrot) :
    s.render.buff.data
      = (render_fill_rows s.render_drained.buff H.toNat 0 (s.render_drained.buff.data, 0)).1 := by
  unfold render
  rw [(render_finish_fields _ _).2.2.2.2.2.2.2.2.1]

/-- The cell `(x, y)` after `render`, from the store at the end of the drain
loop: a cell that is `0` there takes the value `last_n` has when the raster
pass has seen the cells before it, any other cell keeps its value. -/
theorem render_cell (s : TinyMandelbrot) (hd : GridDims s) (x y : Int)
    (hx : 0 ≤ x ∧ x < 240) (hy : 0 ≤ y ∧ y < 240) :
    s.render.buff.get ⟨x, y⟩
      = if s.render_drained.buff.data (y * 240 + x) = 0
        then last_seen s.render_drained.buff.data 0 0 (y * 240 + x).toNat
        else s.render_drained.buff.data (y * 240 + x) := by
  rw [get_240 s.render (render_dims s hd), render_data]
  have eH : H.toNat = 240 := rfl
  rw [eH, render_fill_rows_eq _ (render_drained_dims s hd).2.2 240 0 _ (by decide) (by decide),
    (render_fill_row_spec _ _ _ _).2]
  have e0 : (0 : Int) * 240 = 0 := by norm_num
  rw [e0, sub_zero]
  by_cases hz : s.render_drained.buff.data (y * 240 + x) = 0
  · rw [if_pos hz, if_pos]
    refine ⟨⟨by omega, ?_⟩, hz⟩
    push_cast
    omega
  · rw [if_neg hz, if_neg]
    intro h
    exact hz h.2

/-- C22 (last-seen-value fill stays within the row): for every state with the
configured grid, whatever the grid content, the queue and the viewport on
entry, `render` leaves every cell that is non-zero when the drain loop has
ended as it is, and gives every cell `(x, y)` that is `0` at that moment the
value of the nearest cell `(x1, y)` to its left on the same row that is non-zero
at that moment; such a cell exists because column `0` of every row is non-zero
then, so the value `last_n` carries over from the previous row is never
written. -/
theorem C22_fill_within_row (s : TinyMandelbrot) (hd : GridDims s) (x y : Int)
    (hx : 0 ≤ x ∧ x < W) (hy : 0 ≤ y ∧ y < H) :
    s.render_drained.buff.get ⟨0, y⟩ ≠ 0 ∧
    (s.render_drained.buff.get ⟨x, y⟩ ≠ 0 →
      s.render.buff.get ⟨x, y⟩ = s.render_drained.buff.get ⟨x, y⟩) ∧
    (s.render_drained.buff.get ⟨x, y⟩ = 0 →
      ∃ x1 : Int, 0 ≤ x1 ∧ x1 < x ∧ s.render_drained.buff.get ⟨x1, y⟩ ≠ 0 ∧
        (∀ x2 : Int, x1 < x2 → x2 ≤ x → s.render_drained.buff.get ⟨x2, y⟩ = 0) ∧
        s.render.buff.get ⟨x, y⟩ = s.render_drained.buff.get ⟨x1, y⟩) := by
  rw [W_eq] at hx
  rw [H_eq] at hy
  have hdd := render_drained_dims s hd
  have h0 : s.render_drained.buff.data (y * 240 + 0) ≠ 0 :=
    drained_border_nonzero s hd 0 y (by decide) hy (Or.inl rfl)
  rw [get_240 _ hdd, get_240 _ hdd, render_cell s hd x y hx hy]
  refine ⟨h0, ?_, ?_⟩
  · intro h
    rw [if_neg h]
  · intro hz
    rw [if_pos hz]
    have hx0 : x ≠ 0 := by
      intro e
      rw [e] at hz
      exact h0 hz
    have hj : s.render_drained.buff.data (0 + ((y * 240).toNat : Int)) ≠ 0 := by
      have e : (0 : Int) + ((y * 240).toNat : Int) = y * 240 + 0 := by omega
      rw [e]
      exact h0
    obtain ⟨k, k1, k2, k3, k4, k5⟩ := last_seen_nearest s.render_drained.buff.data 0 0
      (y * 240 + x).toNat (y * 240).toNat (by omega) hj
    have ek : (0 : Int) + (k : Int) = y * 240 + ((k : Int) - y * 240) := by ring
    refine ⟨(k : Int) - y * 240, by omega, by omega, ?_, ?_, ?_⟩
    · rw [get_240 _ hdd, ← ek]
      exact k3
    · intro x2 h1 h2
      rw [get_240 _ hdd]
      by_cases e2 : x2 = x
      · rw [e2]; exact hz
      · have := k4 (y * 240 + x2).toNat (by omega) (by omega)
        have e3 : (0 : Int) + ((y * 240 + x2).toNat : Int) = y * 240 + x2 := by omega
        rw [e3] at this
        exact this
    · rw [get_240 _ hdd, ← ek]
      exact k5

/-- After `render` no cell of the grid is `0`. -/
theorem render_nonzero (s : TinyMandelbrot) (hd : GridDims s) (x y : Int)
    (hx : 0 ≤ x ∧ x < 240) (hy : 0 ≤ y ∧ y < 240) : s.render.buff.get ⟨x, y⟩ ≠ 0 := by
  have h0 : s.render_drained.buff.data (0 * 240 + 0) ≠ 0 :=
    drained_border_nonzero s hd 0 0 (by decide) (by decide) (Or.inl rfl)
  rw [render_cell s hd x y hx hy]
  by_cases hz : s.render_drained.buff.data (y * 240 + x) = 0
  · rw [if_pos hz]
    have hpos : 0 < (y * 240 + x).toNat := by
      rcases Nat.eq_zero_or_pos (y * 240 + x).toNat with e | e
      · exfalso
        have e2 : y * 240 + x = 0 * 240 + 0 := by omega
        rw [e2] at hz
        exact h0 hz
      · exact e
    have hj : s.render_drained.buff.data (0 + ((0 : Nat) : Int)) ≠ 0 := by
      have e : (0 : Int) + ((0 : Nat) : Int) = 0 * 240 + 0 := by norm_num
      rw [e]
      exact h0
    obtain ⟨k, -, -, k3, -, k5⟩ := last_seen_nearest s.render_drained.buff.data 0 0
      (y * 240 + x).toNat 0 hpos hj
    rw [k5]
    exact k3
  · rw [if_neg hz]
    exact hz

/-- C24 (no cell is left unrendered by any `render`): for every state with the
configured grid, whatever the grid content, the stable rectangle, the queue
content and the viewport on entry (so also when pushes are dropped because the
queue is full), cell `(0, 0)` is non-zero when the raster pass starts, so the
pass never writes the initial `last_n = 0`, and after `render` no cell of the
grid is `0`. -/
theorem C24_no_cell_unrendered (s : TinyMandelbrot) (hd : GridDims s) :
    s.render_drained.buff.get ⟨0, 0⟩ ≠ 0 ∧
    ∀ x y : Int, 0 ≤ x ∧ x < W → 0 ≤ y ∧ y < H → s.render.buff.get ⟨x, y⟩ ≠ 0 := by
  have h0 : s.render_drained.buff.data (0 * 240 + 0) ≠ 0 :=
    drained_border_nonzero s hd 0 0 (by decide) (by decide) (Or.inl rfl)
  rw [get_240 _ (render_drained_dims s hd)]
  exact ⟨h0, fun x y hx hy => render_nonzero s hd x y hx hy⟩

/-- C24 witness: the freshly constructed engine and cell `(3, 4)`. -/
theorem C24_no_cell_unrendered_witness :
    GridDims (TinyMandelbrot.new (fun _ => 0) (fun _ => ⟨0, 0⟩)) ∧
    (TinyMandelbrot.new (fun _ => 0) (fun _ => ⟨0, 0⟩)).render.buff.get ⟨3, 4⟩ ≠ 0 :=
  ⟨(new_inv _ _).1,
    (C24_no_cell_unrendered _ (new_inv _ _).1).2 3 4 (by decide) (by decide)⟩

/-- C22 witness: the freshly constructed engine and cell `(5, 7)`. -/
theorem C22_fill_within_row_witness :
    (GridDims (TinyMandelbrot.new (fun _ => 0) (fun _ => ⟨0, 0⟩)) ∧
      ((0 : Int) ≤ 5 ∧ (5 : Int) < W) ∧ ((0 : Int) ≤ 7 ∧ (7 : Int) < H)) ∧
    (TinyMandelbrot.new (fun _ => 0) (fun _ => ⟨0, 0⟩)).render_drained.buff.get ⟨0, 7⟩ ≠ 0 :=
  ⟨⟨(new_inv _ _).1, by decide, by decide⟩,
    (C22_fill_within_row _ (new_inv _ _).1 5 7 (by decide) (by decide)).1⟩

open tinymandelbrot
open tinymandelbrot.TinyMandelbrot

/-! ## Theorems: termination of the drain loop -/

theorem zero_cells_mono (s t : TinyMandelbrot)
    (h : ∀ i, s.buff.data i ≠ 0 → t.buff.data i ≠ 0) : t.zero_cells ≤ s.zero_cells := by
  unfold zero_cells
  apply Finset.card_le_card
  intro i hi
  rw [Finset.mem_filter] at hi ⊢
  refine ⟨hi.1, ?_⟩
  by_contra hc
  exact h i hc hi.2

theorem zero_cells_lt (s t : TinyMandelbrot)
    (h : ∀ i, s.buff.data i ≠ 0 → t.buff.data i ≠ 0) (j : Int) (hj : 0 ≤ j ∧ j < W * H)
    (hs : s.buff.data j = 0) (ht : t.buff.data j ≠ 0) : t.zero_cells + 1 ≤ s.zero_cells := by
  unfold zero_cells
  apply Nat.succ_le_of_lt
  apply Finset.card_lt_card
  rw [Finset.ssubset_iff_of_subset]
  · refine ⟨j, ?_, ?_⟩
    · rw [Finset.mem_filter, Finset.mem_Ico]
      exact ⟨hj, hs⟩
    · rw [Finset.mem_filter]
      intro hc
      exact ht hc.2
  · intro i hi
    rw [Finset.mem_filter] at hi ⊢
    refine ⟨hi.1, ?_⟩
    by_contra hc
    exact h i hc hi.2

theorem zero_cells_le (s : TinyMandelbrot) : s.zero_cells ≤ 57600 := by
  unfold zero_cells
  refine le_trans (Finset.card_filter_le _ _) ?_
  rw [Int.card_Ico]
  decide

theorem push_size_le {T : Type} (q : ArrayQueue T) (v : T) :
    (q.push v).2._size ≤ q._size + 1 ∧
    (q._size ≤ q.CAPACITY → (q.push v).2._size ≤ (q.push v).2.CAPACITY) := by
  unfold ArrayQueue.push
  split
  · exact ⟨Nat.le_succ _, fun h => h⟩
  · rename_i hf
    refine ⟨Nat.le_refl _, ?_⟩
    intro h
    show q._size + 1 ≤ q.CAPACITY
    unfold ArrayQueue.full at hf
    simp only [ge_iff_le, decide_eq_true_eq, not_le] at hf
    omega

/-- An unforced `push_task` does not increase the measure of the drain loop. -/
theorem push_task_measure (s : TinyMandelbrot) (hd : GridDims s) (pos : pos_t) :
    (s.push_task pos false).drain_measure ≤ s.drain_measure := by
  refine push_task_elim (fun t => t.drain_measure ≤ s.drain_measure) s pos false
    (Nat.le_refl _) ?_
  intro hb hz
  have hz0 : s.buff.get pos = 0 := by
    rcases hz with h | h
    · exact h
    · exact absurd h (by decide)
  have hin := (bounds_240 s hd pos).1 hb
  unfold drain_measure
  rw [(with_push_fields s pos).2]
  have h1 := (push_size_le s.queue pos).1
  have h2 : zero_cells { s with buff := s.buff.set pos 1, queue := (s.queue.push pos).2 } + 1
      ≤ s.zero_cells := by
    apply zero_cells_lt s _ ?_ (pos.y * 240 + pos.x)
    · rw [W_eq, H_eq]; omega
    · rw [Buffer2D.get_eq, hd.2.2, W_eq] at hz0
      exact hz0
    · rw [(with_push_fields s pos).1, Buffer2D.set_data, hd.2.2, W_eq, if_pos rfl]
      decide
    · intro i hi
      rw [(with_push_fields s pos).1, Buffer2D.set_data]
      split
      · decide
      · exact hi
  omega

theorem render_compute_measure (s : TinyMandelbrot) (ao bo st : Int) (pos : pos_t) :
    (s.render_compute ao bo st pos).drain_measure ≤ s.drain_measure := by
  unfold drain_measure
  have h1 := zero_cells_mono s (s.render_compute ao bo st pos)
    (fun i hi => render_compute_nonzero s ao bo st pos i hi)
  have h2 : (s.render_compute ao bo st pos).queue = s.queue := by
    unfold render_compute
    split
    · rfl
    · rfl
  rw [h2]
  omega

theorem pop_size {T : Type} (q : ArrayQueue T) (slot : T) :
    ((q.pop slot).1 = true → (q.pop slot).2.2._size + 1 = q._size) ∧
    ((q.pop slot).1 = false → (q.pop slot).2.2 = q ∧ q._size = 0) := by
  unfold ArrayQueue.pop
  split
  · rename_i he
    refine ⟨fun h => Bool.noConfusion h, fun _ => ⟨rfl, ?_⟩⟩
    unfold ArrayQueue.empty at he
    simp only [decide_eq_true_eq] at he
    omega
  · rename_i he
    refine ⟨fun _ => ?_, fun h => Bool.noConfusion h⟩
    show q._size - 1 + 1 = q._size
    unfold ArrayQueue.empty at he
    simp only [decide_eq_true_eq] at he
    omega

theorem with_queue_dims (s : TinyMandelbrot) (q : ArrayQueue pos_t) (hd : GridDims s) :
    GridDims ({ s with queue := q } : TinyMandelbrot) :=
  gridDims_of_buff (with_queue_buff s q).1 hd

theorem render_compute_dims (s : TinyMandelbrot) (ao bo st : Int) (pos : pos_t)
    (hd : GridDims s) : GridDims (s.render_compute ao bo st pos) :=
  gridDims_of_sameView (render_compute_sameView s ao bo st pos) hd

/-- One iteration of the drain loop makes the measure strictly smaller. -/
theorem render_visit_measure (s : TinyMandelbrot) (hd : GridDims s) (slot : pos_t)
    (hp : (s.queue.pop slot).1 = true) (ao bo st : Int) :
    GridDims (render_visit { s with queue := (s.queue.pop slot).2.2 } ao bo st
      (s.queue.pop slot).2.1) ∧
    (render_visit { s with queue := (s.queue.pop slot).2.2 } ao bo st
      (s.queue.pop slot).2.1).drain_measure + 1 ≤ s.drain_measure := by
  refine render_visit_ind (fun t => GridDims t ∧ t.drain_measure + 1 ≤ s.drain_measure) ?_ _ _ _ _
    _ ?_
  · intro t pos ht
    exact ⟨push_task_dims t pos false ht.1, le_trans (Nat.succ_le_succ
      (push_task_measure t ht.1 pos)) ht.2⟩
  · refine ⟨render_compute_dims _ _ _ _ _ (with_queue_dims s _ hd), ?_⟩
    refine le_trans (Nat.succ_le_succ (render_compute_measure _ _ _ _ _)) ?_
    have h := (pop_size s.queue slot).1 hp
    have e : drain_measure ({ s with queue := (s.queue.pop slot).2.2 } : TinyMandelbrot)
        = s.zero_cells + (s.queue.pop slot).2.2._size := rfl
    rw [e]
    unfold drain_measure
    omega

/-- With more loop tests than the measure, the drain loop ends by a failing
`pop`, and further loop tests change nothing. -/
theorem render_drain_terminates (ao bo st : Int) (fuel : Nat) :
    ∀ (pos : pos_t) (s : TinyMandelbrot), GridDims s → s.drain_measure < fuel →
      (render_drain ao bo st fuel pos s).queue._size = 0 ∧
      ∀ extra : Nat, render_drain ao bo st (fuel + extra) pos s
        = render_drain ao bo st fuel pos s := by
  induction fuel with
  | zero => intro pos s _ h; exact absurd h (Nat.not_lt_zero _)
  | succ n ih =>
    intro pos s hd hm
    by_cases hp : (s.queue.pop pos).1 = true
    · have hv := render_visit_measure s hd pos hp ao bo st
      obtain ⟨i1, i2⟩ := ih (s.queue.pop pos).2.1 _ hv.1 (by omega)
      constructor
      · rw [render_drain, if_pos hp]
        exact i1
      · intro extra
        have e : n + 1 + extra = (n + extra) + 1 := by omega
        rw [e, render_drain, render_drain, if_pos hp, if_pos hp]
        exact i2 extra
    · have hp2 : (s.queue.pop pos).1 = false := by
        cases hb : (s.queue.pop pos).1
        · rfl
        · exact absurd hb hp
      constructor
      · rw [render_drain, if_neg hp, (with_queue_buff s _).2,
          ((pop_size s.queue pos).2 hp2).1]
        exact ((pop_size s.queue pos).2 hp2).2
      · intro extra
        have e : n + 1 + extra = (n + extra) + 1 := by omega
        rw [e, render_drain, render_drain, if_neg hp, if_neg hp]

theorem push_task_size (s : TinyMandelbrot) (pos : pos_t) (force : Bool)
    (h : s.queue._size ≤ s.queue.CAPACITY) :
    (s.push_task pos force).queue._size ≤ (s.push_task pos force).queue.CAPACITY :=
  push_task_elim (fun t => t.queue._size ≤ t.queue.CAPACITY) s pos force h
    (fun _ _ => (push_size_le s.queue pos).2 h)

theorem render_seeded_size (s : TinyMandelbrot) (h : s.queue._size ≤ s.queue.CAPACITY) :
    s.render_seeded.queue._size ≤ s.render_seeded.queue.CAPACITY := by
  unfold render_seeded
  exact push_task_rect_ind (fun t => t.queue._size ≤ t.queue.CAPACITY) _ true
    (fun t pos ht => push_task_size t pos true ht) _
    (push_task_rect_ind (fun t => t.queue._size ≤ t.queue.CAPACITY) _ false
      (fun t pos ht => push_task_size t pos false ht) _ h)

theorem render_seeded_dims (s : TinyMandelbrot) (hd : GridDims s) : GridDims s.render_seeded := by
  unfold render_seeded
  exact gridDims_of_sameView (sameView_trans (push_task_rect_sameView _ _ _)
    (push_task_rect_sameView _ _ _)) hd

/-- C23 (`render` terminates): for every state with the configured grid and a
queue that holds no more entries than its capacity, whatever the grid content,
the stable rectangle and the viewport, the drain loop ends by a failing `pop`
within `W * H + CAPACITY + 1` tests of its condition (running it for more
tests gives the same state, and the queue is empty then); each iteration makes
the number of zero cells plus the queue size strictly smaller, and no unforced
`push_task` makes it larger. -/
theorem C23_render_terminates (s : TinyMandelbrot) (hd : GridDims s)
    (hq : s.queue._size ≤ s.queue.CAPACITY) :
    s.render_drained.queue.empty = true ∧
    (∀ extra : Nat,
      render_drain (wrap32 (s.a_round - wrap32 (s.pixel_size * (W / 2))))
        (wrap32 (s.b_round - wrap32 (s.pixel_size * (H / 2)))) s.pixel_size
        (s.render_seeded.render_fuel + extra) (pos_t.new 0 0) s.render_seeded
        = s.render_drained) ∧
    (∀ (t : TinyMandelbrot) (slot : pos_t) (ao bo st : Int), GridDims t →
      (t.queue.pop slot).1 = true →
      (render_visit { t with queue := (t.queue.pop slot).2.2 } ao bo st
        (t.queue.pop slot).2.1).drain_measure < t.drain_measure) ∧
    (∀ (t : TinyMandelbrot) (pos : pos_t), GridDims t →
      (t.push_task pos false).drain_measure ≤ t.drain_measure) := by
  have hm : s.render_seeded.drain_measure < s.render_seeded.render_fuel := by
    unfold drain_measure render_fuel
    have h1 := zero_cells_le s.render_seeded
    have h2 := render_seeded_size s hq
    have e : (W * H).toNat = 57600 := rfl
    rw [e]
    omega
  obtain ⟨t1, t2⟩ := render_drain_terminates
    (wrap32 (s.a_round - wrap32 (s.pixel_size * (W / 2))))
    (wrap32 (s.b_round - wrap32 (s.pixel_size * (H / 2)))) s.pixel_size
    s.render_seeded.render_fuel (pos_t.new 0 0) s.render_seeded (render_seeded_dims s hd) hm
  refine ⟨?_, ?_, ?_, ?_⟩
  · rw [render_drained_eq, ArrayQueue.empty_iff]
    exact t1
  · intro extra
    rw [render_drained_eq]
    exact t2 extra
  · intro t slot ao bo st ht hp
    exact Nat.lt_of_succ_le (render_visit_measure t ht slot hp ao bo st).2
  · intro t pos ht
    exact push_task_measure t ht pos

/-- C23 witness: the freshly constructed engine, whose queue is empty. -/
theorem C23_render_terminates_witness :
    (GridDims (TinyMandelbrot.new (fun _ => 0) (fun _ => ⟨0, 0⟩)) ∧
      (TinyMandelbrot.new (fun _ => 0) (fun _ => ⟨0, 0⟩)).queue._size
        ≤ (TinyMandelbrot.new (fun _ => 0) (fun _ => ⟨0, 0⟩)).queue.CAPACITY) ∧
    (TinyMandelbrot.new (fun _ => 0) (fun _ => ⟨0, 0⟩)).render_drained.queue.empty = true :=
  ⟨⟨(new_inv _ _).1, by decide⟩,
    (C23_render_terminates _ (new_inv _ _).1 (by decide)).1⟩

open tinymandelbrot
open tinymandelbrot.TinyMandelbrot

/-! ## Theorems: pans at zoom 0 -/

/-- At zoom 0 a pixel is `131072` units wide; a position that is a whole number
of pixels within `[-256, 256]` is its own clamped, quantized value. -/
theorem clamp_pos_zoom0 (s : TinyMandelbrot) (hz : s._zoom = 0) (A : Int)
    (hA : -256 ≤ A ∧ A ≤ 256) : s.clamp_pos (131072 * A) = 131072 * A := by
  rw [(pixel_at_zoom0 s hz).2.2]
  have e1 : (131072 * A) % 131072 = 0 := Int.mul_emod_right 131072 A
  rw [e1, sub_zero, wrap32_of_range (by omega) (by omega)]
  unfold limit
  rw [if_neg (by omega), if_neg (by omega)]

theorem pixel_zoom0 (s : TinyMandelbrot) (hz : s._zoom = 0) (A B : Int)
    (hA : -256 ≤ A ∧ A ≤ 256) (hB : -256 ≤ B ∧ B ≤ 256)
    (ha : s._a = 131072 * A) (hb : s._b = 131072 * B) : s.a_pixel = A ∧ s.b_pixel = B := by
  have h := pixel_at_zoom0 s hz
  rw [ha] at h
  rw [hb] at h
  have e1 : (131072 * A) % 131072 = 0 := Int.mul_emod_right 131072 A
  have e2 : (131072 * B) % 131072 = 0 := Int.mul_emod_right 131072 B
  rw [e1, e2, sub_zero, sub_zero, wrap32_of_range (by omega) (by omega),
    wrap32_of_range (by omega) (by omega)] at h
  rw [h.1, h.2.1]
  constructor
  · exact Int.mul_ediv_cancel_left A (by decide)
  · exact Int.mul_ediv_cancel_left B (by decide)

/-- The pixel delta between two states at zoom 0. -/
theorem delta_zoom0 (s t : TinyMandelbrot) (hz : s._zoom = 0) (hz1 : t._zoom = 0)
    (A B A1 B1 : Int) (hA : -256 ≤ A ∧ A ≤ 256) (hB : -256 ≤ B ∧ B ≤ 256)
    (hA1 : -256 ≤ A1 ∧ A1 ≤ 256) (hB1 : -256 ≤ B1 ∧ B1 ≤ 256)
    (ha : s._a = 131072 * A) (hb : s._b = 131072 * B)
    (ha1 : t._a = 131072 * A1) (hb1 : t._b = 131072 * B1) :
    wrap32 (t.a_pixel - s.a_pixel) = A1 - A ∧ wrap32 (t.b_pixel - s.b_pixel) = B1 - B := by
  have w1 : wrap32 (A1 - A) = A1 - A := wrap32_of_range (by omega) (by omega)
  have w2 : wrap32 (B1 - B) = B1 - B := wrap32_of_range (by omega) (by omega)
  have p0 := pixel_zoom0 s hz A B hA hB ha hb
  have p1 := pixel_zoom0 t hz1 A1 B1 hA1 hB1 ha1 hb1
  rw [p1.1, p0.1, p1.2, p0.2]
  exact ⟨w1, w2⟩

/-- The state `t` after `set_pos(a1, b1)` at zoom 0 from the pixel position
`(A, B)` to another pixel position `(A1, B1)`. -/
theorem pan_zoom0 (s t : TinyMandelbrot) (a1 b1 : Int) (ht : t = s.set_pos a1 b1)
    (hd : GridDims s) (hz : s._zoom = 0) (A B A1 B1 : Int)
    (hA : -256 ≤ A ∧ A ≤ 256) (hB : -256 ≤ B ∧ B ≤ 256)
    (hA1 : -256 ≤ A1 ∧ A1 ≤ 256) (hB1 : -256 ≤ B1 ∧ B1 ≤ 256)
    (ha : s._a = 131072 * A) (hb : s._b = 131072 * B)
    (ha1 : a1 = 131072 * A1) (hb1 : b1 = 131072 * B1) (hmv : A1 ≠ A ∨ B1 ≠ B) :
    t._a = 131072 * A1 ∧ t._b = 131072 * B1 ∧ t._zoom = 0 ∧ GridDims t ∧ t.queue = s.queue ∧
    (s._stable_rect.empty = true → t.buff = s.buff ∧ t._stable_rect = s._stable_rect) ∧
    (s._stable_rect.empty = false → (-240 < A1 - A ∧ A1 - A < 240) →
      (-240 < B1 - B ∧ B1 - B < 240) →
      t._stable_rect = s._stable_rect.intersect (s._stable_rect.offset (-(A1 - A)) (-(B1 - B))) ∧
      ∀ x y : Int, 0 ≤ x ∧ x < 240 → 0 ≤ y ∧ y < 240 →
        t.buff.get ⟨x, y⟩
          = if (0 ≤ x + (A1 - A) ∧ x + (A1 - A) < 240) ∧ (0 ≤ y + (B1 - B) ∧ y + (B1 - B) < 240)
            then s.buff.get ⟨x + (A1 - A), y + (B1 - B)⟩ else 0) := by
  have ca : s.clamp_pos a1 = a1 := by
    rw [ha1]; exact clamp_pos_zoom0 s hz A1 hA1
  have cb : s.clamp_pos b1 = b1 := by
    rw [hb1]; exact clamp_pos_zoom0 s hz B1 hB1
  have ea : t._a = 131072 * A1 := by rw [ht, set_pos_a, ca, ha1]
  have eb : t._b = 131072 * B1 := by rw [ht, set_pos_b, cb, hb1]
  have ez : t._zoom = 0 := by rw [ht, set_pos_zoom, hz]
  have hnot : ¬ (s.clamp_pos a1 = s._a ∧ s.clamp_pos b1 = s._b) := by
    rw [ca, cb, ha, hb, ha1, hb1]
    intro h
    omega
  have hdt : GridDims t := by rw [ht]; exact set_pos_dims s _ _ hd
  have hq : t.queue = s.queue := by rw [ht]; exact set_pos_queue s _ _
  obtain ⟨ex, ey⟩ := delta_zoom0 s t hz ez A B A1 B1 hA hB hA1 hB1 ha hb ea eb
  refine ⟨ea, eb, ez, hdt, hq, ?_, ?_⟩
  · intro he
    rw [ht, set_pos_moved s _ _ hnot,
      fast_scroll_skip _ _ _ (by rw [(with_pos_fields s _ _).2.1]; exact he)]
    exact ⟨(with_pos_fields s _ _).1, (with_pos_fields s _ _).2.1⟩
  · intro hne hx hy
    have hdx : |A1 - A| < W := abs_lt.2 hx
    have hdy : |B1 - B| < H := abs_lt.2 hy
    rw [ht] at ex ey
    have e := set_pos_partial s _ _ hnot hne (by rw [ex]; exact hdx) (by rw [ey]; exact hdy)
    rw [ex, ey] at e
    rw [ht, e]
    constructor
    · rw [partial_update_stable, (with_pos_fields s _ _).2.1]
    · intro x y hx2 hy2
      rw [partial_update_get _ (gridDims_of_buff (with_pos_fields s _ _).1 hd) _ _ hx hy x y
        hx2 hy2, (with_pos_fields s _ _).1]

open tinymandelbrot
open tinymandelbrot.TinyMandelbrot

/-! ## Theorems: the queue and the cells during the seeding and the drain loop -/

/-- The queue after a push: the value is appended, or the queue is full and
unchanged. -/
theorem push_cases {T : Type} {k : Nat} (q : ArrayQueue T) (hq : ArrayQueue.WF k q) (v : T) :
    (q._size < q.CAPACITY ∧ (q.push v).2.toList = q.toList ++ [v] ∧
      (q.push v).2._size = q._size + 1) ∨
    (q.CAPACITY ≤ q._size ∧ (q.push v).2 = q) := by
  by_cases h : q._size < q.CAPACITY
  · left
    refine ⟨h, ArrayQueue.push_toList hq v h, ?_⟩
    rw [ArrayQueue.push_ok q v h]
  · right
    refine ⟨by omega, ?_⟩
    rw [ArrayQueue.push_full q v (by omega)]

theorem push_task_wf (s : TinyMandelbrot) (pos : pos_t) (force : Bool)
    (h : ArrayQueue.WF 12 s.queue) : ArrayQueue.WF 12 (s.push_task pos force).queue :=
  push_task_elim (fun t => ArrayQueue.WF 12 t.queue) s pos force h
    (fun _ _ => ArrayQueue.push_wf h pos)

theorem push_task_queueInGrid (s : TinyMandelbrot) (pos : pos_t) (force : Bool)
    (hd : GridDims s) (hw : ArrayQueue.WF 12 s.queue) (h : QueueInGrid s) :
    QueueInGrid (s.push_task pos force) := by
  refine push_task_elim (fun t => QueueInGrid t) s pos force h ?_
  intro hb _
  unfold QueueInGrid
  rw [(with_push_fields s pos).2]
  rcases push_cases s.queue hw pos with c | c
  · rw [c.2.1]
    intro q hq
    rcases List.mem_append.1 hq with e | e
    · exact h q e
    · rw [List.mem_singleton.1 e]
      exact (bounds_240 s hd pos).1 hb
  · rw [c.2]
    exact h

theorem push_task_cellClass (s : TinyMandelbrot) (pos : pos_t) (force : Bool)
    (d0 : Int → Nat) (val : Int → Int → Nat) (h : CellClass d0 val s) :
    CellClass d0 val (s.push_task pos force) := by
  intro x y hx hy
  rcases push_task_data s pos force (y * 240 + x) with e | e
  · rw [e]; exact h x y hx hy
  · exact Or.inr (Or.inl e.1)

/-- In the grid the cell index determines the position. -/
theorem index_inj (x y x1 y1 : Int) (hx : 0 ≤ x ∧ x < 240) (hx1 : 0 ≤ x1 ∧ x1 < 240)
    (h : y * 240 + x = y1 * 240 + x1) : x = x1 ∧ y = y1 := by
  omega

/-- An unforced `push_task` keeps a non-zero cell and its queue entry. -/
theorem push_task_pending (s : TinyMandelbrot) (pos : pos_t) (x y : Int)
    (hw : ArrayQueue.WF 12 s.queue) (h0 : s.buff.data (y * 240 + x) ≠ 0)
    (h : PendingQueued x y s) : PendingQueued x y (s.push_task pos false) := by
  refine push_task_elim (fun t => PendingQueued x y t) s pos false h ?_
  intro _ hz
  unfold PendingQueued
  rw [(with_push_fields s pos).1, (with_push_fields s pos).2, Buffer2D.set_data]
  have hz0 : s.buff.get pos = 0 := by
    rcases hz with e | e
    · exact e
    · exact Bool.noConfusion e
  have hne : y * 240 + x ≠ pos.y * s.buff.STRIDE + pos.x := by
    intro e
    rw [Buffer2D.get_eq, ← e] at hz0
    exact h0 hz0
  rw [if_neg hne]
  intro h1
  rcases push_cases s.queue hw pos with c | c
  · rw [c.2.1]
    exact List.mem_append_left _ (h h1)
  · rw [c.2]
    exact h h1

/-- While the queue is not full, a `push_task`, forced or not, keeps every
pending cell of the grid queued. -/
theorem push_task_seed (s : TinyMandelbrot) (pos : pos_t) (force : Bool) (x y : Int)
    (hx : 0 ≤ x ∧ x < 240) (hd : GridDims s)
    (hw : ArrayQueue.WF 12 s.queue) (hs : s.queue._size < 4096)
    (h : PendingQueued x y s) : PendingQueued x y (s.push_task pos force) := by
  refine push_task_elim (fun t => PendingQueued x y t) s pos force h ?_
  intro hb _
  have hin := (bounds_240 s hd pos).1 hb
  unfold PendingQueued
  rw [(with_push_fields s pos).1, (with_push_fields s pos).2, Buffer2D.set_data, hd.2.2, W_eq]
  have hc : s.queue.CAPACITY = 4096 := hw.cap
  rcases push_cases s.queue hw pos with c | c
  · rw [c.2.1]
    by_cases e : y * 240 + x = pos.y * 240 + pos.x
    · intro _
      have := index_inj x y pos.x pos.y hx hin.1 e
      apply List.mem_append_right
      rw [List.mem_singleton]
      cases pos
      simp only [pos_t.mk.injEq]
      exact this
    · rw [if_neg e]
      intro h1
      exact List.mem_append_left _ (h h1)
  · omega

theorem push_task_size_le (s : TinyMandelbrot) (pos : pos_t) (force : Bool) :
    (s.push_task pos force).queue._size ≤ s.queue._size + 1 :=
  push_task_elim (fun t => t.queue._size ≤ s.queue._size + 1) s pos force (Nat.le_succ _)
    (fun _ _ => (push_size_le s.queue pos).1)

/-- A sequence of `push_task` calls keeps the queue well formed and its
entries inside the grid, and adds at most one entry per call. -/
theorem push_tasks_queue (force : Bool) (l : List pos_t) :
    ∀ s : TinyMandelbrot, GridDims s → ArrayQueue.WF 12 s.queue → QueueInGrid s →
      ArrayQueue.WF 12 (push_tasks s force l).queue ∧ QueueInGrid (push_tasks s force l) ∧
      (push_tasks s force l).queue._size ≤ s.queue._size + l.length := by
  induction l with
  | nil => intro s _ hw hq; exact ⟨hw, hq, Nat.le_refl _⟩
  | cons p l ih =>
    intro s hd hw hq
    rw [push_tasks_cons]
    have hl : (p :: l).length = l.length + 1 := rfl
    rw [hl]
    have h1 := push_task_size_le s p force
    obtain ⟨i1, i2, i3⟩ := ih (s.push_task p force) (push_task_dims s p force hd)
      (push_task_wf s p force hw) (push_task_queueInGrid s p force hd hw hq)
    exact ⟨i1, i2, by omega⟩

/-- A sequence of `push_task` calls that cannot fill the queue keeps every
pending cell queued. -/
theorem push_tasks_seed (force : Bool) (x y : Int) (hx : 0 ≤ x ∧ x < 240) (l : List pos_t) :
    ∀ s : TinyMandelbrot, GridDims s → ArrayQueue.WF 12 s.queue →
      s.queue._size + l.length ≤ 4096 → PendingQueued x y s →
      PendingQueued x y (push_tasks s force l) := by
  induction l with
  | nil => intro s _ _ _ hp; exact hp
  | cons p l ih =>
    intro s hd hw hs hp
    rw [push_tasks_cons]
    have hl : (p :: l).length = l.length + 1 := rfl
    rw [hl] at hs
    have h1 := push_task_size_le s p force
    exact ih (s.push_task p force) (push_task_dims s p force hd)
      (push_task_wf s p force hw) (by omega)
      (push_task_seed s p force x y hx hd hw (by omega) hp)

theorem rect_x_tasks_length (rect : rect_t) (n : Nat) :
    ∀ x : Int, (rect_x_tasks rect n x).length ≤ 2 * n := by
  induction n with
  | zero => intro x; exact Nat.le_refl _
  | succ n ih =>
    intro x
    rw [rect_x_tasks, List.length_append]
    have := ih (x + 1)
    split
    · show 2 + _ ≤ _; omega
    · show 1 + _ ≤ _; omega

theorem rect_y_tasks_length (rect : rect_t) (n : Nat) :
    ∀ y : Int, (rect_y_tasks rect n y).length ≤ 2 * n := by
  induction n with
  | zero => intro y; exact Nat.le_refl _
  | succ n ih =>
    intro y
    rw [rect_y_tasks, List.length_append]
    have := ih (y + 1)
    split
    · show 2 + _ ≤ _; omega
    · show 1 + _ ≤ _; omega

/-- A rectangle of non-negative size inside the grid takes at most 956 calls
of `push_task`. -/
theorem rect_tasks_length (rect : rect_t)
    (h : 0 ≤ rect.w ∧ 0 ≤ rect.h ∧ 0 ≤ rect.x ∧ 0 ≤ rect.y ∧ rect.x + rect.w ≤ 240 ∧
      rect.y + rect.h ≤ 240) : (rect_tasks rect).length ≤ 956 := by
  unfold rect_tasks
  rw [List.length_append]
  have h1 := rect_x_tasks_length rect (rect.r - rect.x).toNat rect.x
  have h2 := rect_y_tasks_length rect ((rect.b - 1) - (rect.y + 1)).toNat (rect.y + 1)
  have er : rect.r = rect.x + rect.w := wrap16_of_range (by omega) (by omega)
  have eb : rect.b = rect.y + rect.h := wrap16_of_range (by omega) (by omega)
  generalize (rect_x_tasks rect (rect.r - rect.x).toNat rect.x).length = l1 at h1 ⊢
  generalize (rect_y_tasks rect ((rect.b - 1) - (rect.y + 1)).toNat (rect.y + 1)).length
    = l2 at h2 ⊢
  rw [er] at h1
  rw [eb] at h2
  omega

theorem render_compute_queue (s : TinyMandelbrot) (ao bo st : Int) (pos : pos_t) :
    (s.render_compute ao bo st pos).queue = s.queue := by
  unfold render_compute
  split
  · rfl
  · rfl

theorem render_val_eq (s : TinyMandelbrot) (ao bo st : Int) (pos : pos_t)
    (h : s.buff.get pos < 2) : s.render_val ao bo st pos = cell_value ao bo st pos.x pos.y := by
  unfold render_val cell_value
  rw [if_pos h]

/-- The popped cell holds a computed value after the computation. -/
theorem render_compute_done (s : TinyMandelbrot) (hd : GridDims s) (ao bo st : Int)
    (pos : pos_t) : 2 ≤ (s.render_compute ao bo st pos).buff.data (pos.y * 240 + pos.x) := by
  unfold render_compute
  split
  · rename_i h
    show 2 ≤ (s.buff.set pos _).data (pos.y * 240 + pos.x)
    rw [Buffer2D.set_data, hd.2.2, W_eq, if_pos rfl]
    exact (render_val_range s ao bo st pos h).1
  · rename_i h
    rw [Buffer2D.get_eq, hd.2.2, W_eq] at h
    omega

/-- The state after a successful `pop`: the queue is well formed, its entries
are inside the grid, and so is the popped position. -/
theorem pop_inv (s : TinyMandelbrot) (slot : pos_t) (hw : ArrayQueue.WF 12 s.queue)
    (hq : QueueInGrid s) (hp : (s.queue.pop slot).1 = true) :
    ArrayQueue.WF 12 (s.queue.pop slot).2.2 ∧
    s.queue.toList = (s.queue.pop slot).2.1 :: (s.queue.pop slot).2.2.toList ∧
    ((0 ≤ (s.queue.pop slot).2.1.x ∧ (s.queue.pop slot).2.1.x < 240) ∧
      (0 ≤ (s.queue.pop slot).2.1.y ∧ (s.queue.pop slot).2.1.y < 240)) ∧
    QueueInGrid { s with queue := (s.queue.pop slot).2.2 } := by
  have hs := (pop_size s.queue slot).1 hp
  have hl := ArrayQueue.pop_toList hw slot (by omega)
  refine ⟨ArrayQueue.pop_wf hw slot, hl, ?_, ?_⟩
  · apply hq
    rw [hl]
    exact List.mem_cons_self _ _
  · intro q hm
    apply hq
    rw [hl]
    exact List.mem_cons_of_mem _ hm

/-- The computation of a cell inside the grid keeps the classification of the
cells. -/
theorem render_compute_cellClass (s : TinyMandelbrot) (hd : GridDims s) (ao bo st : Int)
    (pos : pos_t) (hin : (0 ≤ pos.x ∧ pos.x < 240) ∧ (0 ≤ pos.y ∧ pos.y < 240))
    (d0 : Int → Nat) (h : CellClass d0 (cell_value ao bo st) s) :
    CellClass d0 (cell_value ao bo st) (s.render_compute ao bo st pos) := by
  intro x y hx hy
  rcases render_compute_data s ao bo st pos (y * 240 + x) with e | e
  · rw [e]; exact h x y hx hy
  · right; right
    obtain ⟨e1, e2, -, -, e5⟩ := e
    rw [hd.2.2, W_eq] at e5
    have hxy := index_inj x y pos.x pos.y hx hin.1 e5
    rw [e1, render_val_eq, hxy.1, hxy.2]
    rw [Buffer2D.get_eq, hd.2.2, W_eq, ← e5]
    exact e2

/-- The invariant of the drain loop: grid dimensions, a well-formed queue of
positions inside the grid, and cells that hold their value at the start of the
loop, the pending value or the computed value. -/
theorem render_drain_inv (ao bo st : Int) (d0 : Int → Nat) (fuel : Nat) (pos : pos_t)
    (s : TinyMandelbrot) (hd : GridDims s) (hw : ArrayQueue.WF 12 s.queue) (hq : QueueInGrid s)
    (hc : CellClass d0 (cell_value ao bo st) s) :
    GridDims (render_drain ao bo st fuel pos s) ∧
    ArrayQueue.WF 12 (render_drain ao bo st fuel pos s).queue ∧
    QueueInGrid (render_drain ao bo st fuel pos s) ∧
    CellClass d0 (cell_value ao bo st) (render_drain ao bo st fuel pos s) := by
  refine render_drain_ind
    (fun t => GridDims t ∧ ArrayQueue.WF 12 t.queue ∧ QueueInGrid t ∧
      CellClass d0 (cell_value ao bo st) t) ao bo st ?_ ?_ ?_ fuel pos s ⟨hd, hw, hq, hc⟩
  · intro t p ht
    exact ⟨push_task_dims t p false ht.1, push_task_wf t p false ht.2.1,
      push_task_queueInGrid t p false ht.1 ht.2.1 ht.2.2.1,
      push_task_cellClass t p false _ _ ht.2.2.2⟩
  · intro t slot ht hp
    obtain ⟨p1, -, p3, p4⟩ := pop_inv t slot ht.2.1 ht.2.2.1 hp
    have hdq := with_queue_dims t (t.queue.pop slot).2.2 ht.1
    refine ⟨render_compute_dims _ _ _ _ _ hdq, ?_, ?_, ?_⟩
    · rw [render_compute_queue, (with_queue_buff t _).2]
      exact p1
    · unfold QueueInGrid
      rw [render_compute_queue]
      exact p4
    · apply render_compute_cellClass _ hdq _ _ _ _ p3
      intro x y hx hy
      rw [(with_queue_buff t _).1]
      exact ht.2.2.2 x y hx hy
  · intro t slot ht hp
    have e := ((pop_size t.queue slot).2 hp).1
    refine ⟨with_queue_dims t _ ht.1, ?_, ?_, ?_⟩
    · rw [(with_queue_buff t _).2, e]
      exact ht.2.1
    · unfold QueueInGrid
      rw [(with_queue_buff t _).2, e]
      exact ht.2.2.1
    · intro x y hx hy
      rw [(with_queue_buff t _).1]
      exact ht.2.2.2 x y hx hy

/-- A non-zero cell that is queued while it is pending stays so to the end of
the drain loop. -/
theorem render_drain_pending (ao bo st : Int) (x y : Int) (hx : 0 ≤ x ∧ x < 240)
    (fuel : Nat) (pos : pos_t)
    (s : TinyMandelbrot) (hd : GridDims s) (hw : ArrayQueue.WF 12 s.queue) (hq : QueueInGrid s)
    (h0 : s.buff.data (y * 240 + x) ≠ 0) (hp : PendingQueued x y s) :
    PendingQueued x y (render_drain ao bo st fuel pos s) := by
  refine (render_drain_ind
    (fun t => (GridDims t ∧ ArrayQueue.WF 12 t.queue ∧ QueueInGrid t) ∧
      t.buff.data (y * 240 + x) ≠ 0 ∧ PendingQueued x y t) ao bo st ?_ ?_ ?_ fuel pos s
        ⟨⟨hd, hw, hq⟩, h0, hp⟩).2.2
  · intro t p ht
    exact ⟨⟨push_task_dims t p false ht.1.1, push_task_wf t p false ht.1.2.1,
      push_task_queueInGrid t p false ht.1.1 ht.1.2.1 ht.1.2.2⟩,
      push_task_nonzero t p false _ ht.2.1, push_task_pending t p x y ht.1.2.1 ht.2.1 ht.2.2⟩
  · intro t slot ht hpop
    obtain ⟨p1, p2, p3, p4⟩ := pop_inv t slot ht.1.2.1 ht.1.2.2 hpop
    have hdq := with_queue_dims t (t.queue.pop slot).2.2 ht.1.1
    refine ⟨⟨render_compute_dims _ _ _ _ _ hdq, ?_, ?_⟩, ?_, ?_⟩
    · rw [render_compute_queue, (with_queue_buff t _).2]
      exact p1
    · unfold QueueInGrid
      rw [render_compute_queue]
      exact p4
    · apply render_compute_nonzero
      rw [(with_queue_buff t _).1]
      exact ht.2.1
    · unfold PendingQueued
      rw [render_compute_queue, (with_queue_buff t _).2]
      intro h1
      by_cases hh : (t.queue.pop slot).2.1 = ⟨x, y⟩
      · exfalso
        have h2 := render_compute_done { t with queue := (t.queue.pop slot).2.2 } hdq ao bo st
          (t.queue.pop slot).2.1
        rw [hh] at h2
        rw [hh] at h1
        dsimp only at h2
        rw [h1] at h2
        exact absurd h2 (by decide)
      · rcases render_compute_data { t with queue := (t.queue.pop slot).2.2 } ao bo st
          (t.queue.pop slot).2.1 (y * 240 + x) with e | e
        · rw [e, (with_queue_buff t _).1] at h1
          have hm := ht.2.2 h1
          rw [p2] at hm
          rcases List.mem_cons.1 hm with e2 | e2
          · exact absurd e2.symm hh
          · exact e2
        · exfalso
          obtain ⟨-, -, -, -, e5⟩ := e
          rw [hdq.2.2, W_eq] at e5
          have hxy := index_inj x y _ _ hx p3.1 e5
          apply hh
          generalize (t.queue.pop slot).2.1 = hd1 at hxy
          cases hd1
          simp only [pos_t.mk.injEq]
          exact ⟨hxy.1.symm, hxy.2.symm⟩
  · intro t slot ht hpop
    have e := ((pop_size t.queue slot).2 hpop).1
    refine ⟨⟨with_queue_dims t _ ht.1.1, ?_, ?_⟩, ?_, ?_⟩
    · rw [(with_queue_buff t _).2, e]
      exact ht.1.2.1
    · unfold QueueInGrid
      rw [(with_queue_buff t _).2, e]
      exact ht.1.2.2
    · rw [(with_queue_buff t _).1]
      exact ht.2.1
    · unfold PendingQueued
      rw [(with_queue_buff t _).1, (with_queue_buff t _).2, e]
      exact ht.2.2

/-! ## Theorems: what `render` computes -/

theorem toList_of_size_zero {T : Type} (q : ArrayQueue T) (h : q._size = 0) : q.toList = [] := by
  unfold ArrayQueue.toList
  rw [h]
  rfl

theorem push_tasks_cellClass (force : Bool) (l : List pos_t) (d0 : Int → Nat)
    (val : Int → Int → Nat) (s : TinyMandelbrot) (h : CellClass d0 val s) :
    CellClass d0 val (push_tasks s force l) :=
  push_tasks_ind (fun t => CellClass d0 val t) force
    (fun t pos ht => push_task_cellClass t pos force d0 val ht) l s h

theorem push_tasks_dims (force : Bool) (l : List pos_t) (s : TinyMandelbrot) (h : GridDims s) :
    GridDims (push_tasks s force l) :=
  push_tasks_ind (fun t => GridDims t) force (fun t pos ht => push_task_dims t pos force ht) l s h

/-- The state when the drain loop starts, from a state with an empty queue:
the queue is well formed and holds at most 1912 positions, all inside the
grid; every cell holds its value on entry or the pending value; a cell that
was not pending on entry is queued when it is pending. -/
theorem render_seeded_inv (s : TinyMandelbrot) (hd : GridDims s) (hs : StableInside s)
    (hw : ArrayQueue.WF 12 s.queue) (h0 : s.queue._size = 0) (val : Int → Int → Nat) :
    GridDims s.render_seeded ∧ ArrayQueue.WF 12 s.render_seeded.queue ∧
    QueueInGrid s.render_seeded ∧ CellClass s.buff.data val s.render_seeded ∧
    ∀ x y : Int, 0 ≤ x ∧ x < 240 → s.buff.data (y * 240 + x) ≠ 1 →
      PendingQueued x y s.render_seeded := by
  have hq : QueueInGrid s := by
    intro q hm
    rw [toList_of_size_zero s.queue h0] at hm
    exact absurd hm (List.not_mem_nil q)
  have hc : CellClass s.buff.data val s := fun x y _ _ => Or.inl rfl
  have eb : s.buff.bounds = ⟨0, 0, 240, 240⟩ := bounds_of_dims s hd
  have l1 : (rect_tasks s.buff.bounds).length ≤ 956 := by
    rw [eb]
    exact rect_tasks_length _ (by decide)
  have l2 : (rect_tasks s._stable_rect).length ≤ 956 := by
    apply rect_tasks_length
    unfold StableInside at hs
    rw [W_eq, H_eq] at hs
    exact hs
  unfold render_seeded
  rw [push_task_rect_eq, push_task_rect_eq]
  have d1 := push_tasks_dims false (rect_tasks s.buff.bounds) s hd
  obtain ⟨a1, a2, a3⟩ := push_tasks_queue false (rect_tasks s.buff.bounds) s hd hw hq
  obtain ⟨b1, b2, -⟩ := push_tasks_queue true (rect_tasks s._stable_rect) _ d1 a1 a2
  refine ⟨push_tasks_dims true _ _ d1, b1, b2, ?_, ?_⟩
  · exact push_tasks_cellClass true _ _ _ _ (push_tasks_cellClass false _ _ _ _ hc)
  · intro x y hx h1
    apply push_tasks_seed true x y hx _ _ d1 a1 (by omega)
    apply push_tasks_seed false x y hx _ _ hd hw (by omega)
    intro h
    exact absurd h h1

/-- The value `render` computes for a cell is the value of the raster scan. -/
theorem cell_value_eq (s : TinyMandelbrot) (x y : Int) :
    cell_value (wrap32 (s.a_round - wrap32 (s.pixel_size * (W / 2))))
      (wrap32 (s.b_round - wrap32 (s.pixel_size * (H / 2)))) s.pixel_size x y
      = s.raster_value x y := rfl

/-- The store when the drain loop has ended, from a state with an empty
queue: the queue is empty again; every cell holds its value on entry, the
pending value or the value of the raster scan; and a cell that was not pending
on entry and is not `0` when the loop starts is not pending. -/
theorem render_drained_inv (s : TinyMandelbrot) (hd : GridDims s) (hs : StableInside s)
    (hw : ArrayQueue.WF 12 s.queue) (h0 : s.queue._size = 0) :
    ArrayQueue.WF 12 s.render_drained.queue ∧ s.render_drained.queue._size = 0 ∧
    CellClass s.buff.data s.raster_value s.render_drained ∧
    ∀ x y : Int, 0 ≤ x ∧ x < 240 → s.buff.data (y * 240 + x) ≠ 1 →
      s.render_seeded.buff.data (y * 240 + x) ≠ 0 →
      s.render_drained.buff.data (y * 240 + x) ≠ 1 := by
  obtain ⟨i1, i2, i3, i4, i5⟩ := render_seeded_inv s hd hs hw h0
    (cell_value (wrap32 (s.a_round - wrap32 (s.pixel_size * (W / 2))))
      (wrap32 (s.b_round - wrap32 (s.pixel_size * (H / 2)))) s.pixel_size)
  have hq : s.render_seeded.queue._size ≤ s.render_seeded.queue.CAPACITY := by
    rw [i2.cap]; exact i2.sz
  have hm : s.render_seeded.drain_measure < s.render_seeded.render_fuel := by
    unfold drain_measure render_fuel
    have h1 := zero_cells_le s.render_seeded
    have e : (W * H).toNat = 57600 := rfl
    rw [e]
    omega
  have ht := (render_drain_terminates
    (wrap32 (s.a_round - wrap32 (s.pixel_size * (W / 2))))
    (wrap32 (s.b_round - wrap32 (s.pixel_size * (H / 2)))) s.pixel_size
    s.render_seeded.render_fuel (pos_t.new 0 0) s.render_seeded i1 hm).1
  obtain ⟨-, j2, -, j4⟩ := render_drain_inv
    (wrap32 (s.a_round - wrap32 (s.pixel_size * (W / 2))))
    (wrap32 (s.b_round - wrap32 (s.pixel_size * (H / 2)))) s.pixel_size s.buff.data
    s.render_seeded.render_fuel (pos_t.new 0 0) s.render_seeded i1 i2 i3 i4
  rw [← render_drained_eq] at ht j2 j4
  refine ⟨j2, ht, j4, ?_⟩
  intro x y hx h1 hnz hone
  have hp := render_drain_pending
    (wrap32 (s.a_round - wrap32 (s.pixel_size * (W / 2))))
    (wrap32 (s.b_round - wrap32 (s.pixel_size * (H / 2)))) s.pixel_size x y hx
    s.render_seeded.render_fuel (pos_t.new 0 0) s.render_seeded i1 i2 i3 hnz (i5 x y hx h1)
  rw [← render_drained_eq] at hp
  have hm2 := hp hone
  rw [toList_of_size_zero _ ht] at hm2
  exact absurd hm2 (List.not_mem_nil _)

theorem render_queue_eq (s : TinyMandelbrot) : s.render.queue = s.render_drained.queue := by
  unfold render
  rw [(render_finish_fields _ _).2.2.2.1]

/-- After `render`, from a state with an empty queue, the queue is empty. -/
theorem render_queue (s : TinyMandelbrot) (hd : GridDims s) (hs : StableInside s)
    (hw : ArrayQueue.WF 12 s.queue) (h0 : s.queue._size = 0) :
    ArrayQueue.WF 12 s.render.queue ∧ s.render.queue._size = 0 := by
  rw [render_queue_eq]
  exact ⟨(render_drained_inv s hd hs hw h0).1, (render_drained_inv s hd hs hw h0).2.1⟩

theorem invalidate_buffer_queue (s : TinyMandelbrot) : s.invalidate_buffer.queue = s.queue := rfl

theorem set_zoom_queue (s : TinyMandelbrot) (z : Int) : (s.set_zoom z).2.queue = s.queue := by
  by_cases h : limit 0 MAX_ZOOM z = s._zoom
  · rw [set_zoom_same s z h]
  · rw [set_zoom_changed s z h]
    rfl

theorem scroll_eq (s : TinyMandelbrot) (da db : Int) :
    s.scroll da db = s.set_pos (wrap32 (s._a + wrap32 (s.pixel_size * da)))
      (wrap32 (s._b + wrap32 (s.pixel_size * db))) := rfl

/-- In every reachable state the queue is well formed and empty. -/
theorem reachable_queue {s : TinyMandelbrot} (hr : Reachable s) :
    ArrayQueue.WF 12 s.queue ∧ s.queue._size = 0 := by
  induction hr with
  | new mem qmem => exact ⟨ArrayQueue.fresh_wf 12 qmem, rfl⟩
  | set_pos a b _ _ _ ih => rw [set_pos_queue]; exact ih
  | scroll da db _ _ _ ih => rw [scroll_eq, set_pos_queue]; exact ih
  | set_zoom z _ _ ih => rw [set_zoom_queue]; exact ih
  | zoom_in _ ih => unfold TinyMandelbrot.zoom_in; rw [set_zoom_queue]; exact ih
  | zoom_out _ ih => unfold TinyMandelbrot.zoom_out; rw [set_zoom_queue]; exact ih
  | invalidate_buffer _ ih => rw [invalidate_buffer_queue]; exact ih
  | render hr ih =>
    exact render_queue _ (reachable_inv hr).1 (reachable_inv hr).2.1 ih.1 ih.2

/-- A cell on the border of the grid that is `0` on entry holds the value of
the raster scan after `render`. -/
theorem render_border_cell (s : TinyMandelbrot) (hd : GridDims s) (hs : StableInside s)
    (hw : ArrayQueue.WF 12 s.queue) (h0 : s.queue._size = 0) (x y : Int)
    (hx : 0 ≤ x ∧ x < 240) (hy : 0 ≤ y ∧ y < 240)
    (hb : x = 0 ∨ x = 239 ∨ y = 0 ∨ y = 239) (hz : s.buff.data (y * 240 + x) = 0) :
    s.render.buff.get ⟨x, y⟩ = s.raster_value x y := by
  obtain ⟨-, -, i3, i4⟩ := render_drained_inv s hd hs hw h0
  have n0 := drained_border_nonzero s hd x y hx hy hb
  have n1 := i4 x y hx (by rw [hz]; decide) (seeded_border_nonzero s hd x y hx hy hb)
  rw [render_cell s hd x y hx hy, if_neg n0]
  rcases i3 x y hx hy with e | e | e
  · rw [hz] at e; exact absurd e n0
  · exact absurd e n1
  · exact e

theorem two_le_of_ne (n : Nat) (h0 : n ≠ 0) (h1 : n ≠ 1) : 2 ≤ n := by omega

/-- The cells after `render`, from a state with an empty queue: a cell holds
the value of the raster scan, or the computed value (at least `2`) it held on
entry, or the pending value `1`, or it is not in column `0` and holds the value
of its left neighbour. -/
theorem render_cell_class (s : TinyMandelbrot) (hd : GridDims s) (hs : StableInside s)
    (hw : ArrayQueue.WF 12 s.queue) (h0 : s.queue._size = 0) (x y : Int)
    (hx : 0 ≤ x ∧ x < 240) (hy : 0 ≤ y ∧ y < 240) :
    s.render.buff.get ⟨x, y⟩ = s.raster_value x y ∨
    (2 ≤ s.buff.get ⟨x, y⟩ ∧ s.render.buff.get ⟨x, y⟩ = s.buff.get ⟨x, y⟩) ∨
    s.render.buff.get ⟨x, y⟩ = 1 ∨
    (0 < x ∧ s.render.buff.get ⟨x, y⟩ = s.render.buff.get ⟨x - 1, y⟩) := by
  obtain ⟨-, -, i3, -⟩ := render_drained_inv s hd hs hw h0
  have hc := i3 x y hx hy
  have c0 := drained_border_nonzero s hd 0 y (by decide) hy (Or.inl rfl)
  rw [get_240 s hd, render_cell s hd x y hx hy]
  by_cases hz : s.render_drained.buff.data (y * 240 + x) = 0
  · right; right; right
    have hx0 : 0 < x := by
      by_contra h
      have e : x = 0 := le_antisymm (not_lt.1 h) hx.1
      rw [e] at hz
      exact c0 hz
    refine ⟨hx0, ?_⟩
    rw [if_pos hz, render_cell s hd (x - 1) y (by omega) hy]
    have e1 : (y * 240 + x).toNat = (y * 240 + (x - 1)).toNat + 1 := by omega
    have e2 : (0 : Int) + ((y * 240 + (x - 1)).toNat : Int) = y * 240 + (x - 1) := by omega
    rw [e1, last_seen, e2]
  · rw [if_neg hz]
    rcases hc with e | e | e
    · by_cases h1 : s.buff.data (y * 240 + x) = 1
      · right; right; left
        rw [e]; exact h1
      · right; left
        rw [e] at hz
        exact ⟨two_le_of_ne _ hz h1, e⟩
    · right; right; left
      exact e
    · left
      exact e

theorem push_task_other (s : TinyMandelbrot) (hd : GridDims s) (pos : pos_t) (force : Bool)
    (x y : Int) (hx : 0 ≤ x ∧ x < 240) (hne : pos ≠ ⟨x, y⟩) :
    (s.push_task pos force).buff.data (y * 240 + x) = s.buff.data (y * 240 + x) := by
  rcases push_task_data s pos force (y * 240 + x) with e | e
  · exact e
  · exfalso
    obtain ⟨-, -, e3, e4⟩ := e
    rw [hd.2.2, W_eq] at e3
    have hin := (bounds_240 s hd pos).1 e4
    have hxy := index_inj x y pos.x pos.y hx hin.1 e3
    apply hne
    cases pos
    simp only [pos_t.mk.injEq]
    exact ⟨hxy.1.symm, hxy.2.symm⟩

open tinymandelbrot
open tinymandelbrot.TinyMandelbrot

/-! ## Theorems: cached cells that outlive their viewport -/

theorem new_data (mem : Int → Nat) (qmem : Nat → pos_t) (x y : Int)
    (hx : 0 ≤ x ∧ x < 240) (hy : 0 ≤ y ∧ y < 240) :
    (TinyMandelbrot.new mem qmem).buff.data (y * 240 + x) = 0 := by
  rw [← get_240 _ (new_inv mem qmem).1, (new_fields mem qmem).1]
  exact fillAll_get (Buffer2D.new W H mem) 0 (by show (0 : Int) ≤ wrap16 W ∧ wrap16 W < 32768; decide)
    (by show (0 : Int) ≤ wrap16 H ∧ wrap16 H < 32768; decide)
    (by show wrap16 W ≤ wrap16 W; exact le_refl _) x y
    (by show 0 ≤ x ∧ x < wrap16 W; exact hx) (by show 0 ≤ y ∧ y < wrap16 H; exact hy)

theorem raster_value_range (s : TinyMandelbrot) (x y : Int) :
    2 ≤ s.raster_value x y ∧ s.raster_value x y ≤ 130 := by
  unfold raster_value
  have := mandelbrot_func_range (s.plane_a x) (s.plane_b y)
  omega

/-- At zoom 0 the value of the raster scan for cell `(x, y)`, from the pixel
position `(A, B)` of the viewport. -/
theorem raster_zoom0 (s : TinyMandelbrot) (hz : s._zoom = 0) (A B : Int)
    (hA : -256 ≤ A ∧ A ≤ 256) (hB : -256 ≤ B ∧ B ≤ 256)
    (ha : s._a = 131072 * A) (hb : s._b = 131072 * B) (x y : Int)
    (hx : 0 ≤ x ∧ x < 240) (hy : 0 ≤ y ∧ y < 240) :
    s.raster_value x y
      = (2 + mandelbrot_func (131072 * (A - 120 + x)) (131072 * (B - 120 + y))) % 256 := by
  have e1 : (131072 * A) % 131072 = 0 := Int.mul_emod_right 131072 A
  have e2 : (131072 * B) % 131072 = 0 := Int.mul_emod_right 131072 B
  have e3 : (2 : Int) ^ 17 = 131072 := by norm_num
  have w1 : wrap32 (131072 * A) = 131072 * A := wrap32_of_range (by omega) (by omega)
  have w2 : wrap32 (131072 * B) = 131072 * B := wrap32_of_range (by omega) (by omega)
  have w3 : wrap32 (131072 * 120) = 131072 * 120 := by decide
  have w4 : wrap32 (131072 * A - 131072 * 120) = 131072 * A - 131072 * 120 :=
    wrap32_of_range (by omega) (by omega)
  have w5 : wrap32 (131072 * B - 131072 * 120) = 131072 * B - 131072 * 120 :=
    wrap32_of_range (by omega) (by omega)
  have w6 : wrap32 (131072 * x) = 131072 * x := wrap32_of_range (by omega) (by omega)
  have w7 : wrap32 (131072 * y) = 131072 * y := wrap32_of_range (by omega) (by omega)
  have w8 : wrap32 (131072 * A - 131072 * 120 + 131072 * x) = 131072 * (A - 120 + x) := by
    rw [wrap32_of_range (by omega) (by omega)]; ring
  have w9 : wrap32 (131072 * B - 131072 * 120 + 131072 * y) = 131072 * (B - 120 + y) := by
    rw [wrap32_of_range (by omega) (by omega)]; ring
  have hl : s.pixel_lsb_pos = ((17 : Nat) : Int) := by
    unfold pixel_lsb_pos; rw [hz]; rfl
  have h := view_eq s 17 (by decide) hl (by rw [hz]; rfl)
  unfold raster_value
  rw [h.2.2.2.2.1 x, h.2.2.2.2.2 y, ha, hb, e3, e1, e2, sub_zero, sub_zero, w1, w2, w3, w4, w5, w6,
    w7, w8, w9]

set_option maxRecDepth 100000 in
/-- The kernel at the plane point of cell `(1, 0)` of the default viewport. -/
theorem mandelbrot_sample_first : mandelbrot_func (-23986176) (-15728640) = 4 := by decide

/-- The state after `render`, from a state at zoom 0 with an empty queue. -/
theorem rendered_zoom0 (s0 s1 : TinyMandelbrot) (h1 : s1 = s0.render) (hd : GridDims s0)
    (hs : StableInside s0) (hw : ArrayQueue.WF 12 s0.queue) (hq : s0.queue._size = 0) :
    GridDims s1 ∧ s1._a = s0._a ∧ s1._b = s0._b ∧ s1._zoom = s0._zoom ∧
    s1._stable_rect = ⟨0, 0, 240, 240⟩ ∧ ArrayQueue.WF 12 s1.queue ∧ s1.queue._size = 0 := by
  have hd1 : GridDims s1 := by rw [h1]; exact render_dims s0 hd
  have hv := render_view s0
  have hst : s1._stable_rect = ⟨0, 0, 240, 240⟩ := by
    have e : s1.buff.bounds = ⟨0, 0, 240, 240⟩ := bounds_of_dims s1 hd1
    rw [← e, h1]
    exact render_stable_rect s0
  have hqr := render_queue s0 hd hs hw hq
  rw [← h1] at hv hqr
  exact ⟨hd1, hv.1, hv.2.1, hv.2.2, hst, hqr.1, hqr.2⟩

/-- From a rendered grid at zoom 0, two pans of `-239` and `+2` rows leave an
empty stable rectangle and, in row `237`, the values row `0` held; a third
`set_pos`, however far, changes neither. -/
theorem stale_row_chain (s1 s2 s3 s4 : TinyMandelbrot) (a2 b2 a3 b3 a4 b4 : Int)
    (hd : GridDims s1) (hz : s1._zoom = 0) (ha : s1._a = 131072 * (-64))
    (hb : s1._b = 131072 * 0) (hst : s1._stable_rect = ⟨0, 0, 240, 240⟩)
    (h2 : s2 = s1.set_pos a2 b2) (h3 : s3 = s2.set_pos a3 b3) (h4 : s4 = s3.set_pos a4 b4)
    (ea2 : a2 = 131072 * (-64)) (eb2 : b2 = 131072 * (-239))
    (ea3 : a3 = 131072 * (-64)) (eb3 : b3 = 131072 * (-237))
    (ea4 : a4 = 131072 * 256) (eb4 : b4 = 131072 * (-237)) :
    s3._stable_rect = ⟨0, 239, 0, 0⟩ ∧ wrap32 (s4.a_pixel - s3.a_pixel) = 320 ∧
    GridDims s4 ∧ s4._zoom = 0 ∧ s4._a = 131072 * 256 ∧ s4._b = 131072 * (-237) ∧
    s4._stable_rect = ⟨0, 239, 0, 0⟩ ∧ s4.queue = s1.queue ∧
    s4.buff.get ⟨1, 237⟩ = s1.buff.get ⟨1, 0⟩ := by
  have n1 : ((-64 : Int) - -64) = 0 := by decide
  have n2 : ((-239 : Int) - 0) = -239 := by decide
  have n3 : ((-237 : Int) - -239) = 2 := by decide
  have n4 : ((256 : Int) - -64) = 320 := by decide
  obtain ⟨p1, p2, p3, p4, p5, -, p7⟩ := pan_zoom0 s1 s2 a2 b2 h2 hd hz (-64) 0 (-64) (-239)
    (by decide) (by decide) (by decide) (by decide) ha hb ea2 eb2 (Or.inr (by decide))
  obtain ⟨q1, q2⟩ := p7 (by rw [hst]; decide) (by decide) (by decide)
  rw [hst, n1, n2] at q1
  have r2 : s2._stable_rect = ⟨0, 239, 240, 1⟩ := by rw [q1]; decide
  have c2 := q2 1 239 (by decide) (by decide)
  rw [n1, n2, if_pos (by decide)] at c2
  have e10 : (1 : Int) + 0 = 1 := by decide
  have e11 : (239 : Int) + -239 = 0 := by decide
  rw [e10, e11] at c2
  obtain ⟨t1, t2, t3, t4, t5, -, t7⟩ := pan_zoom0 s2 s3 a3 b3 h3 p4 p3 (-64) (-239) (-64) (-237)
    (by decide) (by decide) (by decide) (by decide) p1 p2 ea3 eb3 (Or.inr (by decide))
  obtain ⟨u1, u2⟩ := t7 (by rw [r2]; decide) (by decide) (by decide)
  rw [r2, n1, n3] at u1
  have r3 : s3._stable_rect = ⟨0, 239, 0, 0⟩ := by rw [u1]; decide
  have c3 := u2 1 237 (by decide) (by decide)
  rw [n1, n3, if_pos (by decide)] at c3
  have e12 : (237 : Int) + 2 = 239 := by decide
  rw [e10, e12] at c3
  obtain ⟨v1, v2, v3, v4, v5, v6, -⟩ := pan_zoom0 s3 s4 a4 b4 h4 t4 t3 (-64) (-237) 256 (-237)
    (by decide) (by decide) (by decide) (by decide) t1 t2 ea4 eb4 (Or.inl (by decide))
  obtain ⟨w1, w2⟩ := v6 (by rw [r3]; decide)
  have dlt := (delta_zoom0 s3 s4 t3 v3 (-64) (-237) 256 (-237) (by decide) (by decide)
    (by decide) (by decide) t1 t2 v1 v2).1
  rw [n4] at dlt
  refine ⟨r3, dlt, v4, v3, v1, v2, ?_, ?_, ?_⟩
  · rw [w2, r3]
  · rw [v5, t5, p5]
  · rw [w1, c3, c2]

/-- The chain of `stale_row_chain` from a state `s0` at the default viewport
whose cell `(1, 0)` is `0`: after `render` and the three `set_pos` calls the
stable rectangle is empty and cell `(1, 237)` holds the value `render` computed
for cell `(1, 0)` of the first viewport, which is `6`. -/
theorem stale_cell_chain (s0 s1 s2 s3 s4 : TinyMandelbrot) (a2 b2 a3 b3 a4 b4 : Int)
    (hd : GridDims s0) (hs : StableInside s0) (hw : ArrayQueue.WF 12 s0.queue)
    (hq : s0.queue._size = 0) (hz : s0._zoom = 0) (ha : s0._a = 131072 * (-64))
    (hb : s0._b = 131072 * 0) (hc : s0.buff.data (0 * 240 + 1) = 0)
    (h1 : s1 = s0.render)
    (h2 : s2 = s1.set_pos a2 b2) (h3 : s3 = s2.set_pos a3 b3) (h4 : s4 = s3.set_pos a4 b4)
    (ea2 : a2 = 131072 * (-64)) (eb2 : b2 = 131072 * (-239))
    (ea3 : a3 = 131072 * (-64)) (eb3 : b3 = 131072 * (-237))
    (ea4 : a4 = 131072 * 256) (eb4 : b4 = 131072 * (-237)) :
    s3.stable_rect.empty = true ∧ wrap32 (s4.a_pixel - s3.a_pixel) = 320 ∧
    s4.stable_rect.empty = true ∧ s4.buff.get ⟨1, 237⟩ = 6 ∧
    (GridDims s4 ∧ StableInside s4 ∧ ArrayQueue.WF 12 s4.queue ∧ s4.queue._size = 0 ∧
      s4._zoom = 0 ∧ s4._a = 131072 * 256 ∧ s4._b = 131072 * (-237) ∧
      s4._stable_rect = ⟨0, 239, 0, 0⟩) := by
  obtain ⟨g1, g2, g3, g4, g5, g6, g7⟩ := rendered_zoom0 s0 s1 h1 hd hs hw hq
  have v0 : s0.raster_value 1 0 = 6 := by
    have e1 : (131072 : Int) * (-64 - 120 + 1) = -23986176 := by decide
    have e2 : (131072 : Int) * (0 - 120 + 0) = -15728640 := by decide
    rw [raster_zoom0 s0 hz (-64) 0 (by decide) (by decide) ha hb 1 0 (by decide) (by decide),
      e1, e2, mandelbrot_sample_first]
  have c1 : s1.buff.get ⟨1, 0⟩ = 6 := by
    rw [h1, render_border_cell s0 hd hs hw hq 1 0 (by decide) (by decide)
      (Or.inr (Or.inr (Or.inl rfl))) hc, v0]
  obtain ⟨k1, k2, k3, k4, k5, k6, k7, k8, k9⟩ := stale_row_chain s1 s2 s3 s4 a2 b2 a3 b3 a4 b4
    g1 (by rw [g4, hz]) (by rw [g2, ha]) (by rw [g3, hb]) g5 h2 h3 h4 ea2 eb2 ea3 eb3 ea4 eb4
  refine ⟨?_, k2, ?_, ?_, k3, ?_, ?_, ?_, k4, k5, k6, k7⟩
  · rw [stable_rect_eq, k1]; decide
  · rw [stable_rect_eq, k7]; decide
  · rw [k9, c1]
  · unfold StableInside
    rw [k7]
    decide
  · rw [k8]; exact g6
  · rw [k8]; exact g7

/-- C4 (full invalidation on a large pan), the code at a failing input: the
state reached by construction, `render()`, `set_pos(FIXED(-0.5), -239 px)` and
`set_pos(FIXED(-0.5), -237 px)` is reachable and has an empty stable rectangle;
`set_pos(FIXED(2), -237 px)` then moves the view by 320 pixels, at least `W`,
and leaves cell `(1, 237)` at the value `6` it held, not `0`. -/
theorem C4_large_pan_keeps_cells :
    Reachable (((TinyMandelbrot.new (fun _ => 0) (fun _ => ⟨0, 0⟩)).render.set_pos (-8388608)
      (-31326208)).set_pos (-8388608) (-31064064)) ∧
    (((TinyMandelbrot.new (fun _ => 0) (fun _ => ⟨0, 0⟩)).render.set_pos (-8388608)
      (-31326208)).set_pos (-8388608) (-31064064)).stable_rect.empty = true ∧
    wrap32 (((((TinyMandelbrot.new (fun _ => 0) (fun _ => ⟨0, 0⟩)).render.set_pos (-8388608)
      (-31326208)).set_pos (-8388608) (-31064064)).set_pos 33554432 (-31064064)).a_pixel
      - (((TinyMandelbrot.new (fun _ => 0) (fun _ => ⟨0, 0⟩)).render.set_pos (-8388608)
      (-31326208)).set_pos (-8388608) (-31064064)).a_pixel) = 320 ∧
    ((((TinyMandelbrot.new (fun _ => 0) (fun _ => ⟨0, 0⟩)).render.set_pos (-8388608)
      (-31326208)).set_pos (-8388608) (-31064064)).set_pos 33554432
      (-31064064)).stable_rect.empty = true ∧
    ((((TinyMandelbrot.new (fun _ => 0) (fun _ => ⟨0, 0⟩)).render.set_pos (-8388608)
      (-31326208)).set_pos (-8388608) (-31064064)).set_pos 33554432
      (-31064064)).buff.get ⟨1, 237⟩ = 6 :=
  have hn := new_inv (fun _ => 0) (fun _ => ⟨0, 0⟩)
  have hf := new_fields (fun _ => 0) (fun _ => ⟨0, 0⟩)
  have hq := reachable_queue (Reachable.new (fun _ => 0) (fun _ => ⟨0, 0⟩))
  have hc := stale_cell_chain (TinyMandelbrot.new (fun _ => 0) (fun _ => ⟨0, 0⟩)) _ _ _ _
    (-8388608) (-31326208) (-8388608) (-31064064) 33554432 (-31064064)
    hn.1 hn.2.1 hq.1 hq.2 hf.2.2.2.2.1 hf.2.2.1 hf.2.2.2.1
    (new_data _ _ 1 0 (by decide) (by decide)) rfl rfl rfl rfl
    (by decide) (by decide) (by decide) (by decide) (by decide) (by decide)
  ⟨Reachable.set_pos _ _ (by decide) (by decide)
    (Reachable.set_pos _ _ (by decide) (by decide)
      (Reachable.render (Reachable.new _ _))), hc.1, hc.2.1, hc.2.2.1, hc.2.2.2.1⟩

set_option maxRecDepth 100000 in
/-- The kernel at the plane point of cell `(239, 239)` of the default
viewport. -/
theorem mandelbrot_sample_corner : mandelbrot_func 7208960 15597568 = 4 := by decide

theorem tasks_thin_rect : rect_tasks ⟨0, 0, 1, 2⟩ = [⟨0, 0⟩] := by decide

theorem on_perimeter_thin : on_perimeter ⟨0, 0, 1, 2⟩ 0 1 := by
  unfold on_perimeter
  decide

/-- After `render` at the default viewport and a pan by `(239, 238)` pixels the
stable rectangle is `(0, 0, 1, 2)`; the forced seeding `push_task_rect` of this
rectangle is the single call `push_task((0, 0), true)`: it leaves cell `(0, 1)`,
on the perimeter, at its computed value `6` and does not enqueue it. -/
theorem seed_miss_chain (s0 s1 t : TinyMandelbrot) (a1 b1 : Int)
    (hd : GridDims s0) (hs : StableInside s0) (hw : ArrayQueue.WF 12 s0.queue)
    (hq : s0.queue._size = 0) (hz : s0._zoom = 0) (ha : s0._a = 131072 * (-64))
    (hb : s0._b = 131072 * 0) (hc : s0.buff.data (239 * 240 + 239) = 0)
    (h1 : s1 = s0.render) (ht : t = s1.set_pos a1 b1)
    (ea : a1 = 131072 * 175) (eb : b1 = 131072 * 238) :
    t.stable_rect = ⟨0, 0, 1, 2⟩ ∧
    t.push_task_rect t.stable_rect true = t.push_task ⟨0, 0⟩ true ∧
    (t.push_task_rect t.stable_rect true).buff.get ⟨0, 1⟩ = 6 ∧
    (⟨0, 1⟩ : pos_t) ∉ (t.push_task_rect t.stable_rect true).queue.toList := by
  have n1 : ((175 : Int) - -64) = 239 := by decide
  have n2 : ((238 : Int) - 0) = 238 := by decide
  have e1 : (131072 : Int) * (-64 - 120 + 239) = 7208960 := by decide
  have e2 : (131072 : Int) * (0 - 120 + 239) = 15597568 := by decide
  have e3 : (0 : Int) + 239 = 239 := by decide
  have e4 : (1 : Int) + 238 = 239 := by decide
  obtain ⟨g1, g2, g3, g4, g5, g6, g7⟩ := rendered_zoom0 s0 s1 h1 hd hs hw hq
  have v0 : s0.raster_value 239 239 = 6 := by
    rw [raster_zoom0 s0 hz (-64) 0 (by decide) (by decide) ha hb 239 239 (by decide) (by decide),
      e1, e2, mandelbrot_sample_corner]
  have c1 : s1.buff.get ⟨239, 239⟩ = 6 := by
    rw [h1, render_border_cell s0 hd hs hw hq 239 239 (by decide) (by decide)
      (Or.inr (Or.inl rfl)) hc, v0]
  obtain ⟨p1, p2, p3, p4, p5, -, p7⟩ := pan_zoom0 s1 t a1 b1 ht g1 (by rw [g4, hz]) (-64) 0
    175 238 (by decide) (by decide) (by decide) (by decide) (by rw [g2, ha]) (by rw [g3, hb])
    ea eb (Or.inl (by decide))
  obtain ⟨q1, q2⟩ := p7 (by rw [g5]; decide) (by decide) (by decide)
  rw [g5, n1, n2] at q1
  have r1 : t._stable_rect = ⟨0, 0, 1, 2⟩ := by rw [q1]; decide
  have c2 := q2 0 1 (by decide) (by decide)
  rw [n1, n2, if_pos (by decide), e3, e4, c1] at c2
  have hst : t.stable_rect = ⟨0, 0, 1, 2⟩ := by rw [stable_rect_eq, r1]
  have hpt : t.push_task_rect t.stable_rect true = t.push_task ⟨0, 0⟩ true := by
    rw [hst, push_task_rect_eq, tasks_thin_rect]
    rfl
  have hl : t.queue.toList = [] := by
    apply toList_of_size_zero
    rw [p5]
    exact g7
  have hwt : ArrayQueue.WF 12 t.queue := by rw [p5]; exact g6
  refine ⟨hst, hpt, ?_, ?_⟩
  · rw [hpt, get_240 _ (push_task_dims t _ true p4),
      push_task_other t p4 ⟨0, 0⟩ true 0 1 (by decide) (by decide), ← get_240 t p4, c2]
  · rw [hpt]
    refine push_task_elim (fun u => (⟨0, 1⟩ : pos_t) ∉ u.queue.toList) t ⟨0, 0⟩ true ?_ ?_
    · show (⟨0, 1⟩ : pos_t) ∉ t.queue.toList
      rw [hl]
      exact List.not_mem_nil _
    · intro _ _
      show (⟨0, 1⟩ : pos_t) ∉ (t.queue.push ⟨0, 0⟩).2.toList
      rcases push_cases t.queue hwt ⟨0, 0⟩ with c | c
      · rw [c.2.1, hl]
        decide
      · rw [c.2, hl]
        exact List.not_mem_nil _

/-- C21 (forced seeding covers the whole perimeter), the code at a failing
input: the state reached by construction, `render()` and a pan by `(239, 238)`
pixels is reachable and has the stable rectangle `(0, 0, 1, 2)`, one pixel wide;
pixel `(0, 1)` lies on its perimeter, but `push_task_rect` of this rectangle
with `force = true` leaves cell `(0, 1)` at its computed value `6`, not at the
pending value `1`, and the queue afterwards does not hold `(0, 1)`. -/
theorem C21_seeding_misses_perimeter :
    Reachable ((TinyMandelbrot.new (fun _ => 0) (fun _ => ⟨0, 0⟩)).render.set_pos 22937600
      31195136) ∧
    ((TinyMandelbrot.new (fun _ => 0) (fun _ => ⟨0, 0⟩)).render.set_pos 22937600
      31195136).stable_rect = ⟨0, 0, 1, 2⟩ ∧
    on_perimeter ⟨0, 0, 1, 2⟩ 0 1 ∧
    (((TinyMandelbrot.new (fun _ => 0) (fun _ => ⟨0, 0⟩)).render.set_pos 22937600
      31195136).push_task_rect
        ((TinyMandelbrot.new (fun _ => 0) (fun _ => ⟨0, 0⟩)).render.set_pos 22937600
          31195136).stable_rect true).buff.get ⟨0, 1⟩ = 6 ∧
    (⟨0, 1⟩ : pos_t) ∉
      (((TinyMandelbrot.new (fun _ => 0) (fun _ => ⟨0, 0⟩)).render.set_pos 22937600
        31195136).push_task_rect
          ((TinyMandelbrot.new (fun _ => 0) (fun _ => ⟨0, 0⟩)).render.set_pos 22937600
            31195136).stable_rect true).queue.toList :=
  have hn := new_inv (fun _ => 0) (fun _ => ⟨0, 0⟩)
  have hf := new_fields (fun _ => 0) (fun _ => ⟨0, 0⟩)
  have hq := reachable_queue (Reachable.new (fun _ => 0) (fun _ => ⟨0, 0⟩))
  have hc := seed_miss_chain (TinyMandelbrot.new (fun _ => 0) (fun _ => ⟨0, 0⟩)) _ _
    22937600 31195136 hn.1 hn.2.1 hq.1 hq.2 hf.2.2.2.2.1 hf.2.2.1 hf.2.2.2.1
    (new_data _ _ 239 239 (by decide) (by decide)) rfl rfl (by decide) (by decide)
  ⟨Reachable.set_pos _ _ (by decide) (by decide) (Reachable.render (Reachable.new _ _)),
    hc.1, on_perimeter_thin, hc.2.2.1, hc.2.2.2⟩
